import Mathlib

/-! Batch partitioning, the retry driver and the batch request flow.

A shallow embedding of `bigquery/common/batching/batching.go` (the `Batch` container and
`Batcher.Batch`), of `bigquery/common/messaging/http.go` (the status-code families and
`SendRequest`), of `bigquery/common/messaging/skyflow/common.go` (the `BatchFlow`
state machine) together with the detokenize flow handler of `detokenize.go`, and of the
batch submitter of `bigquery/detokenize/cmd/main.go`.

Conventions of the embedding:

* a Go `error` is its message; a possibly-nil `error` is an `Option String`, `none` being `nil`;
* a method that mutates its receiver returns the new receiver;
* the collaborators behind Go interfaces are fields of a structure; a collaborator that talks to
  the outside world receives and returns a world state;
* a run-time panic (nil dereference, index out of range) is the `none` of an `Option`.
-/

namespace Batching

/-! ## The batch container -/

/-- The `Batch[V]` struct: positions of the input paired with values, and a fixed capacity.
Go's `make` panics on a negative capacity, so capacities are natural numbers. -/
structure Batch (V : Type) where
  Indices : List Nat
  Values : List V
  capacity : Nat
deriving DecidableEq, Repr

/-- `NewBatch(capacity)`: an empty batch. -/
def NewBatch {V : Type} (capacity : Nat) : Batch V :=
  { Indices := [], Values := [], capacity := capacity }

/-- `Size()`: the number of indices. -/
def Batch.Size {V : Type} (batch : Batch V) : Nat :=
  batch.Indices.length

/-- `IsFull()`: the size equals the capacity. -/
def Batch.IsFull {V : Type} (batch : Batch V) : Bool :=
  batch.Size == batch.capacity

/-- `IsEmpty()`: the size is zero. -/
def Batch.IsEmpty {V : Type} (batch : Batch V) : Bool :=
  batch.Size == 0

/-- `Reset()`: both slices are truncated to length zero, the capacity stays. -/
def Batch.Reset {V : Type} (batch : Batch V) : Batch V :=
  { batch with Indices := [], Values := [] }

/-- `Capacity()`. -/
def Batch.Capacity {V : Type} (batch : Batch V) : Nat :=
  batch.capacity

/-- `Append(index, value)`: rejected on a full batch, otherwise the pair goes to the end. -/
def Batch.Append {V : Type} (batch : Batch V) (index : Nat) (value : V) :
    Except String (Batch V) :=
  if batch.IsFull then
    .error "the batch is full"
  else
    .ok { batch with Indices := batch.Indices ++ [index], Values := batch.Values ++ [value] }

/-- The `(index, value)` pairs a batch holds, in order. -/
def Batch.pairs {V : Type} (batch : Batch V) : List (Nat × V) :=
  batch.Indices.zip batch.Values

/-! ## The batcher -/

/-- One call made on a collaborator during `Batcher.Batch`, with what it returned.
`submit` records the batch as it was when it was handed to `Submit`. -/
inductive Call (K V : Type) where
  | getKey (i : Nat) (result : Except String K)
  | getValue (i : Nat) (result : Except String V)
  | submit (key : K) (batch : Batch V) (err : Option String)

/-- The call returned an error. -/
def Call.failed {K V : Type} : Call K V → Bool
  | .getKey _ (.error _) => true
  | .getValue _ (.error _) => true
  | .submit _ _ (some _) => true
  | _ => false

/-- What `Batcher.Batch` returns for a failed call: the error wrapped by `fmt.Errorf`. -/
def Call.wrapped {K V : Type} : Call K V → Option String
  | .getKey _ (.error e) => some ("error getting batch key: " ++ e)
  | .getValue _ (.error e) => some ("error getting batch value: " ++ e)
  | .submit _ _ (some e) => some ("error submitting batch: " ++ e)
  | _ => none

/-- The batches handed to `Submit`, with their keys, in call order. -/
def submissions {K V : Type} : List (Call K V) → List (K × Batch V)
  | [] => []
  | .submit key batch _ :: rest => (key, batch) :: submissions rest
  | _ :: rest => submissions rest

/-- The `Batcher[I, K, V]` struct. The two getters are functions of the item; the submitter
acts on a world state of type `σ`. -/
structure Batcher (σ I K V : Type) where
  submitter : K → Batch V → σ → Option String × σ
  keyGetter : I → Except String K
  valueGetter : I → Except String V
  capacity : Nat

/-- The map read `batchByKey[key]`. -/
def lookup {K V : Type} [DecidableEq K] (key : K) : List (K × Batch V) → Option (Batch V)
  | [] => none
  | (k, batch) :: rest => if k = key then some batch else lookup key rest

/-- The map write `batchByKey[key] = batch`; it also stands for a change made through the
pointer the map holds for `key`. -/
def store {K V : Type} [DecidableEq K] (key : K) (batch : Batch V) :
    List (K × Batch V) → List (K × Batch V)
  | [] => [(key, batch)]
  | (k, old) :: rest =>
    if k = key then (key, batch) :: rest else (k, old) :: store key batch rest

/-- The state of a run of `Batcher.Batch`: the local map, the world, the calls made so far. -/
structure ScanState (σ K V : Type) where
  batchByKey : List (K × Batch V)
  world : σ
  calls : List (Call K V)

/-- `Batcher.submit`: nothing for an empty batch; otherwise `Submit` is called and, when it
succeeds, the batch is reset. Returns the error, the batch afterwards, the world and the
calls made. -/
def Batcher.submit {σ I K V : Type} (batcher : Batcher σ I K V) (key : K) (batch : Batch V)
    (world : σ) : Option String × Batch V × σ × List (Call K V) :=
  if batch.IsEmpty then
    (none, batch, world, [])
  else
    match batcher.submitter key batch world with
    | (some err, world1) => (some err, batch, world1, [.submit key batch (some err)])
    | (none, world1) => (none, batch.Reset, world1, [.submit key batch none])

/-- The body of the first loop of `Batcher.Batch` for the item `x` at position `i`.
The first component is the error `Batch` returns from inside the body, if any. -/
def Batcher.scanItem {σ I K V : Type} [DecidableEq K] (batcher : Batcher σ I K V)
    (i : Nat) (x : I) (st : ScanState σ K V) : Option String × ScanState σ K V :=
  match batcher.keyGetter x with
  | .error e =>
    (some ("error getting batch key: " ++ e),
      { st with calls := st.calls ++ [.getKey i (.error e)] })
  | .ok key =>
    match batcher.valueGetter x with
    | .error e =>
      (some ("error getting batch value: " ++ e),
        { st with calls := st.calls ++ [.getKey i (.ok key), .getValue i (.error e)] })
    | .ok value =>
      let calls1 := st.calls ++ [.getKey i (.ok key), .getValue i (.ok value)]
      let (batch, map1) :=
        match lookup key st.batchByKey with
        | some batch => (batch, st.batchByKey)
        | none => (NewBatch batcher.capacity, store key (NewBatch batcher.capacity) st.batchByKey)
      match batch.Append i value with
      | .error e =>
        (some ("error appending to batch: " ++ e),
          { batchByKey := map1, world := st.world, calls := calls1 })
      | .ok batch1 =>
        let map2 := store key batch1 map1
        if batch1.IsFull then
          match batcher.submit key batch1 st.world with
          | (some e, batch2, world1, made) =>
            (some ("error submitting batch: " ++ e),
              { batchByKey := store key batch2 map2, world := world1, calls := calls1 ++ made })
          | (none, batch2, world1, made) =>
            (none,
              { batchByKey := store key batch2 map2, world := world1, calls := calls1 ++ made })
        else
          (none, { batchByKey := map2, world := st.world, calls := calls1 })

/-- The first loop of `Batcher.Batch`, over the items paired with their positions. -/
def Batcher.scan {σ I K V : Type} [DecidableEq K] (batcher : Batcher σ I K V) :
    List (Nat × I) → ScanState σ K V → Option String × ScanState σ K V
  | [], st => (none, st)
  | (i, x) :: rest, st =>
    match batcher.scanItem i x st with
    | (some e, st1) => (some e, st1)
    | (none, st1) => batcher.scan rest st1

/-- The second loop of `Batcher.Batch`: `visit` lists the entries of the map in the order in
which `range` yields them. -/
def Batcher.flush {σ I K V : Type} [DecidableEq K] (batcher : Batcher σ I K V) :
    List (K × Batch V) → ScanState σ K V → Option String × ScanState σ K V
  | [], st => (none, st)
  | (key, batch) :: rest, st =>
    match batcher.submit key batch st.world with
    | (some e, batch1, world1, made) =>
      (some ("error submitting batch: " ++ e),
        { batchByKey := store key batch1 st.batchByKey, world := world1,
          calls := st.calls ++ made })
    | (none, batch1, world1, made) =>
      batcher.flush rest
        { batchByKey := store key batch1 st.batchByKey, world := world1,
          calls := st.calls ++ made }

/-- The state in which `Batcher.Batch` starts: an empty map and no calls made. -/
def initial {σ K V : Type} (world : σ) : ScanState σ K V :=
  { batchByKey := [], world := world, calls := [] }

/-- What a run of `Batcher.Batch` leaves behind: the returned error (`none` is `nil`), the
world, the calls made in order, and the local map as it was on return. -/
structure Run (σ K V : Type) where
  err : Option String
  world : σ
  calls : List (Call K V)
  buffered : List (K × Batch V)

/-- `Batcher.Batch(in)`. The iteration order of a Go map is unspecified, so the order in which
the final loop visits the map is the parameter `order`, which rearranges the entries. -/
def Batcher.Batch {σ I K V : Type} [DecidableEq K] (batcher : Batcher σ I K V)
    (order : List (K × Batch V) → List (K × Batch V)) (input : List I) (world : σ) :
    Run σ K V :=
  match batcher.scan input.enum (initial world) with
  | (some e, st) =>
    { err := some e, world := st.world, calls := st.calls, buffered := st.batchByKey }
  | (none, st) =>
    match batcher.flush (order st.batchByKey) st with
    | (err, st1) =>
      { err := err, world := st1.world, calls := st1.calls, buffered := st1.batchByKey }

/-! ## Vocabulary for the properties of a run -/

/-- The pairs of the batches submitted under `key`, concatenated in submission order. -/
def pairsUnder {K V : Type} [DecidableEq K] (key : K) (subs : List (K × Batch V)) :
    List (Nat × V) :=
  (subs.filter (fun s => decide (s.1 = key))).flatMap (fun s => s.2.pairs)

/-- The pairs buffered for `key` in the map. -/
def bufferedPairs {K V : Type} [DecidableEq K] (key : K) (m : List (K × Batch V)) :
    List (Nat × V) :=
  match lookup key m with
  | some batch => batch.pairs
  | none => []

/-- The entry an item contributes under `key`: its position and value when both getters
succeed and the key of the item is `key`. -/
def Batcher.entryFor {σ I K V : Type} [DecidableEq K] (batcher : Batcher σ I K V) (key : K)
    (p : Nat × I) : Option (Nat × V) :=
  match batcher.keyGetter p.2, batcher.valueGetter p.2 with
  | .ok k, .ok v => if k = key then some (p.1, v) else none
  | _, _ => none

/-- The positions of the items whose key is `key`, each with its value, in input order. -/
def Batcher.keyedPairs {σ I K V : Type} [DecidableEq K] (batcher : Batcher σ I K V) (key : K)
    (items : List (Nat × I)) : List (Nat × V) :=
  items.filterMap (batcher.entryFor key)

/-- The submission an item causes on its own when the capacity is one. -/
def Batcher.single {σ I K V : Type} (batcher : Batcher σ I K V) (p : Nat × I) :
    Option (K × Batching.Batch V) :=
  match batcher.keyGetter p.2, batcher.valueGetter p.2 with
  | .ok k, .ok v => some (k, { Indices := [p.1], Values := [v], capacity := 1 })
  | _, _ => none

/-- The invariant of the first loop of `Batcher.Batch` after the items `done` went through
without an error: the keys of the map are distinct, every buffered batch has the capacity of
the batcher and room left, every submitted batch was full, for every key the submitted pairs
followed by the buffered ones are the pairs of the items seen under that key, no call failed,
and both getters succeeded on every item seen. -/
structure ScanInv {σ I K V : Type} [DecidableEq K] (batcher : Batcher σ I K V)
    (done : List (Nat × I)) (st : ScanState σ K V) : Prop where
  nodup : (st.batchByKey.map Prod.fst).Nodup
  room : ∀ p ∈ st.batchByKey, p.2.capacity = batcher.capacity ∧
    p.2.Indices.length < batcher.capacity ∧ p.2.Values.length = p.2.Indices.length
  full : ∀ s ∈ submissions st.calls, s.2.Indices.length = batcher.capacity ∧
    s.2.Values.length = batcher.capacity
  cover : ∀ key, pairsUnder key (submissions st.calls) ++ bufferedPairs key st.batchByKey =
    batcher.keyedPairs key done
  clean : ∀ c ∈ st.calls, c.failed = false
  getters : ∀ p ∈ done, ∃ k v, batcher.keyGetter p.2 = .ok k ∧ batcher.valueGetter p.2 = .ok v

/-- The batch the loop body works on for `key`: the one in the map, or a new one. -/
def current {K V : Type} [DecidableEq K] (capacity : Nat) (key : K) (m : List (K × Batch V)) :
    Batch V :=
  (lookup key m).getD (NewBatch capacity)

/-- The batch after the pair `(i, value)` went in. -/
def grown {V : Type} (batch : Batch V) (i : Nat) (value : V) : Batch V :=
  { batch with Indices := batch.Indices ++ [i], Values := batch.Values ++ [value] }

/-- No call of the list failed. -/
def Clean {K V : Type} (calls : List (Call K V)) : Prop :=
  ∀ c ∈ calls, c.failed = false

/-- The run stopped at a failed call: it is the last call, no call before it failed, and the
run returned its error wrapped. -/
def Stopped {K V : Type} (err : Option String) (calls : List (Call K V)) : Prop :=
  ∃ pre c, calls = pre ++ [c] ∧ Clean pre ∧ c.failed = true ∧ err = c.wrapped

/-- The entries of the map the final loop hands to `Submit`: the non-empty ones. -/
def toFlush {K V : Type} (visit : List (K × Batch V)) : List (K × Batch V) :=
  visit.filter (fun p => !p.2.IsEmpty)

/-- The key of the item is `key`. -/
def Batcher.hasKey {σ I K V : Type} [DecidableEq K] (batcher : Batcher σ I K V) (key : K)
    (x : I) : Bool :=
  match batcher.keyGetter x with
  | .ok k => decide (k = key)
  | .error _ => false

/-- Every `GetBatchValue` call comes after a successful `GetBatchKey` call for the same
position. -/
def KeyFirst {K V : Type} (calls : List (Call K V)) : Prop :=
  ∀ pre i r post, calls = pre ++ Call.getValue i r :: post →
    ∃ k, Call.getKey i (.ok k) ∈ pre

/-- A batcher over natural numbers: the key of an item comes from the table
`1, 0, 1, 2, 0, 1`, its value is its triple, the capacity is two, and the submitter records
what it is handed and never fails. Extraction fails on items from one hundred on. -/
def sampleBatcher : Batcher (List (Nat × Batch Nat)) Nat Nat Nat where
  submitter := fun key batch world => (none, world ++ [(key, batch)])
  keyGetter := fun x => if x < 100 then .ok ([1, 0, 1, 2, 0, 1].getD x 0) else .error "bad key"
  valueGetter := fun x => if x < 100 then .ok (x * 3) else .error "bad value"
  capacity := 2

/-- The sample batcher with a submitter that refuses the key zero. -/
def refusingBatcher : Batcher (List (Nat × Batch Nat)) Nat Nat Nat :=
  { sampleBatcher with
    submitter := fun key batch world =>
      if key = 0 then (some "test-error", world) else (none, world ++ [(key, batch)]) }

/-- The sample batcher with the capacity zero. -/
def zeroBatcher : Batcher (List (Nat × Batch Nat)) Nat Nat Nat :=
  { sampleBatcher with capacity := 0 }

end Batching

namespace Batching.Sliced

/-! ## The batch container with its slices (`bigquery/common/batching/batching.go`)
The batcher above works on the elements of a batch alone. Here the two slices of a batch are
kept as Go holds them, each with its reserved storage, and the indices are Go `int`s. -/

/-- A Go slice as far as a batch depends on it: the elements `s[0]`, ..., `s[len(s)-1]` and
the reserved storage `cap(s)`, which is never less than the length. -/
structure Slice (α : Type) where
  items : List α
  cap : Nat
  bound : items.length ≤ cap

/-- `len(s)`. -/
def Slice.len {α : Type} (s : Slice α) : Nat :=
  s.items.length

/-- `make([]T, 0, capacity)` for a capacity that is not negative. -/
def Slice.make {α : Type} (capacity : Nat) : Slice α :=
  { items := [], cap := capacity, bound := Nat.zero_le _ }

/-- `s[:0]`: no element, the same storage. -/
def Slice.truncate {α : Type} (s : Slice α) : Slice α :=
  { items := [], cap := s.cap, bound := Nat.zero_le _ }

/-- `append(s, x)`: the element goes into the reserved storage when there is room. Otherwise
the runtime allocates new storage, whose size the language leaves open beyond its holding the
elements: `grow` gives the size the runtime picks for the length needed. -/
def Slice.append {α : Type} (grow : Nat → Nat) (s : Slice α) (x : α) : Slice α :=
  if h : s.items.length < s.cap then
    { items := s.items ++ [x], cap := s.cap, bound := by simp; omega }
  else
    { items := s.items ++ [x], cap := max (grow (s.items.length + 1)) (s.items.length + 1),
      bound := by simp }

/-- The `Batch[V]` struct. -/
structure Batch (V : Type) where
  Indices : Slice Int
  Values : Slice V
  capacity : Int

/-- `NewBatch(capacity)`; `make` panics on a negative capacity, which is `none`. -/
def NewBatch {V : Type} (capacity : Int) : Option (Batch V) :=
  if 0 ≤ capacity then
    some { Indices := Slice.make capacity.toNat, Values := Slice.make capacity.toNat,
           capacity := capacity }
  else
    none

/-- `NewBatchFrom(indices, values)`. -/
def NewBatchFrom {V : Type} (indices : Slice Int) (values : Slice V) :
    Except String (Batch V) :=
  if indices.len ≠ values.len then
    .error ("the number of indices and values must be the same: " ++ toString indices.len ++
      " != " ++ toString values.len)
  else if indices.cap ≠ values.cap then
    .error ("the capacities of the indices and values must be the same: " ++
      toString indices.cap ++ " != " ++ toString values.cap)
  else
    .ok { Indices := indices, Values := values, capacity := indices.cap }

/-- `Size()`. -/
def Batch.Size {V : Type} (batch : Batch V) : Nat :=
  batch.Indices.len

/-- `Capacity()`. -/
def Batch.Capacity {V : Type} (batch : Batch V) : Int :=
  batch.capacity

/-- `IsFull()`. -/
def Batch.IsFull {V : Type} (batch : Batch V) : Bool :=
  (batch.Size : Int) == batch.capacity

/-- `IsEmpty()`. -/
def Batch.IsEmpty {V : Type} (batch : Batch V) : Bool :=
  batch.Size == 0

/-- `Append(index, value)`: the returned error (`none` is `nil`) and the batch afterwards. -/
def Batch.Append {V : Type} (grow : Nat → Nat) (batch : Batch V) (index : Int) (value : V) :
    Option String × Batch V :=
  if batch.IsFull then
    (some "the batch is full", batch)
  else
    (none, { batch with Indices := batch.Indices.append grow index,
                        Values := batch.Values.append grow value })

/-- `Reset()`. -/
def Batch.Reset {V : Type} (batch : Batch V) : Batch V :=
  { batch with Indices := batch.Indices.truncate, Values := batch.Values.truncate }

/-- The batches a program gets from the two constructors, `Append` and `Reset`; the number
is the capacity fixed at construction. -/
inductive Made {V : Type} : Int → Batch V → Prop where
  | new (capacity : Int) (batch : Batch V) (h : NewBatch capacity = some batch) :
      Made capacity batch
  | ofSlices (indices : Slice Int) (values : Slice V) (batch : Batch V)
      (h : NewBatchFrom indices values = .ok batch) : Made indices.cap batch
  | append (capacity : Int) (batch : Batch V) (grow : Nat → Nat) (index : Int) (value : V)
      (h : Made capacity batch) : Made capacity (batch.Append grow index value).2
  | reset (capacity : Int) (batch : Batch V) (h : Made capacity batch) :
      Made capacity batch.Reset

/-- The slice `make([]int, 2, 3)` of the tests. -/
def sampleIndices : Slice Int :=
  { items := [0, 0], cap := 3, bound := by decide }

/-- The slice `make([]int, 2, 4)` of the tests. -/
def sampleValues : Slice Int :=
  { items := [0, 0], cap := 4, bound := by decide }

/-- A slice that holds the given elements and has no storage beyond them. -/
def Slice.ofList {α : Type} (items : List α) : Slice α :=
  { items := items, cap := items.length, bound := Nat.le_refl _ }

/-- The batch `NewBatchFrom` makes of the indices `0, 1` and the values `2, 4`. -/
def sampleBatch : Batch Int :=
  { Indices := Slice.ofList [0, 1], Values := Slice.ofList [2, 4], capacity := 2 }

/-- The batch of the indices `0, 1` and the values `2, 4` with storage for three pairs. -/
def roomyBatch : Batch Int :=
  { Indices := { items := [0, 1], cap := 3, bound := by decide },
    Values := { items := [2, 4], cap := 3, bound := by decide }, capacity := 3 }

end Batching.Sliced

namespace Messaging

/-! ## Status-code families (`bigquery/common/messaging/http.go`) -/

/-- `http.StatusContinue`. -/
def StatusContinue : Int := 100

/-- `http.StatusOK`. -/
def StatusOK : Int := 200

/-- `http.StatusMultipleChoices`. -/
def StatusMultipleChoices : Int := 300

/-- `http.StatusBadRequest`. -/
def StatusBadRequest : Int := 400

/-- `http.StatusTooManyRequests`. -/
def StatusTooManyRequests : Int := 429

/-- `http.StatusInternalServerError`. -/
def StatusInternalServerError : Int := 500

/-- `IsInformationalStatusCode`: 1xx. -/
def IsInformationalStatusCode (statusCode : Int) : Bool :=
  decide (StatusContinue ≤ statusCode) && decide (statusCode < StatusOK)

/-- `IsSuccessfulStatusCode`: 2xx. -/
def IsSuccessfulStatusCode (statusCode : Int) : Bool :=
  decide (StatusOK ≤ statusCode) && decide (statusCode < StatusMultipleChoices)

/-- `IsRedirectionStatusCode`: 3xx. -/
def IsRedirectionStatusCode (statusCode : Int) : Bool :=
  decide (StatusMultipleChoices ≤ statusCode) && decide (statusCode < StatusBadRequest)

/-- `IsClientErrorStatusCode`: 4xx. -/
def IsClientErrorStatusCode (statusCode : Int) : Bool :=
  decide (StatusBadRequest ≤ statusCode) && decide (statusCode < StatusInternalServerError)

/-- `IsServerErrorStatusCode`: 5xx. -/
def IsServerErrorStatusCode (statusCode : Int) : Bool :=
  decide (StatusInternalServerError ≤ statusCode) && decide (statusCode < 600)

/-! ## The retry driver (`bigquery/common/messaging/http.go`) -/

/-- The `RequestFlow` interface over the state `σ` that the flow keeps; `IsDone` reads it. -/
structure RequestFlow (σ : Type) where
  Send : σ → Option String × σ
  IsDone : σ → Bool

/-- The `ExponentialBackoff` struct. The durations are in nanoseconds; the two factors,
floating-point numbers in the source, are kept as rationals. Only `MaxTries` bears on the
number of tries; the other fields set the waits between them. -/
structure ExponentialBackoff where
  InitialInterval : Int
  RandomizationFactor : Rat
  Multiplier : Rat
  MaxInterval : Int
  MaxTries : Nat

/-- `DefaultExponentialBackoff`. -/
def DefaultExponentialBackoff : ExponentialBackoff :=
  { MaxTries := 3, InitialInterval := 1000000000, RandomizationFactor := 3 / 10,
    Multiplier := 2, MaxInterval := 20000000000 }

/-- The errors the operation of `SendRequest` returns: `backoff.Permanent(err)`, that has the
message of `err` and unwraps to it, and the dummy error `errors.New("")` that asks for
another try. -/
inductive OperationError where
  | permanent (err : String)
  | again (err : String)
deriving DecidableEq, Repr

/-- The state of a flow with the results of the `Send` calls made on it so far, oldest
first. -/
structure Tried (σ : Type) where
  state : σ
  sends : List (Option String)

/-- The closure `operation` of `SendRequest`: one `Send`, whose error is permanent; without
an error, a flow that is not done asks for another try. -/
def SendRequest.operation {σ : Type} (flow : RequestFlow σ) (tried : Tried σ) :
    Option OperationError × Tried σ :=
  match flow.Send tried.state with
  | (some err, state) =>
    (some (.permanent err), { state := state, sends := tried.sends ++ [some err] })
  | (none, state) =>
    if !flow.IsDone state then
      (some (.again ""), { state := state, sends := tried.sends ++ [none] })
    else
      (none, { state := state, sends := tried.sends ++ [none] })

/-- Modelled from the spec: `backoff.Retry`, which `SendRequest` calls, belongs to the module
`github.com/cenkalti/backoff/v5`, whose source is not among the files of the repository. The
spec (4.4, Retry driver) has the loop run up to the maximum number of tries: a try without an
error ends the loop with success, a try with a permanent error ends it at once with that
error, and after any other error the loop waits and tries again; when the tries are used up
the loop ends with the error of the last one. The waits are left out, and with a budget of
no tries, of which the spec says nothing more, the loop makes none. -/
def Retry {τ : Type} (operation : τ → Option OperationError × τ) :
    Nat → τ → Option OperationError × τ
  | 0, state => (none, state)
  | tries + 1, state =>
    match operation state with
    | (none, state1) => (none, state1)
    | (some (.permanent err), state1) => (some (.permanent err), state1)
    | (some (.again err), state1) =>
      if tries = 0 then (some (.again err), state1) else Retry operation tries state1

/-- What `SendRequest` leaves behind: the returned error (`none` is `nil`), the state of the
flow, and the results of the `Send` calls it made, oldest first. -/
structure Driven (σ : Type) where
  err : Option String
  state : σ
  sends : List (Option String)

/-- `SendRequest`: the flow is retried under the try budget, and of the errors of the retry
loop only a permanent one is returned. -/
def SendRequest {σ : Type} (flow : RequestFlow σ) (exponentialBackoff : ExponentialBackoff)
    (state : σ) : Driven σ :=
  match Retry (SendRequest.operation flow) exponentialBackoff.MaxTries
      { state := state, sends := [] } with
  | (some (.permanent err), tried) =>
    { err := some err, state := tried.state, sends := tried.sends }
  | (_, tried) => { err := none, state := tried.state, sends := tried.sends }

/-- A flow that counts its `Send`s and is never done; the `Send` with the given number fails
with `test error`, and no `Send` fails when the number is zero. -/
def failingFlow (failAt : Nat) : RequestFlow Nat where
  Send := fun count =>
    if count + 1 = failAt then (some "test error", count + 1) else (none, count + 1)
  IsDone := fun _ => false

/-- The state of a flow after the given number of `Send`s. -/
def RequestFlow.after {σ : Type} (flow : RequestFlow σ) : Nat → σ → σ
  | 0, state => state
  | n + 1, state => flow.after n (flow.Send state).2

/-- A flow that counts its `Send`s, none of which fails, and is done from the given number of
`Send`s on. -/
def doneAfter (succeedAfter : Nat) : RequestFlow Nat where
  Send := fun nSend => (none, nSend + 1)
  IsDone := fun nSend => decide (succeedAfter ≤ nSend)

/-! ## The status code of `bigquery/common/messaging/bigquery.go` -/

/-- `StatusInternalServerErrorPermanent`. -/
def StatusInternalServerErrorPermanent : Int := 599

/-- `SendRequest` with the retry loop it calls as a parameter: the loop gets the closure
`operation` and the try budget `MaxTries` as `SendRequest` passes them to `backoff.Retry`, and
of the errors the loop returns only a permanent one is returned. -/
def SendRequest.through {σ : Type}
    (retry : (Tried σ → Option OperationError × Tried σ) → Nat → Tried σ →
      Option OperationError × Tried σ)
    (flow : RequestFlow σ) (exponentialBackoff : ExponentialBackoff) (state : σ) : Driven σ :=
  match retry (SendRequest.operation flow) exponentialBackoff.MaxTries
      { state := state, sends := [] } with
  | (some (.permanent err), tried) =>
    { err := some err, state := tried.state, sends := tried.sends }
  | (_, tried) => { err := none, state := tried.state, sends := tried.sends }

/-- A retry loop without a limit on the tries: the operation is tried, a try without an error
or with a permanent error ends the loop, and after any other error the operation is tried
again as long as the time allowed for the loop lasts, which is for `patience` more tries. -/
def retryUnlimited {τ : Type} (operation : τ → Option OperationError × τ) :
    Nat → τ → Option OperationError × τ
  | 0, state => operation state
  | patience + 1, state =>
    match operation state with
    | (none, state1) => (none, state1)
    | (some (.permanent err), state1) => (some (.permanent err), state1)
    | (some (.again _), state1) => retryUnlimited operation patience state1

/-- The retry loop with the budget of zero as the library `github.com/cenkalti/backoff/v5`
documents it, its source not being among the files of the repository: a `MaxTries` of zero
sets no limit on the tries, and the loop is then `retryUnlimited`, ended by the time the
library allows; with a budget of at least one try it is `Retry`, the loop of the spec. -/
def backoffRetry {τ : Type} (patience : Nat) (operation : τ → Option OperationError × τ)
    (maxTries : Nat) (state : τ) : Option OperationError × τ :=
  if maxTries = 0 then retryUnlimited operation patience state
  else Retry operation maxTries state

end Messaging

namespace Skyflow

/-! ## The batch request flow (`bigquery/common/messaging/skyflow/common.go`) -/

/-- The `BatchFlowHandler[I, O]` interface; `P` is the type of the payloads it builds.
Pointers `*O` that may be nil are options. `SetError` is only ever called on the address of
an element of the output, so it takes the element and returns it changed. -/
structure BatchFlowHandler (I O P : Type) where
  BuildPayload : List I → P
  SetError : O → Option String → Int → O
  DecodeBatch : Nat → String → Except String (List (Option O))
  DecodeError : String → Option String
  ShouldRetry : Option O → Bool

/-- The `http.Request` that `buildRequest` produces: method, address, the two headers it
adds, and the body. -/
structure Request where
  method : String
  url : String
  contentType : String
  authorization : String
  body : String
deriving DecidableEq, Repr

/-- What the HTTP client does with a request. `failure` is an error returned by `Do`,
`timedOut` telling whether it is a `*url.Error` whose `Timeout()` holds. `response` is a
response with its status code and what `io.ReadAll` gives for its body. -/
inductive Reply where
  | failure (err : String) (timedOut : Bool)
  | response (statusCode : Int) (body : Except String String)

/-- The library calls and the client a `Send` goes through: `json.Marshal` of the payload,
the check `http.NewRequestWithContext` makes on method and address (`none`: accepted), and
the client. -/
structure Transport (P : Type) where
  marshal : P → Except String String
  requestError : String → String → Option String
  Do : Request → Reply

/-- The `url.URL` fields `NewBatchFlow` reads. -/
structure URL where
  Scheme : String
  Host : String
deriving DecidableEq, Repr

/-- The library calls of `NewBatchFlow`: `url.Parse` and `net.SplitHostPort`, the latter
giving host and port. -/
structure UrlLib where
  Parse : String → Except String URL
  SplitHostPort : String → Except String (String × String)

/-- The `BatchFlow[I, O]` struct without the client and the timeout, which belong to the
transport of each `Send`. `input` is the field `in`; `indices` holds the positions of
`input` and `out` that are not yet processed. -/
structure BatchFlow (I O P : Type) where
  method : String
  vaultURL : String
  route : String
  bearer : String
  handler : BatchFlowHandler I O P
  input : List I
  out : List O
  indices : List Nat

/-- `NewBatchFlow`: the address is checked, the output is filled with zero values and every
position is remaining. -/
def NewBatchFlow {I O P : Type} [Inhabited O] (lib : UrlLib) (method vaultURL route bearer : String)
    (handler : BatchFlowHandler I O P) (input : List I) : Except String (BatchFlow I O P) :=
  match lib.Parse vaultURL with
  | .error err => .error ("invalid vaultURL: " ++ err)
  | .ok parsedVaultURL =>
    let notLocal : Bool :=
      match lib.SplitHostPort parsedVaultURL.Host with
      | .error _ => true
      | .ok (host, _) => host != "localhost" && host != "127.0.0.1"
    if parsedVaultURL.Scheme != "https" && parsedVaultURL.Host != "localhost" && notLocal then
      .error "invalid vaultURL: must have scheme `https` or point to localhost"
    else if parsedVaultURL.Host == "" then
      .error "invalid vaultURL: must have host"
    else
      .ok { method := method, vaultURL := vaultURL, route := route, bearer := bearer,
            handler := handler, input := input,
            out := List.replicate input.length default,
            indices := List.range input.length }

/-- `IsDone`: no unprocessed index is left. -/
def BatchFlow.IsDone {I O P : Type} (flow : BatchFlow I O P) : Bool :=
  flow.indices.length == 0

/-- `Results`. -/
def BatchFlow.Results {I O P : Type} (flow : BatchFlow I O P) : List O :=
  flow.out

/-- The loop of `setErrorOnRemainingIndices` over the remaining indices: `SetError` on
`out[index]`. An index outside the output panics. -/
def setErrors {O : Type} (SetError : O → Option String → Int → O) (error : String)
    (statusCode : Int) : List Nat → List O → Option (List O)
  | [], out => some out
  | index :: rest, out =>
    match out[index]? with
    | none => none
    | some o => setErrors SetError error statusCode rest
        (out.set index (SetError o (some error) statusCode))

/-- `setErrorOnRemainingIndices`. -/
def BatchFlow.setErrorOnRemainingIndices {I O P : Type} (flow : BatchFlow I O P)
    (error : String) (statusCode : Int) : Option (BatchFlow I O P) :=
  match setErrors flow.handler.SetError error statusCode flow.indices flow.out with
  | none => none
  | some out => some { flow with out := out }

/-- `clearRemainingIndices`. -/
def BatchFlow.clearRemainingIndices {I O P : Type} (flow : BatchFlow I O P) :
    BatchFlow I O P :=
  { flow with indices := [] }

/-- The loop of `unpackBatch`. The second list is what is left of `flow.indices` from the
current position on, so its head is `flow.indices[i]`. A decoded batch longer than the
indices, a nil entry and an index outside the output panic. -/
def unpackLoop {O : Type} (ShouldRetry : Option O → Bool) :
    List (Option O) → List Nat → List O → List Nat → Option (List O × List Nat)
  | [], _, out, newIndices => some (out, newIndices)
  | _ :: _, [], _, _ => none
  | none :: _, _ :: _, _, _ => none
  | some o :: rest, index :: remaining, out, newIndices =>
    if index < out.length then
      unpackLoop ShouldRetry rest remaining (out.set index o)
        (if ShouldRetry (some o) then newIndices ++ [index] else newIndices)
    else
      none

/-- `unpackBatch`. -/
def BatchFlow.unpackBatch {I O P : Type} (flow : BatchFlow I O P) (out : List (Option O)) :
    Option (BatchFlow I O P) :=
  match unpackLoop flow.handler.ShouldRetry out flow.indices flow.out [] with
  | none => none
  | some (newOut, newIndices) => some { flow with out := newOut, indices := newIndices }

/-- `decodeBatch`: the error of a failed decoding is the structured error of the body when
there is one, and otherwise wraps the decoding error. -/
def BatchFlow.decodeBatch {I O P : Type} (flow : BatchFlow I O P) (body : String) :
    Except String (List (Option O)) :=
  match flow.handler.DecodeBatch flow.indices.length body with
  | .ok out => .ok out
  | .error err =>
    match flow.handler.DecodeError body with
    | some decodedErr => .error decodedErr
    | none =>
      .error ("failed to decode Skyflow API response: while decoding \x27" ++ body ++
        "\x27: " ++ err)

/-- `decodeError`: the structured error of the body, or the body itself. -/
def BatchFlow.decodeError {I O P : Type} (flow : BatchFlow I O P) (body : String) : String :=
  match flow.handler.DecodeError body with
  | some err => err
  | none => body

/-- `unpackResponse` on a response with the given status code and body read. Returns the
flow afterwards and the returned error; `none` is a panic. -/
def BatchFlow.unpackResponse {I O P : Type} (flow : BatchFlow I O P) (statusCode : Int)
    (body : Except String String) : Option (BatchFlow I O P × Option String) :=
  match body with
  | .error err =>
    (flow.setErrorOnRemainingIndices
      ("failed to read Skyflow API response body: " ++ err)
      Messaging.StatusInternalServerError).map (fun flow1 => (flow1, none))
  | .ok body =>
    if Messaging.IsSuccessfulStatusCode statusCode then
      match flow.decodeBatch body with
      | .error err => some (flow, some err)
      | .ok out => (flow.unpackBatch out).map (fun flow1 => (flow1, none))
    else if Messaging.IsServerErrorStatusCode statusCode then
      match flow.decodeBatch body with
      | .error err =>
        (flow.setErrorOnRemainingIndices err statusCode).map (fun flow1 => (flow1, none))
      | .ok out => (flow.unpackBatch out).map (fun flow1 => (flow1, none))
    else if statusCode = Messaging.StatusTooManyRequests then
      (flow.setErrorOnRemainingIndices (flow.decodeError body) statusCode).map
        (fun flow1 => (flow1, none))
    else
      (flow.setErrorOnRemainingIndices (flow.decodeError body) statusCode).map
        (fun flow1 => (flow1.clearRemainingIndices, none))

/-- The inputs `buildRequest` passes to `BuildPayload`: the whole input when as many indices
remain as there are inputs, and otherwise the inputs at the remaining indices. An index
outside the input panics. -/
def BatchFlow.remainingInput {I O P : Type} (flow : BatchFlow I O P) : Option (List I) :=
  if flow.input.length = flow.indices.length then
    some flow.input
  else
    flow.indices.mapM (fun index => flow.input[index]?)

/-- `buildRequest`: no request when nothing remains; otherwise the payload of the remaining
inputs is marshalled and the request is made. `none` is a panic. -/
def BatchFlow.buildRequest {I O P : Type} (flow : BatchFlow I O P) (transport : Transport P) :
    Option (Except String (Option Request)) :=
  if flow.indices.length = 0 then
    some (.ok none)
  else
    match flow.remainingInput with
    | none => none
    | some items =>
      match transport.marshal (flow.handler.BuildPayload items) with
      | .error err => some (.error ("failed to marshal body of Skyflow API request: " ++ err))
      | .ok payloadBytes =>
        match transport.requestError flow.method (flow.vaultURL ++ flow.route) with
        | some err => some (.error ("failed to create Skyflow API request: " ++ err))
        | none =>
          some (.ok (some { method := flow.method, url := flow.vaultURL ++ flow.route,
                            contentType := "application/json",
                            authorization := "Bearer " ++ flow.bearer,
                            body := payloadBytes }))

/-- What a `Send` leaves behind: the flow afterwards, the returned error (`none` is `nil`)
and the requests handed to the client. -/
structure Sent (I O P : Type) where
  flow : BatchFlow I O P
  err : Option String
  requests : List Request

/-- `Send`: one attempt. `none` is a panic. -/
def BatchFlow.Send {I O P : Type} (flow : BatchFlow I O P) (transport : Transport P) :
    Option (Sent I O P) :=
  match flow.buildRequest transport with
  | none => none
  | some (.error err) =>
    (flow.setErrorOnRemainingIndices err Messaging.StatusInternalServerError).map
      (fun flow1 => { flow := flow1.clearRemainingIndices, err := some err, requests := [] })
  | some (.ok none) => some { flow := flow, err := none, requests := [] }
  | some (.ok (some req)) =>
    match transport.Do req with
    | .failure err timedOut =>
      (flow.setErrorOnRemainingIndices err Messaging.StatusInternalServerError).map
        (fun flow1 =>
          { flow := if timedOut then flow1.clearRemainingIndices else flow1,
            err := none, requests := [req] })
    | .response statusCode body =>
      match flow.unpackResponse statusCode body with
      | none => none
      | some (flow1, some err) =>
        (flow1.setErrorOnRemainingIndices err Messaging.StatusInternalServerError).map
          (fun flow2 =>
            { flow := flow2.clearRemainingIndices, err := some err, requests := [req] })
      | some (flow1, none) => some { flow := flow1, err := none, requests := [req] }

/-- The flows a program can hold: made by `NewBatchFlow` and taken through `Send`s. -/
inductive Reachable {I O P : Type} [Inhabited O] : BatchFlow I O P → Prop where
  | made (lib : UrlLib) (method vaultURL route bearer : String)
      (handler : BatchFlowHandler I O P) (input : List I) (flow : BatchFlow I O P)
      (h : NewBatchFlow lib method vaultURL route bearer handler input = .ok flow) :
      Reachable flow
  | sent (flow : BatchFlow I O P) (transport : Transport P) (result : Sent I O P)
      (h : Reachable flow) (hsend : flow.Send transport = some result) :
      Reachable result.flow

/-- The state invariant of a flow: the output is as long as the input, and the remaining
indices are increasing positions of it. -/
structure BatchFlow.Valid {I O P : Type} (flow : BatchFlow I O P) : Prop where
  size : flow.out.length = flow.input.length
  bound : ∀ index ∈ flow.indices, index < flow.input.length
  increasing : flow.indices.Pairwise (fun a b => a < b)

/-- The remaining positions a decoded batch marks for another attempt, in order. -/
def retried {O : Type} (ShouldRetry : Option O → Bool) (indices : List Nat) (items : List O) :
    List Nat :=
  ((indices.zip items).filter (fun p => ShouldRetry (some p.2))).map Prod.fst

/-! ## The detokenize flow (`bigquery/common/messaging/skyflow/detokenize.go`) -/

/-- The `DetokenizeResponseObject` struct. The `interface{}` value is kept as the text of
the JSON value, the metadata map as its entries. -/
structure DetokenizeResponseObject where
  Token : Option String
  Value : Option String
  TokenGroupName : Option String
  Error : Option String
  HttpCode : Option Int
  Metadata : List (String × String)
deriving DecidableEq, Repr

instance : Inhabited DetokenizeResponseObject :=
  ⟨{ Token := none, Value := none, TokenGroupName := none, Error := none, HttpCode := none,
     Metadata := [] }⟩

/-- The `DetokenizeErrorResponseObject` struct. -/
structure DetokenizeErrorResponseObject where
  Message : Option String
deriving DecidableEq, Repr

/-- The `DetokenizeErrorResponse` struct. -/
structure DetokenizeErrorResponse where
  Error : Option DetokenizeErrorResponseObject
deriving DecidableEq, Repr

/-- The payload `BuildPayload` makes: the map with the keys `vaultID` and `tokens`. -/
structure DetokenizePayload where
  vaultID : String
  tokens : List String
deriving DecidableEq, Repr

/-- The two uses of `json.Unmarshal`. `unmarshalResponse` gives the entries of the `response`
array of the body, a JSON null being `none`, and no entry when the array is absent or null;
`unmarshalError` gives the decoded error response. -/
structure JsonLib where
  unmarshalResponse : String → Except String (List (Option DetokenizeResponseObject))
  unmarshalError : String → Except String DetokenizeErrorResponse

/-- The `detokenizeFlowHandler` struct, with the JSON library it decodes with. -/
structure detokenizeFlowHandler where
  vaultID : String
  json : JsonLib

/-- `BuildPayload`. -/
def detokenizeFlowHandler.BuildPayload (handler : detokenizeFlowHandler)
    (tokens : List String) : DetokenizePayload :=
  { vaultID := handler.vaultID, tokens := tokens }

/-- `SetError` on a non-nil object: the message of the error, or nil for a nil error, and the
status code. -/
def detokenizeFlowHandler.SetError (_handler : detokenizeFlowHandler)
    (detoken : DetokenizeResponseObject) (error : Option String) (statusCode : Int) :
    DetokenizeResponseObject :=
  { detoken with Error := error, HttpCode := some statusCode }

/-- What `detokens` holds after `json.Unmarshal` decoded into the struct that shares its
storage: slot `i` is entry `i` of the decoded array when there is one, and stays nil
otherwise. Entries beyond `size` land in storage `detokens` does not see. -/
def decodedSlots (size : Nat) (decoded : List (Option DetokenizeResponseObject)) :
    List (Option DetokenizeResponseObject) :=
  (List.range size).map (fun i => (decoded[i]?).join)

/-- `DecodeBatch`: `size` slots are decoded into; a nil last slot means that fewer tokens
came back than were requested. -/
def detokenizeFlowHandler.DecodeBatch (handler : detokenizeFlowHandler) (size : Nat)
    (body : String) : Except String (List (Option DetokenizeResponseObject)) :=
  match handler.json.unmarshalResponse body with
  | .error err => .error err
  | .ok decoded =>
    let detokens := decodedSlots size decoded
    if detokens.length > 0 ∧ detokens.getLast? = some none then
      .error "received fewer tokens than requested"
    else
      .ok detokens

/-- `DecodeError`: the message of the error object of the body when it is there and not
empty. -/
def detokenizeFlowHandler.DecodeError (handler : detokenizeFlowHandler) (body : String) :
    Option String :=
  match handler.json.unmarshalError body with
  | .error _ => none
  | .ok resBody =>
    match resBody.Error with
    | none => none
    | some errorObject =>
      match errorObject.Message with
      | none => none
      | some message => if message != "" then some message else none

/-- `ShouldRetry`: the object is there, has a code, and the code is a server error or 429. -/
def detokenizeFlowHandler.ShouldRetry (_handler : detokenizeFlowHandler)
    (detoken : Option DetokenizeResponseObject) : Bool :=
  match detoken with
  | none => false
  | some object =>
    match object.HttpCode with
    | none => false
    | some code =>
      Messaging.IsServerErrorStatusCode code || code == Messaging.StatusTooManyRequests

/-- The handler as a `BatchFlowHandler`. -/
def detokenizeFlowHandler.toHandler (handler : detokenizeFlowHandler) :
    BatchFlowHandler String DetokenizeResponseObject DetokenizePayload where
  BuildPayload := handler.BuildPayload
  SetError := handler.SetError
  DecodeBatch := handler.DecodeBatch
  DecodeError := handler.DecodeError
  ShouldRetry := handler.ShouldRetry

/-- `DetokenizeFlow`. -/
abbrev DetokenizeFlow := BatchFlow String DetokenizeResponseObject DetokenizePayload

/-- `NewDetokenizeFlow`. -/
def NewDetokenizeFlow (lib : UrlLib) (json : JsonLib) (vaultID vaultURL bearer : String)
    (tokens : List String) : Except String DetokenizeFlow :=
  NewBatchFlow lib "POST" vaultURL "/v2/tokens/detokenize" bearer
    ({ vaultID := vaultID, json := json } : detokenizeFlowHandler).toHandler tokens

/-- How a step may change a flow: configuration, handler and input stay, the output keeps
its length, and the remaining indices become a sublist of what they were. -/
structure Narrowed {I O P : Type} (flow flow1 : BatchFlow I O P) : Prop where
  method : flow1.method = flow.method
  vaultURL : flow1.vaultURL = flow.vaultURL
  route : flow1.route = flow.route
  bearer : flow1.bearer = flow.bearer
  handler : flow1.handler = flow.handler
  input : flow1.input = flow.input
  size : flow1.out.length = flow.out.length
  fewer : flow1.indices.Sublist flow.indices

/-- The error `decodeBatch` reports when the handler cannot decode the body. -/
def decodeFailure {I O P : Type} (flow : BatchFlow I O P) (body err : String) : String :=
  match flow.handler.DecodeError body with
  | some decodedErr => decodedErr
  | none => "failed to decode Skyflow API response: while decoding \x27" ++ body ++ "\x27: " ++ err

/-- A URL library that knows one address. -/
def sampleUrlLib : UrlLib where
  Parse := fun address =>
    if address = "https://vault-host" then .ok { Scheme := "https", Host := "vault-host" }
    else .error "invalid URL"
  SplitHostPort := fun _ => .error "missing port in address"

/-- A response object for the token `token`. -/
def sampleObject : DetokenizeResponseObject :=
  { Token := some "token", Value := some "\"value\"", TokenGroupName := none, Error := none,
    HttpCode := some 200, Metadata := [] }

/-- The body of a response with the one sample object. -/
def sampleBody : String :=
  "\x7b\"response\":[\x7b\"token\":\"token\",\"value\":\"value\",\"httpCode\":200\x7d]\x7d"

/-- A JSON library that knows two bodies: the empty object, which has no `response` array,
and the sample body; neither has an error object. -/
def sampleJson : JsonLib where
  unmarshalResponse := fun body =>
    if body = "\x7b\x7d" then .ok []
    else if body = sampleBody then .ok [some sampleObject]
    else .error "invalid character"
  unmarshalError := fun body =>
    if body = "\x7b\x7d" ∨ body = sampleBody then .ok { Error := none }
    else .error "invalid character"

/-- The detokenize flow for the single token `token`, as `NewDetokenizeFlow` makes it. -/
def sampleFlow : DetokenizeFlow :=
  { method := "POST", vaultURL := "https://vault-host", route := "/v2/tokens/detokenize",
    bearer := "bearer",
    handler := ({ vaultID := "vaultID", json := sampleJson } : detokenizeFlowHandler).toHandler,
    input := ["token"], out := [default], indices := [0] }

/-- A transport whose client answers every request with the given status code and body. -/
def answering (statusCode : Int) (body : String) : Transport DetokenizePayload where
  marshal := fun payload => .ok (payload.vaultID ++ ":" ++ String.intercalate "," payload.tokens)
  requestError := fun _ _ => none
  Do := fun _ => .response statusCode (.ok body)

/-- The request the sample flow builds. -/
def sampleRequest : Request :=
  { method := "POST", url := "https://vault-host/v2/tokens/detokenize",
    contentType := "application/json", authorization := "Bearer bearer",
    body := "vaultID:token" }

/-- The flows that `Send`s lead to from a flow, the transport of each `Send` being free. -/
inductive Sends {I O P : Type} : BatchFlow I O P → BatchFlow I O P → Prop where
  | same (flow : BatchFlow I O P) : Sends flow flow
  | next (flow : BatchFlow I O P) (transport : Transport P) (result : Sent I O P)
      (later : BatchFlow I O P) (hsend : flow.Send transport = some result)
      (hrest : Sends result.flow later) : Sends flow later

/-- A transport whose client fails on every request with the given error. -/
def failing (err : String) (timedOut : Bool) : Transport DetokenizePayload where
  marshal := fun payload => .ok (payload.vaultID ++ ":" ++ String.intercalate "," payload.tokens)
  requestError := fun _ _ => none
  Do := fun _ => .failure err timedOut

/-- A transport that cannot marshal any payload. -/
def unmarshallable : Transport DetokenizePayload where
  marshal := fun _ => .error "unsupported type"
  requestError := fun _ _ => none
  Do := fun _ => .response 200 (.ok sampleBody)

/-- The sample flow after a 429 response with the body `{}`: the one position is still
remaining and holds the body as its error, with the code 429. -/
def limitedFlow : DetokenizeFlow :=
  { sampleFlow with
    out := [{ Token := none, Value := none, TokenGroupName := none, Error := some "\x7b\x7d",
              HttpCode := some 429, Metadata := [] }] }

/-- A detokenize flow for two tokens of which the first is resolved and the second remains. -/
def pairFlow : DetokenizeFlow :=
  { sampleFlow with input := ["token", "other"], out := [sampleObject, default], indices := [1] }

/-- The flow `pairFlow` after a 429 response with the body `{}`. -/
def pairLimitedFlow : DetokenizeFlow :=
  { pairFlow with
    out := [sampleObject,
            { Token := none, Value := none, TokenGroupName := none, Error := some "\x7b\x7d",
              HttpCode := some 429, Metadata := [] }] }

/-- The detokenize flow for no token, as `NewDetokenizeFlow` makes it. -/
def emptyFlow : DetokenizeFlow :=
  { sampleFlow with input := [], out := [], indices := [] }

/-- The body of a multi-status response with three objects. -/
def mixedBody : String :=
  "\x7b\"response\":[\x7b\"value\":\"value0\",\"httpCode\":200\x7d," ++
    "\x7b\"error\":\"error1\",\"httpCode\":500\x7d,\x7b\"error\":\"error2\",\"httpCode\":400\x7d]\x7d"

/-- The three objects of `mixedBody`: a success, a server error and a client error. -/
def mixedObjects : List DetokenizeResponseObject :=
  [{ Token := none, Value := some "\"value0\"", TokenGroupName := none, Error := none,
     HttpCode := some 200, Metadata := [] },
   { Token := none, Value := none, TokenGroupName := none, Error := some "error1",
     HttpCode := some 500, Metadata := [] },
   { Token := none, Value := none, TokenGroupName := none, Error := some "error2",
     HttpCode := some 400, Metadata := [] }]

/-- The body of an error response with a message. -/
def errorBody : String :=
  "\x7b\"error\":\x7b\"message\":\"bad token\"\x7d\x7d"

/-- A JSON library that knows `mixedBody`, which has no error object, and `errorBody`, which
has no `response` array; any other body is not JSON to it. -/
def mixedJson : JsonLib where
  unmarshalResponse := fun body =>
    if body = mixedBody then .ok (mixedObjects.map some)
    else if body = errorBody then .ok []
    else .error "invalid character"
  unmarshalError := fun body =>
    if body = mixedBody then .ok { Error := none }
    else if body = errorBody then .ok { Error := some { Message := some "bad token" } }
    else .error "invalid character"

/-- The detokenize flow for three tokens, as `NewDetokenizeFlow` makes it. -/
def mixedFlow : DetokenizeFlow :=
  { method := "POST", vaultURL := "https://vault-host", route := "/v2/tokens/detokenize",
    bearer := "bearer",
    handler := ({ vaultID := "vaultID", json := mixedJson } : detokenizeFlowHandler).toHandler,
    input := ["token0", "token1", "token2"], out := [default, default, default],
    indices := [0, 1, 2] }

/-- The request `mixedFlow` builds. -/
def mixedRequest : Request :=
  { sampleRequest with body := "vaultID:token0,token1,token2" }

/-- The inputs at the remaining indices, in the order of the indices: what the spec has
`Send` build its payload from. An index outside the input gives nothing. -/
def BatchFlow.gathered {I O P : Type} (flow : BatchFlow I O P) : Option (List I) :=
  flow.indices.mapM (fun index => flow.input[index]?)

/-- A transport whose client answers every request with the given status code and a body
that cannot be read. -/
def unreadable (statusCode : Int) (err : String) : Transport DetokenizePayload where
  marshal := fun payload => .ok (payload.vaultID ++ ":" ++ String.intercalate "," payload.tokens)
  requestError := fun _ _ => none
  Do := fun _ => .response statusCode (.error err)

/-- The flow `mixedFlow` after a multi-status response with the body `mixedBody`: the three
objects are written and the position of the server error is the one remaining. -/
def resolvedFlow : DetokenizeFlow :=
  { mixedFlow with out := mixedObjects, indices := [1] }

/-- What `url.Parse` and `net.SplitHostPort` give on four local addresses without the scheme
`https`: the host of a parsed address includes the port, and splitting a host that has no
port fails. -/
def localUrlLib : UrlLib where
  Parse := fun address =>
    if address = "http://127.0.0.1" then .ok { Scheme := "http", Host := "127.0.0.1" }
    else if address = "http://127.0.0.1:8080" then
      .ok { Scheme := "http", Host := "127.0.0.1:8080" }
    else if address = "http://localhost" then .ok { Scheme := "http", Host := "localhost" }
    else if address = "http://localhost:8080" then
      .ok { Scheme := "http", Host := "localhost:8080" }
    else .error "invalid URL"
  SplitHostPort := fun hostport =>
    if hostport = "127.0.0.1:8080" then .ok ("127.0.0.1", "8080")
    else if hostport = "localhost:8080" then .ok ("localhost", "8080")
    else .error ("address " ++ hostport ++ ": missing port in address")

/-- The body of a response whose array holds a null before an object. -/
def nullBody : String :=
  "\x7b\"response\":[null,\x7b\"token\":\"token\",\"value\":\"value\",\"httpCode\":200\x7d]\x7d"

/-- A JSON library that knows `nullBody`, which has no error object. -/
def nullJson : JsonLib where
  unmarshalResponse := fun body =>
    if body = nullBody then .ok [none, some sampleObject]
    else .error "invalid character"
  unmarshalError := fun body =>
    if body = nullBody then .ok { Error := none }
    else .error "invalid character"

/-- The detokenize flow for two tokens, as `NewDetokenizeFlow` makes it. -/
def twoFlow : DetokenizeFlow :=
  { method := "POST", vaultURL := "https://vault-host", route := "/v2/tokens/detokenize",
    bearer := "bearer",
    handler := ({ vaultID := "vaultID", json := nullJson } : detokenizeFlowHandler).toHandler,
    input := ["other", "token"], out := [default, default], indices := [0, 1] }

end Skyflow

namespace Main

open Skyflow Messaging Batching.Sliced

/-! ## The batch submitter (`bigquery/detokenize/cmd/main.go`) -/

/-- The `BatchKey` struct. -/
structure BatchKey where
  VaultID : String
deriving DecidableEq, Repr

/-- The `BatchSubmitter` struct without the client and the timeout, which the factory hands
on to the flow. The factory gets the vault ID, the vault URL, the bearer and the tokens, and
returns a flow or an error; the sender works on the flow through its pointer, so it returns
its error (`none` is `nil`) and the flow as it leaves it. `out` is the output the submitter
shares with its caller. -/
structure BatchSubmitter where
  out : List DetokenizeResponseObject
  vaultURL : String
  bearer : String
  RequestFlowFactory : String → String → String → List String → Except String DetokenizeFlow
  RequestSender : DetokenizeFlow → ExponentialBackoff → Option String × DetokenizeFlow

/-- The loop of `submitAndRemoveNullTokens`. The first two lists are what is left of
`batch.Indices` and `batch.Values` from the current position on. A position without a value
and, for a null token, an index outside the output panic. -/
def removeNullLoop : List Int → List (Option String) → List DetokenizeResponseObject →
    List Int → List String → Option (List DetokenizeResponseObject × List Int × List String)
  | [], _, out, indices, tokens => some (out, indices, tokens)
  | _ :: _, [], _, _, _ => none
  | index :: restIndices, some token :: restValues, out, indices, tokens =>
    removeNullLoop restIndices restValues out (indices ++ [index]) (tokens ++ [token])
  | index :: restIndices, none :: restValues, out, indices, tokens =>
    if 0 ≤ index ∧ index < out.length then
      removeNullLoop restIndices restValues (out.set index.toNat default) indices tokens
    else
      none

/-- `submitAndRemoveNullTokens`: the output afterwards, and the indices and tokens of the
tokens that are not null. `none` is a panic. -/
def BatchSubmitter.submitAndRemoveNullTokens (submitter : BatchSubmitter)
    (batch : Batch (Option String)) :
    Option (List DetokenizeResponseObject × List Int × List String) :=
  removeNullLoop batch.Indices.items batch.Values.items submitter.out [] []

/-- The last loop of `Submit`: result `i` goes to the position `indices[i]` of the output. A
result without an index panics; an index outside the output ends the loop with an error. -/
def scatter : List DetokenizeResponseObject → List Int → List DetokenizeResponseObject →
    Option (Option String × List DetokenizeResponseObject)
  | [], _, out => some (none, out)
  | _ :: _, [], _ => none
  | detoken :: rest, index :: indices, out =>
    if index < 0 ∨ index ≥ out.length then
      some (some ("batch indices must match output size: found index " ++ toString index ++
        ", output size " ++ toString out.length), out)
    else
      scatter rest indices (out.set index.toNat detoken)

/-- `Submit`: the returned error (`none` is `nil`) and the output afterwards. `none` is a
panic. -/
def BatchSubmitter.Submit (submitter : BatchSubmitter) (key : BatchKey)
    (batch : Batch (Option String)) :
    Option (Option String × List DetokenizeResponseObject) :=
  match submitter.submitAndRemoveNullTokens batch with
  | none => none
  | some (out, indices, tokens) =>
    match submitter.RequestFlowFactory key.VaultID submitter.vaultURL submitter.bearer
        tokens with
    | .error err => some (some err, out)
    | .ok flow =>
      match submitter.RequestSender flow DefaultExponentialBackoff with
      | (some err, _) => some (some err, out)
      | (none, flow1) => scatter flow1.Results indices out

/-- The indices of a batch paired with the tokens that are not null, in batch order. -/
def nonNull (batch : Batch (Option String)) : List (Int × String) :=
  (batch.Indices.items.zip batch.Values.items).filterMap
    (fun p => p.2.map (fun token => (p.1, token)))

/-- A submitter over the output `out` whose factory is `NewDetokenizeFlow` and whose sender
makes one `Send`, answered with the sample body. -/
def sampleSubmitter (out : List DetokenizeResponseObject) : BatchSubmitter where
  out := out
  vaultURL := "https://vault-host"
  bearer := "bearer"
  RequestFlowFactory := NewDetokenizeFlow sampleUrlLib sampleJson
  RequestSender := fun flow _ =>
    match flow.Send (answering 200 sampleBody) with
    | some result => (result.err, result.flow)
    | none => (some "panic", flow)

/-- The batch of the token `token` for the position 1 and a null token for the position 0. -/
def sampleTokens : Batch (Option String) :=
  { Indices := Slice.ofList [1, 0], Values := Slice.ofList [some "token", none], capacity := 2 }

/-- A batch that names the position 0 twice, first for a null token. -/
def repeatedIndex : Batch (Option String) :=
  { Indices := Slice.ofList [0, 0], Values := Slice.ofList [none, some "token"], capacity := 2 }

/-- A batch of one string token for the position 0. -/
def stringToken : Batch (Option String) :=
  { Indices := Slice.ofList [0], Values := Slice.ofList [some "token"], capacity := 1 }

/-- A batch of one null token for the position 0. -/
def nullToken : Batch (Option String) :=
  { Indices := Slice.ofList [0], Values := Slice.ofList [none], capacity := 1 }

/-! ## The getters of the batcher (`bigquery/detokenize/cmd/main.go`) -/

/-- An argument of a call, an `interface{}` that the JSON decoder filled: nil, a string, or
a value of another type, kept as its JSON text. -/
inductive Argument where
  | null
  | string (value : String)
  | other (json : String)
deriving DecidableEq, Repr

/-- `ValidateNumberOfCallArguments`; `none` is `nil`. -/
def ValidateNumberOfCallArguments (call : List Argument) : Option String :=
  let nargs : Nat := 2
  if call.length != nargs then
    some ("exactly " ++ toString nargs ++ " arguments are expected")
  else
    none

/-- `BatchKeyGetter.GetBatchKey`: the key and the error. `none` is an index panic. -/
def GetBatchKey (call : List Argument) : Option (BatchKey × Option String) :=
  match ValidateNumberOfCallArguments call with
  | some err => some ({ VaultID := "" }, some err)
  | none =>
    match (call[0]? : Option Argument) with
    | none => none
    | some (Argument.string vaultID) => some ({ VaultID := vaultID }, none)
    | some _ => some ({ VaultID := "" }, some "vaultId argument must be a string")

/-- `BatchValueGetter.GetBatchValue`: the token, nil for a null one, and the error. `none`
is an index panic. -/
def GetBatchValue (call : List Argument) : Option (Option String × Option String) :=
  match ValidateNumberOfCallArguments call with
  | some err => some (none, some err)
  | none =>
    match (call[1]? : Option Argument) with
    | none => none
    | some Argument.null => some (none, none)
    | some (Argument.string token) => some (some token, none)
    | some _ => some (none, some "token argument must be a string")

end Main

namespace Batching

variable {σ I K V : Type} [DecidableEq K]

theorem lookup_store_self (key : K) (batch : Batch V) (m : List (K × Batch V)) :
    lookup key (store key batch m) = some batch := by
  induction m with
  | nil => simp [store, lookup]
  | cons p rest ih =>
    obtain ⟨k, old⟩ := p
    by_cases h : k = key
    · simp [store, lookup, h]
    · simp [store, lookup, h, ih]

theorem lookup_store_other {key k2 : K} (batch : Batch V) (m : List (K × Batch V))
    (h : key ≠ k2) : lookup k2 (store key batch m) = lookup k2 m := by
  induction m with
  | nil => simp [store, lookup, h]
  | cons p rest ih =>
    obtain ⟨k, old⟩ := p
    by_cases hk : k = key
    · subst hk; simp [store, lookup, h]
    · by_cases hk2 : k = k2
      · subst hk2; simp [store, lookup, hk]
      · simp [store, lookup, hk, hk2, ih]

theorem store_store (key : K) (b1 b2 : Batch V) (m : List (K × Batch V)) :
    store key b2 (store key b1 m) = store key b2 m := by
  induction m with
  | nil => simp [store]
  | cons p rest ih =>
    obtain ⟨k, old⟩ := p
    by_cases h : k = key
    · simp [store, h]
    · simp [store, h, ih]

theorem mem_store {key : K} {batch : Batch V} {m : List (K × Batch V)} {p : K × Batch V}
    (h : p ∈ store key batch m) : p = (key, batch) ∨ p ∈ m := by
  induction m with
  | nil => simp [store] at h; exact Or.inl h
  | cons q rest ih =>
    obtain ⟨k, old⟩ := q
    by_cases hk : k = key
    · simp [store, hk] at h
      rcases h with h | h
      · exact Or.inl h
      · exact Or.inr (List.mem_cons_of_mem _ h)
    · simp [store, hk] at h
      rcases h with h | h
      · exact Or.inr (by rw [h]; exact List.mem_cons_self _ _)
      · rcases ih h with h1 | h1
        · exact Or.inl h1
        · exact Or.inr (List.mem_cons_of_mem _ h1)

theorem keys_store (key : K) (batch : Batch V) (m : List (K × Batch V)) :
    (store key batch m).map Prod.fst =
      if key ∈ m.map Prod.fst then m.map Prod.fst else m.map Prod.fst ++ [key] := by
  induction m with
  | nil => simp [store]
  | cons q rest ih =>
    obtain ⟨k, old⟩ := q
    by_cases hk : k = key
    · subst hk; simp [store]
    · have hk2 : ¬ key = k := fun h => hk h.symm
      simp only [store, hk, if_false, List.map_cons, ih, List.mem_cons, hk2, false_or]
      split <;> simp

theorem nodup_keys_store (key : K) (batch : Batch V) (m : List (K × Batch V))
    (h : (m.map Prod.fst).Nodup) : ((store key batch m).map Prod.fst).Nodup := by
  rw [keys_store]
  split
  · exact h
  · rename_i hmem
    exact List.Nodup.append h (List.nodup_singleton _) (by
      intro a ha hb
      simp at hb
      subst hb
      exact hmem ha)

theorem lookup_of_mem {m : List (K × Batch V)} (h : (m.map Prod.fst).Nodup) {k : K}
    {batch : Batch V} (hm : (k, batch) ∈ m) : lookup k m = some batch := by
  induction m with
  | nil => simp at hm
  | cons q rest ih =>
    obtain ⟨k1, old⟩ := q
    simp only [List.map_cons, List.nodup_cons] at h
    simp only [List.mem_cons, Prod.mk.injEq] at hm
    rcases hm with ⟨h1, h2⟩ | hm
    · subst h1; subst h2; simp [lookup]
    · have : k1 ≠ k := by
        intro hk
        subst hk
        exact h.1 (List.mem_map_of_mem Prod.fst hm)
      simp [lookup, this, ih h.2 hm]

theorem mem_of_lookup {m : List (K × Batch V)} {k : K} {batch : Batch V}
    (h : lookup k m = some batch) : (k, batch) ∈ m := by
  induction m with
  | nil => simp [lookup] at h
  | cons q rest ih =>
    obtain ⟨k1, old⟩ := q
    by_cases hk : k1 = k
    · simp [lookup, hk] at h
      simp [hk, h]
    · simp [lookup, hk] at h
      exact List.mem_cons_of_mem _ (ih h)

theorem scanItem_key_error (b : Batcher σ I K V) (i : Nat) (x : I) (st : ScanState σ K V)
    {e : String} (hk : b.keyGetter x = .error e) :
    b.scanItem i x st = (some ("error getting batch key: " ++ e),
      { st with calls := st.calls ++ [.getKey i (.error e)] }) := by
  simp [Batcher.scanItem, hk]

theorem scanItem_value_error (b : Batcher σ I K V) (i : Nat) (x : I) (st : ScanState σ K V)
    {key : K} {e : String} (hk : b.keyGetter x = .ok key) (hv : b.valueGetter x = .error e) :
    b.scanItem i x st = (some ("error getting batch value: " ++ e),
      { st with calls := st.calls ++ [.getKey i (.ok key), .getValue i (.error e)] }) := by
  simp [Batcher.scanItem, hk, hv]

theorem scanItem_full (b : Batcher σ I K V) (i : Nat) (x : I) (st : ScanState σ K V)
    {key : K} {value : V} (hk : b.keyGetter x = .ok key) (hv : b.valueGetter x = .ok value)
    (hfull : (current b.capacity key st.batchByKey).IsFull = true) :
    (b.scanItem i x st).1 = some "error appending to batch: the batch is full" ∧
    (b.scanItem i x st).2.calls =
      st.calls ++ [.getKey i (.ok key), .getValue i (.ok value)] := by
  unfold current at hfull
  cases hl : lookup key st.batchByKey with
  | none =>
    rw [hl] at hfull
    simp at hfull
    simp [Batcher.scanItem, hk, hv, hl, Batch.Append, hfull]
  | some batch =>
    rw [hl] at hfull
    simp at hfull
    simp [Batcher.scanItem, hk, hv, hl, Batch.Append, hfull]

theorem grown_not_empty (batch : Batch V) (i : Nat) (value : V) :
    (grown batch i value).IsEmpty = false := by
  simp [grown, Batch.IsEmpty, Batch.Size]

theorem scanItem_room (b : Batcher σ I K V) (i : Nat) (x : I) (st : ScanState σ K V)
    {key : K} {value : V} (hk : b.keyGetter x = .ok key) (hv : b.valueGetter x = .ok value)
    (hfull : (current b.capacity key st.batchByKey).IsFull = false)
    (hnext : (grown (current b.capacity key st.batchByKey) i value).IsFull = false) :
    b.scanItem i x st = (none,
      { batchByKey := store key (grown (current b.capacity key st.batchByKey) i value)
          st.batchByKey,
        world := st.world,
        calls := st.calls ++ [.getKey i (.ok key), .getValue i (.ok value)] }) := by
  unfold current at hfull hnext ⊢
  cases hl : lookup key st.batchByKey with
  | none =>
    rw [hl] at hfull hnext
    simp at hfull hnext
    simp [Batcher.scanItem, hk, hv, hl, Batch.Append, hfull, grown] at hnext ⊢
    simp [hnext, store_store]
  | some batch =>
    rw [hl] at hfull hnext
    simp at hfull hnext
    simp [Batcher.scanItem, hk, hv, hl, Batch.Append, hfull, grown] at hnext ⊢
    simp [hnext]

theorem scanItem_submit_ok (b : Batcher σ I K V) (i : Nat) (x : I) (st : ScanState σ K V)
    {key : K} {value : V} {world1 : σ}
    (hk : b.keyGetter x = .ok key) (hv : b.valueGetter x = .ok value)
    (hfull : (current b.capacity key st.batchByKey).IsFull = false)
    (hnext : (grown (current b.capacity key st.batchByKey) i value).IsFull = true)
    (hsub : b.submitter key (grown (current b.capacity key st.batchByKey) i value) st.world =
      (none, world1)) :
    b.scanItem i x st = (none,
      { batchByKey := store key (grown (current b.capacity key st.batchByKey) i value).Reset
          st.batchByKey,
        world := world1,
        calls := st.calls ++ [.getKey i (.ok key), .getValue i (.ok value),
          .submit key (grown (current b.capacity key st.batchByKey) i value) none] }) := by
  have hne := grown_not_empty (current b.capacity key st.batchByKey) i value
  unfold current at hfull hnext hsub hne ⊢
  cases hl : lookup key st.batchByKey with
  | none =>
    rw [hl] at hfull hnext hsub hne
    simp at hfull hnext hsub hne
    simp [grown] at hnext hsub hne
    simp [Batcher.scanItem, hk, hv, hl, Batch.Append, hfull, grown, hnext, Batcher.submit, hne,
      hsub, store_store]
  | some batch =>
    rw [hl] at hfull hnext hsub hne
    simp at hfull hnext hsub hne
    simp [grown] at hnext hsub hne
    simp [Batcher.scanItem, hk, hv, hl, Batch.Append, hfull, grown, hnext, Batcher.submit, hne,
      hsub, store_store]

theorem scanItem_submit_error (b : Batcher σ I K V) (i : Nat) (x : I) (st : ScanState σ K V)
    {key : K} {value : V} {world1 : σ} {e : String}
    (hk : b.keyGetter x = .ok key) (hv : b.valueGetter x = .ok value)
    (hfull : (current b.capacity key st.batchByKey).IsFull = false)
    (hnext : (grown (current b.capacity key st.batchByKey) i value).IsFull = true)
    (hsub : b.submitter key (grown (current b.capacity key st.batchByKey) i value) st.world =
      (some e, world1)) :
    b.scanItem i x st = (some ("error submitting batch: " ++ e),
      { batchByKey := store key (grown (current b.capacity key st.batchByKey) i value)
          st.batchByKey,
        world := world1,
        calls := st.calls ++ [.getKey i (.ok key), .getValue i (.ok value),
          .submit key (grown (current b.capacity key st.batchByKey) i value) (some e)] }) := by
  have hne := grown_not_empty (current b.capacity key st.batchByKey) i value
  unfold current at hfull hnext hsub hne ⊢
  cases hl : lookup key st.batchByKey with
  | none =>
    rw [hl] at hfull hnext hsub hne
    simp at hfull hnext hsub hne
    simp [grown] at hnext hsub hne
    simp [Batcher.scanItem, hk, hv, hl, Batch.Append, hfull, grown, hnext, Batcher.submit, hne,
      hsub, store_store]
  | some batch =>
    rw [hl] at hfull hnext hsub hne
    simp at hfull hnext hsub hne
    simp [grown] at hnext hsub hne
    simp [Batcher.scanItem, hk, hv, hl, Batch.Append, hfull, grown, hnext, Batcher.submit, hne,
      hsub, store_store]

omit [DecidableEq K] in
theorem submissions_append (a c : List (Call K V)) :
    submissions (a ++ c) = submissions a ++ submissions c := by
  induction a with
  | nil => simp [submissions]
  | cons x rest ih =>
    cases x <;> simp [submissions, ih]

theorem pairsUnder_append (key : K) (a c : List (K × Batch V)) :
    pairsUnder key (a ++ c) = pairsUnder key a ++ pairsUnder key c := by
  simp [pairsUnder, List.filter_append, List.flatMap_append]

theorem pairsUnder_single_self (key : K) (batch : Batch V) :
    pairsUnder key [(key, batch)] = batch.pairs := by
  simp [pairsUnder, List.flatMap]

theorem pairsUnder_single_other {key k2 : K} (batch : Batch V) (h : key ≠ k2) :
    pairsUnder k2 [(key, batch)] = [] := by
  simp [pairsUnder, h, List.flatMap]

theorem bufferedPairs_store_self (key : K) (batch : Batch V) (m : List (K × Batch V)) :
    bufferedPairs key (store key batch m) = batch.pairs := by
  simp [bufferedPairs, lookup_store_self]

theorem bufferedPairs_store_other {key k2 : K} (batch : Batch V) (m : List (K × Batch V))
    (h : key ≠ k2) : bufferedPairs k2 (store key batch m) = bufferedPairs k2 m := by
  simp [bufferedPairs, lookup_store_other batch m h]

theorem keyedPairs_snoc_self (b : Batcher σ I K V) (done : List (Nat × I)) (i : Nat) (x : I)
    {key : K} {value : V} (hk : b.keyGetter x = .ok key) (hv : b.valueGetter x = .ok value) :
    b.keyedPairs key (done ++ [(i, x)]) = b.keyedPairs key done ++ [(i, value)] := by
  simp [Batcher.keyedPairs, List.filterMap_append, Batcher.entryFor, hk, hv]

theorem keyedPairs_snoc_other (b : Batcher σ I K V) (done : List (Nat × I)) (i : Nat) (x : I)
    {key k2 : K} (hk : b.keyGetter x = .ok key) (h : key ≠ k2) :
    b.keyedPairs k2 (done ++ [(i, x)]) = b.keyedPairs k2 done := by
  simp only [Batcher.keyedPairs, List.filterMap_append]
  have : b.entryFor k2 (i, x) = none := by
    simp only [Batcher.entryFor, hk]
    cases b.valueGetter x <;> simp [h]
  simp [this]

theorem pairs_grown (batch : Batch V) (i : Nat) (value : V)
    (h : batch.Values.length = batch.Indices.length) :
    (grown batch i value).pairs = batch.pairs ++ [(i, value)] := by
  simp [grown, Batch.pairs, List.zip_append h.symm]

/-- What the invariant says about the batch the loop body picks for `key`. -/
theorem current_spec (b : Batcher σ I K V) {done : List (Nat × I)} {st : ScanState σ K V}
    (hC : 1 ≤ b.capacity) (inv : ScanInv b done st) (key : K) :
    (current b.capacity key st.batchByKey).capacity = b.capacity ∧
    (current b.capacity key st.batchByKey).Indices.length < b.capacity ∧
    (current b.capacity key st.batchByKey).Values.length =
      (current b.capacity key st.batchByKey).Indices.length ∧
    (current b.capacity key st.batchByKey).pairs = bufferedPairs key st.batchByKey := by
  unfold current bufferedPairs
  cases hl : lookup key st.batchByKey with
  | none => simp [NewBatch, Batch.pairs]; omega
  | some batch =>
    have := inv.room _ (mem_of_lookup hl)
    simp at this ⊢
    exact this

theorem current_not_full (b : Batcher σ I K V) {done : List (Nat × I)} {st : ScanState σ K V}
    (hC : 1 ≤ b.capacity) (inv : ScanInv b done st) (key : K) :
    (current b.capacity key st.batchByKey).IsFull = false := by
  obtain ⟨h1, h2, _, _⟩ := current_spec b hC inv key
  simp [Batch.IsFull, Batch.Size, h1]
  omega

theorem scanInv_room (b : Batcher σ I K V) {done : List (Nat × I)} {st : ScanState σ K V}
    (hC : 1 ≤ b.capacity) (inv : ScanInv b done st) (i : Nat) (x : I) {key : K} {value : V}
    (hk : b.keyGetter x = .ok key) (hv : b.valueGetter x = .ok value)
    (hnext : (grown (current b.capacity key st.batchByKey) i value).IsFull = false) :
    ScanInv b (done ++ [(i, x)])
      { batchByKey := store key (grown (current b.capacity key st.batchByKey) i value)
          st.batchByKey,
        world := st.world,
        calls := st.calls ++ [.getKey i (.ok key), .getValue i (.ok value)] } := by
  obtain ⟨h1, h2, h3, h4⟩ := current_spec b hC inv key
  have hsub : submissions (st.calls ++ [Call.getKey i (.ok key), Call.getValue i (.ok value)]) =
      submissions st.calls := by
    simp [submissions_append, submissions]
  refine ⟨nodup_keys_store _ _ _ inv.nodup, ?_, ?_, ?_, ?_, ?_⟩
  · intro p hp
    rcases mem_store hp with hp | hp
    · subst hp
      simp [grown, Batch.IsFull, Batch.Size] at hnext ⊢
      simp [grown, h1, h3]
      omega
    · exact inv.room p hp
  · simp only [hsub]
    exact inv.full
  · intro k2
    simp only [hsub]
    by_cases hkk : key = k2
    · subst hkk
      rw [bufferedPairs_store_self, pairs_grown _ _ _ h3, keyedPairs_snoc_self b done i x hk hv,
        ← inv.cover key, h4, List.append_assoc]
    · rw [bufferedPairs_store_other _ _ hkk, keyedPairs_snoc_other b done i x hk hkk]
      exact inv.cover k2
  · intro c hc
    simp only [List.mem_append, List.mem_cons, List.mem_singleton, List.not_mem_nil,
      or_false] at hc
    rcases hc with hc | hc | hc
    · exact inv.clean c hc
    · subst hc; rfl
    · subst hc; rfl
  · intro p hp
    simp only [List.mem_append, List.mem_singleton] at hp
    rcases hp with hp | hp
    · exact inv.getters p hp
    · subst hp
      exact ⟨key, value, hk, hv⟩

theorem scanInv_submit (b : Batcher σ I K V) {done : List (Nat × I)} {st : ScanState σ K V}
    (hC : 1 ≤ b.capacity) (inv : ScanInv b done st) (i : Nat) (x : I) {key : K} {value : V}
    (world1 : σ)
    (hk : b.keyGetter x = .ok key) (hv : b.valueGetter x = .ok value)
    (hnext : (grown (current b.capacity key st.batchByKey) i value).IsFull = true) :
    ScanInv b (done ++ [(i, x)])
      { batchByKey := store key (grown (current b.capacity key st.batchByKey) i value).Reset
          st.batchByKey,
        world := world1,
        calls := st.calls ++ [.getKey i (.ok key), .getValue i (.ok value),
          .submit key (grown (current b.capacity key st.batchByKey) i value) none] } := by
  obtain ⟨h1, h2, h3, h4⟩ := current_spec b hC inv key
  have hsub : submissions (st.calls ++ [Call.getKey i (.ok key), Call.getValue i (.ok value),
      Call.submit key (grown (current b.capacity key st.batchByKey) i value) none]) =
      submissions st.calls ++ [(key, grown (current b.capacity key st.batchByKey) i value)] := by
    simp [submissions_append, submissions]
  have hlen : (grown (current b.capacity key st.batchByKey) i value).Indices.length =
      b.capacity := by
    simp [Batch.IsFull, Batch.Size] at hnext
    rw [hnext]
    simp [grown, h1]
  refine ⟨nodup_keys_store _ _ _ inv.nodup, ?_, ?_, ?_, ?_, ?_⟩
  · intro p hp
    rcases mem_store hp with hp | hp
    · subst hp
      simp [grown, Batch.Reset, h1]
      omega
    · exact inv.room p hp
  · simp only [hsub]
    intro s hs
    simp only [List.mem_append, List.mem_singleton] at hs
    rcases hs with hs | hs
    · exact inv.full s hs
    · subst hs
      have hvals : (grown (current b.capacity key st.batchByKey) i value).Values.length =
          (grown (current b.capacity key st.batchByKey) i value).Indices.length := by
        simp [grown, h3]
      exact ⟨hlen, hvals.trans hlen⟩
  · intro k2
    simp only [hsub]
    by_cases hkk : key = k2
    · subst hkk
      rw [bufferedPairs_store_self, pairsUnder_append, pairsUnder_single_self,
        pairs_grown _ _ _ h3, keyedPairs_snoc_self b done i x hk hv, ← inv.cover key, h4]
      simp [Batch.Reset, Batch.pairs]
    · rw [bufferedPairs_store_other _ _ hkk, keyedPairs_snoc_other b done i x hk hkk,
        pairsUnder_append, pairsUnder_single_other _ hkk, List.append_nil]
      exact inv.cover k2
  · intro c hc
    simp only [List.mem_append, List.mem_cons, List.mem_singleton, List.not_mem_nil,
      or_false] at hc
    rcases hc with hc | hc | hc | hc
    · exact inv.clean c hc
    · subst hc; rfl
    · subst hc; rfl
    · subst hc; rfl
  · intro p hp
    simp only [List.mem_append, List.mem_singleton] at hp
    rcases hp with hp | hp
    · exact inv.getters p hp
    · subst hp
      exact ⟨key, value, hk, hv⟩

/-- The loop body, split by what the two getters, the fill state and the submitter do. -/
theorem scanItem_cases (b : Batcher σ I K V) (i : Nat) (x : I) (st : ScanState σ K V) :
    (∃ e, b.keyGetter x = .error e ∧
      b.scanItem i x st = (some ("error getting batch key: " ++ e),
        { st with calls := st.calls ++ [.getKey i (.error e)] })) ∨
    (∃ key e, b.keyGetter x = .ok key ∧ b.valueGetter x = .error e ∧
      b.scanItem i x st = (some ("error getting batch value: " ++ e),
        { st with calls := st.calls ++ [.getKey i (.ok key), .getValue i (.error e)] })) ∨
    (∃ key value, b.keyGetter x = .ok key ∧ b.valueGetter x = .ok value ∧
      (current b.capacity key st.batchByKey).IsFull = true ∧
      (b.scanItem i x st).1 = some "error appending to batch: the batch is full" ∧
      (b.scanItem i x st).2.calls =
        st.calls ++ [.getKey i (.ok key), .getValue i (.ok value)]) ∨
    (∃ key value, b.keyGetter x = .ok key ∧ b.valueGetter x = .ok value ∧
      (current b.capacity key st.batchByKey).IsFull = false ∧
      (grown (current b.capacity key st.batchByKey) i value).IsFull = false ∧
      b.scanItem i x st = (none,
        { batchByKey := store key (grown (current b.capacity key st.batchByKey) i value)
            st.batchByKey,
          world := st.world,
          calls := st.calls ++ [.getKey i (.ok key), .getValue i (.ok value)] })) ∨
    (∃ key value world1, b.keyGetter x = .ok key ∧ b.valueGetter x = .ok value ∧
      (current b.capacity key st.batchByKey).IsFull = false ∧
      (grown (current b.capacity key st.batchByKey) i value).IsFull = true ∧
      b.submitter key (grown (current b.capacity key st.batchByKey) i value) st.world =
        (none, world1) ∧
      b.scanItem i x st = (none,
        { batchByKey := store key (grown (current b.capacity key st.batchByKey) i value).Reset
            st.batchByKey,
          world := world1,
          calls := st.calls ++ [.getKey i (.ok key), .getValue i (.ok value),
            .submit key (grown (current b.capacity key st.batchByKey) i value) none] })) ∨
    (∃ key value world1 e, b.keyGetter x = .ok key ∧ b.valueGetter x = .ok value ∧
      (current b.capacity key st.batchByKey).IsFull = false ∧
      (grown (current b.capacity key st.batchByKey) i value).IsFull = true ∧
      b.submitter key (grown (current b.capacity key st.batchByKey) i value) st.world =
        (some e, world1) ∧
      b.scanItem i x st = (some ("error submitting batch: " ++ e),
        { batchByKey := store key (grown (current b.capacity key st.batchByKey) i value)
            st.batchByKey,
          world := world1,
          calls := st.calls ++ [.getKey i (.ok key), .getValue i (.ok value),
            .submit key (grown (current b.capacity key st.batchByKey) i value) (some e)] })) := by
  cases hk : b.keyGetter x with
  | error e => exact Or.inl ⟨e, rfl, scanItem_key_error b i x st hk⟩
  | ok key =>
    cases hv : b.valueGetter x with
    | error e => exact Or.inr (Or.inl ⟨key, e, rfl, rfl, scanItem_value_error b i x st hk hv⟩)
    | ok value =>
      cases hfull : (current b.capacity key st.batchByKey).IsFull with
      | true =>
        exact Or.inr (Or.inr (Or.inl ⟨key, value, rfl, rfl, hfull,
          scanItem_full b i x st hk hv hfull⟩))
      | false =>
        cases hnext : (grown (current b.capacity key st.batchByKey) i value).IsFull with
        | false =>
          exact Or.inr (Or.inr (Or.inr (Or.inl ⟨key, value, rfl, rfl, hfull, hnext,
            scanItem_room b i x st hk hv hfull hnext⟩)))
        | true =>
          cases hsub : b.submitter key (grown (current b.capacity key st.batchByKey) i value)
              st.world with
          | mk err world1 =>
            cases err with
            | none =>
              exact Or.inr (Or.inr (Or.inr (Or.inr (Or.inl ⟨key, value, world1, rfl, rfl, hfull,
                hnext, hsub, scanItem_submit_ok b i x st hk hv hfull hnext hsub⟩))))
            | some e =>
              exact Or.inr (Or.inr (Or.inr (Or.inr (Or.inr ⟨key, value, world1, e, rfl, rfl,
                hfull, hnext, hsub, scanItem_submit_error b i x st hk hv hfull hnext hsub⟩))))

theorem scanItem_inv (b : Batcher σ I K V) {done : List (Nat × I)} {st st1 : ScanState σ K V}
    (hC : 1 ≤ b.capacity) (inv : ScanInv b done st) (i : Nat) (x : I)
    (h : b.scanItem i x st = (none, st1)) : ScanInv b (done ++ [(i, x)]) st1 := by
  rcases scanItem_cases b i x st with ⟨e, _, h1⟩ | ⟨key, e, _, _, h1⟩ |
    ⟨key, value, _, _, _, h1, _⟩ | ⟨key, value, hk, hv, _, hnext, h1⟩ |
    ⟨key, value, world1, hk, hv, _, hnext, _, h1⟩ | ⟨key, value, world1, e, _, _, _, _, _, h1⟩
  · rw [h1] at h; simp at h
  · rw [h1] at h; simp at h
  · rw [h] at h1; simp at h1
  · rw [h1] at h
    simp only [Prod.mk.injEq, true_and] at h
    rw [← h]
    exact scanInv_room b hC inv i x hk hv hnext
  · rw [h1] at h
    simp only [Prod.mk.injEq, true_and] at h
    rw [← h]
    exact scanInv_submit b hC inv i x world1 hk hv hnext
  · rw [h1] at h; simp at h

theorem scan_inv (b : Batcher σ I K V) (hC : 1 ≤ b.capacity) (items : List (Nat × I)) :
    ∀ {done : List (Nat × I)} {st st1 : ScanState σ K V}, ScanInv b done st →
      b.scan items st = (none, st1) → ScanInv b (done ++ items) st1 := by
  induction items with
  | nil =>
    intro done st st1 inv h
    simp [Batcher.scan] at h
    simpa [← h] using inv
  | cons p rest ih =>
    intro done st st1 inv h
    obtain ⟨i, x⟩ := p
    simp only [Batcher.scan] at h
    cases hs : b.scanItem i x st with
    | mk err st2 =>
      rw [hs] at h
      cases err with
      | some e => simp at h
      | none =>
        simp only at h
        have := ih (scanItem_inv b hC inv i x hs) h
        simpa using this

/-- A scan that stops with an error went cleanly through a prefix and failed on the next item. -/
theorem scan_error_split (b : Batcher σ I K V) (items : List (Nat × I)) :
    ∀ {st st1 : ScanState σ K V} {e : String}, b.scan items st = (some e, st1) →
      ∃ pre i x post st0, items = pre ++ (i, x) :: post ∧ b.scan pre st = (none, st0) ∧
        b.scanItem i x st0 = (some e, st1) := by
  induction items with
  | nil =>
    intro st st1 e h
    simp [Batcher.scan] at h
  | cons p rest ih =>
    intro st st1 e h
    obtain ⟨i, x⟩ := p
    simp only [Batcher.scan] at h
    cases hs : b.scanItem i x st with
    | mk err st2 =>
      rw [hs] at h
      cases err with
      | some e2 =>
        simp only [Prod.mk.injEq, Option.some.injEq] at h
        obtain ⟨h1, h2⟩ := h
        subst h1; subst h2
        exact ⟨[], i, x, rest, st, rfl, rfl, hs⟩
      | none =>
        simp only at h
        obtain ⟨pre, j, y, post, st0, h1, h2, h3⟩ := ih h
        refine ⟨(i, x) :: pre, j, y, post, st0, by simp [h1], ?_, h3⟩
        simp [Batcher.scan, hs, h2]

theorem scanInv_init (b : Batcher σ I K V) (world : σ) :
    ScanInv b [] (initial world) := by
  refine ⟨by simp [initial], by simp [initial], by simp [initial, submissions], ?_,
    by simp [initial], by simp⟩
  intro key
  simp [initial, pairsUnder, submissions, bufferedPairs, lookup, Batcher.keyedPairs]

omit [DecidableEq K] in
theorem clean_append {a c : List (Call K V)} (ha : Clean a) (hc : Clean c) : Clean (a ++ c) := by
  intro d hd
  rcases List.mem_append.mp hd with h | h
  · exact ha d h
  · exact hc d h

omit [DecidableEq K] in
theorem stopped_snoc {pre : List (Call K V)} (hpre : Clean pre) (c : Call K V)
    (hc : c.failed = true) : Stopped c.wrapped (pre ++ [c]) :=
  ⟨pre, c, rfl, hpre, hc, rfl⟩

theorem scanItem_outcome (b : Batcher σ I K V) (i : Nat) (x : I) (st : ScanState σ K V)
    (hclean : Clean st.calls) :
    ((b.scanItem i x st).1 = none ∧ Clean (b.scanItem i x st).2.calls) ∨
    ((b.scanItem i x st).1 = some "error appending to batch: the batch is full" ∧
      Clean (b.scanItem i x st).2.calls ∧
      ∃ key, (current b.capacity key st.batchByKey).IsFull = true) ∨
    Stopped (b.scanItem i x st).1 (b.scanItem i x st).2.calls := by
  rcases scanItem_cases b i x st with ⟨e, _, h1⟩ | ⟨key, e, _, _, h1⟩ |
    ⟨key, value, _, _, hfull, h1, h2⟩ | ⟨key, value, hk, hv, _, hnext, h1⟩ |
    ⟨key, value, world1, hk, hv, _, hnext, _, h1⟩ | ⟨key, value, world1, e, _, _, _, _, _, h1⟩
  · rw [h1]
    exact Or.inr (Or.inr (stopped_snoc hclean (.getKey i (.error e)) rfl))
  · rw [h1]
    refine Or.inr (Or.inr ⟨st.calls ++ [.getKey i (.ok key)], .getValue i (.error e), by simp,
      clean_append hclean ?_, rfl, rfl⟩)
    intro c hc
    simp at hc
    subst hc
    rfl
  · refine Or.inr (Or.inl ⟨h1, ?_, key, hfull⟩)
    rw [h2]
    refine clean_append hclean ?_
    intro c hc
    simp at hc
    rcases hc with hc | hc <;> subst hc <;> rfl
  · rw [h1]
    refine Or.inl ⟨rfl, clean_append hclean ?_⟩
    intro c hc
    simp at hc
    rcases hc with hc | hc <;> subst hc <;> rfl
  · rw [h1]
    refine Or.inl ⟨rfl, clean_append hclean ?_⟩
    intro c hc
    simp at hc
    rcases hc with hc | hc | hc <;> subst hc <;> rfl
  · rw [h1]
    refine Or.inr (Or.inr ⟨st.calls ++ [.getKey i (.ok key), .getValue i (.ok value)],
      .submit key (grown (current b.capacity key st.batchByKey) i value) (some e), by simp,
      clean_append hclean ?_, rfl, rfl⟩)
    intro c hc
    simp at hc
    rcases hc with hc | hc <;> subst hc <;> rfl

theorem scan_outcome (b : Batcher σ I K V) (items : List (Nat × I)) :
    ∀ (st : ScanState σ K V), Clean st.calls →
      ((b.scan items st).1 = none ∧ Clean (b.scan items st).2.calls) ∨
      ((b.scan items st).1 = some "error appending to batch: the batch is full" ∧
        Clean (b.scan items st).2.calls) ∨
      Stopped (b.scan items st).1 (b.scan items st).2.calls := by
  induction items with
  | nil =>
    intro st hclean
    exact Or.inl ⟨rfl, hclean⟩
  | cons p rest ih =>
    intro st hclean
    obtain ⟨i, x⟩ := p
    have hitem := scanItem_outcome b i x st hclean
    simp only [Batcher.scan]
    cases hs : b.scanItem i x st with
    | mk err st2 =>
      rw [hs] at hitem
      cases err with
      | some e =>
        rcases hitem with ⟨h, _⟩ | ⟨h, h2, _⟩ | h
        · simp at h
        · exact Or.inr (Or.inl ⟨h, h2⟩)
        · exact Or.inr (Or.inr h)
      | none =>
        rcases hitem with ⟨_, h⟩ | ⟨h, _⟩ | ⟨pre, c, _, _, h3, h4⟩
        · exact ih st2 h
        · simp at h
        · cases c with
          | getKey j r => cases r <;> simp [Call.failed, Call.wrapped] at h3 h4
          | getValue j r => cases r <;> simp [Call.failed, Call.wrapped] at h3 h4
          | submit k bt r => cases r <;> simp [Call.failed, Call.wrapped] at h3 h4

theorem flush_outcome (b : Batcher σ I K V) (visit : List (K × Batch V)) :
    ∀ (st : ScanState σ K V), Clean st.calls →
      ((b.flush visit st).1 = none ∧ Clean (b.flush visit st).2.calls) ∨
      Stopped (b.flush visit st).1 (b.flush visit st).2.calls := by
  induction visit with
  | nil =>
    intro st hclean
    exact Or.inl ⟨rfl, hclean⟩
  | cons p rest ih =>
    intro st hclean
    obtain ⟨key, batch⟩ := p
    simp only [Batcher.flush, Batcher.submit]
    cases hE : batch.IsEmpty with
    | true =>
      simp only [if_true, List.append_nil]
      exact ih _ hclean
    | false =>
      cases hsub : b.submitter key batch st.world with
      | mk err world1 =>
        cases err with
        | none =>
          simp only [Bool.false_eq_true, if_false]
          refine ih _ (clean_append hclean ?_)
          intro c hc
          simp at hc
          subst hc
          rfl
        | some e =>
          simp only [Bool.false_eq_true, if_false]
          exact Or.inr (stopped_snoc hclean (.submit key batch (some e)) rfl)

/-- The submissions of the final loop are a prefix of the non-empty entries in visiting order,
and all of them when the loop ends without an error. -/
theorem flush_submissions (b : Batcher σ I K V) (visit : List (K × Batch V)) :
    ∀ (st : ScanState σ K V), ∃ made,
      submissions (b.flush visit st).2.calls = submissions st.calls ++ made ∧
      made <+: toFlush visit ∧ ((b.flush visit st).1 = none → made = toFlush visit) := by
  induction visit with
  | nil =>
    intro st
    exact ⟨[], by simp [Batcher.flush], by simp [toFlush], by simp [toFlush]⟩
  | cons p rest ih =>
    intro st
    obtain ⟨key, batch⟩ := p
    simp only [Batcher.flush, Batcher.submit]
    cases hE : batch.IsEmpty with
    | true =>
      simp only [if_true, List.append_nil]
      obtain ⟨made, h1, h2, h3⟩ := ih ⟨store key batch st.batchByKey, st.world, st.calls⟩
      refine ⟨made, h1, ?_, ?_⟩
      · simpa [toFlush, hE] using h2
      · simpa [toFlush, hE] using h3
    | false =>
      cases hsub : b.submitter key batch st.world with
      | mk err world1 =>
        cases err with
        | none =>
          simp only [Bool.false_eq_true, if_false]
          obtain ⟨made, h1, h2, h3⟩ := ih ⟨store key batch.Reset st.batchByKey, world1,
            st.calls ++ [.submit key batch none]⟩
          refine ⟨(key, batch) :: made, ?_, ?_, ?_⟩
          · rw [h1]
            simp [submissions_append, submissions]
          · simp only [toFlush, List.filter_cons, hE, Bool.not_false, if_true]
            exact (List.prefix_cons_inj _).mpr h2
          · intro h
            simp only [toFlush, List.filter_cons, hE, Bool.not_false, if_true]
            rw [h3 h]
            rfl
        | some e =>
          simp only [Bool.false_eq_true, if_false]
          refine ⟨[(key, batch)], ?_, ?_, ?_⟩
          · simp [submissions_append, submissions]
          · simp only [toFlush, List.filter_cons, hE, Bool.not_false, if_true]
            exact (List.prefix_cons_inj _).mpr (List.nil_prefix)
          · intro h
            simp at h

theorem batch_of_scan_error (b : Batcher σ I K V) (order : List (K × Batch V) → List (K × Batch V))
    (input : List I) (world : σ) {e : String} {st : ScanState σ K V}
    (h : b.scan input.enum (initial world) = (some e, st)) :
    b.Batch order input world =
      { err := some e, world := st.world, calls := st.calls, buffered := st.batchByKey } := by
  simp [Batcher.Batch, h]

theorem batch_of_scan_ok (b : Batcher σ I K V) (order : List (K × Batch V) → List (K × Batch V))
    (input : List I) (world : σ) {st : ScanState σ K V}
    (h : b.scan input.enum (initial world) = (none, st)) :
    b.Batch order input world =
      { err := (b.flush (order st.batchByKey) st).1,
        world := (b.flush (order st.batchByKey) st).2.world,
        calls := (b.flush (order st.batchByKey) st).2.calls,
        buffered := (b.flush (order st.batchByKey) st).2.batchByKey } := by
  simp [Batcher.Batch, h]

/-- Every run ends cleanly, or with the append error and no failed call, or at a failed call. -/
theorem batch_outcome (b : Batcher σ I K V) (order : List (K × Batch V) → List (K × Batch V))
    (input : List I) (world : σ) :
    ((b.Batch order input world).err = none ∧ Clean (b.Batch order input world).calls) ∨
    ((b.Batch order input world).err = some "error appending to batch: the batch is full" ∧
      Clean (b.Batch order input world).calls) ∨
    Stopped (b.Batch order input world).err (b.Batch order input world).calls := by
  have hinit : Clean (initial world : ScanState σ K V).calls := by
    intro c hc
    simp [initial] at hc
  have hscan := scan_outcome b input.enum (initial world) hinit
  cases hs : b.scan input.enum (initial world) with
  | mk err st =>
    rw [hs] at hscan
    cases err with
    | some e =>
      rw [batch_of_scan_error b order input world hs]
      rcases hscan with ⟨h, _⟩ | h | h
      · simp at h
      · exact Or.inr (Or.inl h)
      · exact Or.inr (Or.inr h)
    | none =>
      rw [batch_of_scan_ok b order input world hs]
      rcases hscan with ⟨_, h⟩ | ⟨h, _⟩ | ⟨pre, c, _, _, h3, h4⟩
      · rcases flush_outcome b (order st.batchByKey) st h with h5 | h5
        · exact Or.inl h5
        · exact Or.inr (Or.inr h5)
      · simp at h
      · cases c with
        | getKey j r => cases r <;> simp [Call.failed, Call.wrapped] at h3 h4
        | getValue j r => cases r <;> simp [Call.failed, Call.wrapped] at h3 h4
        | submit k bt r => cases r <;> simp [Call.failed, Call.wrapped] at h3 h4

/-- With a capacity of at least one the append error cannot occur. -/
theorem batch_outcome_strict (b : Batcher σ I K V) (hC : 1 ≤ b.capacity)
    (order : List (K × Batch V) → List (K × Batch V)) (input : List I) (world : σ) :
    ((b.Batch order input world).err = none ∧ Clean (b.Batch order input world).calls) ∨
    Stopped (b.Batch order input world).err (b.Batch order input world).calls := by
  cases hs : b.scan input.enum (initial world) with
  | mk err st =>
    cases err with
    | some e =>
      rw [batch_of_scan_error b order input world hs]
      obtain ⟨pre, i, x, post, st0, _, h2, h3⟩ := scan_error_split b input.enum hs
      have inv : ScanInv b ([] ++ pre) st0 := scan_inv b hC pre (scanInv_init b world) h2
      have hitem := scanItem_outcome b i x st0 inv.clean
      rw [h3] at hitem
      rcases hitem with ⟨h, _⟩ | ⟨_, _, key, hfull⟩ | h
      · simp at h
      · rw [current_not_full b hC inv key] at hfull
        simp at hfull
      · exact Or.inr h
    | none =>
      rw [batch_of_scan_ok b order input world hs]
      have inv : ScanInv b ([] ++ input.enum) st :=
        scan_inv b hC input.enum (scanInv_init b world) hs
      rcases flush_outcome b (order st.batchByKey) st inv.clean with h5 | h5
      · exact Or.inl h5
      · exact Or.inr h5

omit [DecidableEq K] in
theorem not_clean_of_stopped {err : Option String} {calls : List (Call K V)}
    (h : Stopped err calls) : ¬ Clean calls := by
  obtain ⟨pre, c, h1, _, h3, _⟩ := h
  intro hclean
  have := hclean c (by rw [h1]; simp)
  rw [h3] at this
  simp at this

omit [DecidableEq K] in
/-- In a stopped run a failed call is the last call and the run returns its wrapped error. -/
theorem failed_is_last {err : Option String} {calls : List (Call K V)}
    (h : Stopped err calls) {pre post : List (Call K V)} {c : Call K V}
    (hsplit : calls = pre ++ c :: post) (hc : c.failed = true) :
    post = [] ∧ err = c.wrapped ∧ Clean pre := by
  obtain ⟨pre1, c1, h1, h2, _, h4⟩ := h
  rw [h1] at hsplit
  cases post with
  | nil =>
    have := List.append_inj' hsplit (by simp)
    obtain ⟨hp, hq⟩ := this
    simp only [List.cons.injEq, and_true] at hq
    subst hp; subst hq
    exact ⟨rfl, h4, h2⟩
  | cons d rest =>
    exfalso
    have hdrop := congrArg List.dropLast hsplit
    rw [List.dropLast_concat, List.dropLast_append_of_ne_nil _ (by simp)] at hdrop
    have hmem : c ∈ pre1 := by
      rw [hdrop]
      simp [List.dropLast]
    have := h2 c hmem
    rw [hc] at this
    simp at this

theorem lookup_none_of_not_mem {m : List (K × Batch V)} {key : K}
    (h : key ∉ m.map Prod.fst) : lookup key m = none := by
  induction m with
  | nil => rfl
  | cons q rest ih =>
    obtain ⟨k, bt⟩ := q
    simp only [List.map_cons, List.mem_cons, not_or] at h
    have hk : ¬ k = key := fun hh => h.1 hh.symm
    simp [lookup, hk, ih h.2]

theorem filter_key_of_not_mem {m : List (K × Batch V)} {key : K}
    (h : key ∉ m.map Prod.fst) : m.filter (fun s => decide (s.1 = key)) = [] := by
  rw [List.filter_eq_nil_iff]
  intro s hs
  simp only [decide_eq_true_eq]
  intro hk
  exact h (hk ▸ List.mem_map_of_mem Prod.fst hs)

/-- With distinct keys the entries under `key` are the one the map read finds, if any. -/
theorem filter_key_eq {m : List (K × Batch V)} (h : (m.map Prod.fst).Nodup) (key : K) :
    m.filter (fun s => decide (s.1 = key)) =
      match lookup key m with
      | some batch => [(key, batch)]
      | none => [] := by
  induction m with
  | nil => simp [lookup]
  | cons q rest ih =>
    obtain ⟨k, bt⟩ := q
    simp only [List.map_cons, List.nodup_cons] at h
    by_cases hk : k = key
    · subst hk
      simp [lookup, List.filter_cons, filter_key_of_not_mem h.1]
    · simp [lookup, List.filter_cons, hk, ih h.2]

theorem pairsUnder_map {m : List (K × Batch V)} (h : (m.map Prod.fst).Nodup) (key : K) :
    pairsUnder key m = bufferedPairs key m := by
  unfold pairsUnder bufferedPairs
  rw [filter_key_eq h key]
  cases lookup key m <;> simp [List.flatMap]

theorem filter_key_perm {visit m : List (K × Batch V)} (hperm : visit.Perm m)
    (h : (m.map Prod.fst).Nodup) (key : K) :
    visit.filter (fun s => decide (s.1 = key)) = m.filter (fun s => decide (s.1 = key)) := by
  have hp := hperm.filter (fun s => decide (s.1 = key))
  rw [filter_key_eq h key] at hp ⊢
  cases hl : lookup key m with
  | none =>
    rw [hl] at hp
    exact List.perm_nil.mp hp
  | some batch =>
    rw [hl] at hp
    exact List.perm_singleton.mp hp

theorem pairs_of_isEmpty {batch : Batch V} (h : batch.IsEmpty = true) : batch.pairs = [] := by
  simp [Batch.IsEmpty, Batch.Size] at h
  simp [Batch.pairs, h]

theorem pairsUnder_toFlush (key : K) (l : List (K × Batch V)) :
    pairsUnder key (toFlush l) = pairsUnder key l := by
  induction l with
  | nil => rfl
  | cons q rest ih =>
    obtain ⟨k, bt⟩ := q
    simp only [pairsUnder, toFlush, List.filter_filter] at ih ⊢
    by_cases hk : k = key
    · cases hE : bt.IsEmpty with
      | true =>
        simp [List.filter_cons, hk, hE, ih, pairs_of_isEmpty hE]
      | false =>
        simp [List.filter_cons, hk, hE, ih]
    · cases hE : bt.IsEmpty with
      | true => simp [List.filter_cons, hk, hE, ih]
      | false => simp [List.filter_cons, hk, hE, ih]

/-- What a run that returns `nil` has done: the scan went through all items keeping the
invariant, and the final loop submitted every non-empty entry. -/
theorem batch_success (b : Batcher σ I K V) (hC : 1 ≤ b.capacity)
    (order : List (K × Batch V) → List (K × Batch V)) (input : List I) (world : σ)
    (herr : (b.Batch order input world).err = none) :
    ∃ st, b.scan input.enum (initial world) = (none, st) ∧ ScanInv b input.enum st ∧
      submissions (b.Batch order input world).calls =
        submissions st.calls ++ toFlush (order st.batchByKey) := by
  cases hs : b.scan input.enum (initial world) with
  | mk err st =>
    cases err with
    | some e =>
      rw [batch_of_scan_error b order input world hs] at herr
      simp at herr
    | none =>
      have inv : ScanInv b ([] ++ input.enum) st :=
        scan_inv b hC input.enum (scanInv_init b world) hs
      rw [batch_of_scan_ok b order input world hs] at herr ⊢
      obtain ⟨made, h1, _, h3⟩ := flush_submissions b (order st.batchByKey) st
      simp only at herr
      refine ⟨st, rfl, by simpa using inv, ?_⟩
      simp only
      rw [h1, h3 herr]

/-- In a run that returns `nil`, for every key the submitted pairs are the pairs of the items
with that key, in input order. -/
theorem batch_cover (b : Batcher σ I K V) (hC : 1 ≤ b.capacity)
    (order : List (K × Batch V) → List (K × Batch V)) (horder : ∀ m, (order m).Perm m)
    (input : List I) (world : σ) (herr : (b.Batch order input world).err = none) (key : K) :
    pairsUnder key (submissions (b.Batch order input world).calls) =
      b.keyedPairs key input.enum := by
  obtain ⟨st, _, inv, hsubs⟩ := batch_success b hC order input world herr
  rw [hsubs, pairsUnder_append, pairsUnder_toFlush, ← inv.cover key, ← pairsUnder_map inv.nodup]
  simp only [pairsUnder]
  rw [filter_key_perm (horder st.batchByKey) inv.nodup key]

/-- In a run that returns `nil` every submitted batch has as many values as indices. -/
theorem batch_lengths (b : Batcher σ I K V) (hC : 1 ≤ b.capacity)
    (order : List (K × Batch V) → List (K × Batch V)) (horder : ∀ m, (order m).Perm m)
    (input : List I) (world : σ) (herr : (b.Batch order input world).err = none) :
    ∀ s ∈ submissions (b.Batch order input world).calls,
      s.2.Values.length = s.2.Indices.length := by
  obtain ⟨st, _, inv, hsubs⟩ := batch_success b hC order input world herr
  intro s hs
  rw [hsubs] at hs
  rcases List.mem_append.mp hs with h | h
  · have := inv.full s h
    omega
  · have hmem : s ∈ order st.batchByKey := (List.mem_filter.mp h).1
    exact (inv.room s ((horder st.batchByKey).mem_iff.mp hmem)).2.2

/-- A position listed in a submitted batch is a pair of the pairs submitted under its key. -/
theorem mem_pairsUnder_of_index {subs : List (K × Batch V)} {s : K × Batch V} (hs : s ∈ subs)
    (hlen : s.2.Values.length = s.2.Indices.length) {pos i : Nat}
    (hi : s.2.Indices[pos]? = some i) :
    ∃ v, s.2.Values[pos]? = some v ∧ (i, v) ∈ pairsUnder s.1 subs := by
  have hpos : pos < s.2.Indices.length := by
    by_contra hcon
    rw [List.getElem?_eq_none (by omega)] at hi
    simp at hi
  have hv : s.2.Values[pos]? = some (s.2.Values[pos]) := List.getElem?_eq_getElem (by omega)
  refine ⟨s.2.Values[pos], hv, ?_⟩
  simp only [pairsUnder, List.mem_flatMap, List.mem_filter, decide_eq_true_eq]
  refine ⟨s, ⟨hs, rfl⟩, ?_⟩
  rw [List.mem_iff_getElem?]
  exact ⟨pos, by simp [Batch.pairs, List.getElem?_zip_eq_some, hi, hv]⟩

/-- A pair of the keyed pairs comes from an item with that key and that value. -/
theorem mem_keyedPairs (b : Batcher σ I K V) {key : K} {items : List (Nat × I)} {i : Nat}
    {v : V} (h : (i, v) ∈ b.keyedPairs key items) :
    ∃ x, (i, x) ∈ items ∧ b.keyGetter x = .ok key ∧ b.valueGetter x = .ok v := by
  simp only [Batcher.keyedPairs, List.mem_filterMap] at h
  obtain ⟨p, hp, hent⟩ := h
  obtain ⟨j, x⟩ := p
  simp only [Batcher.entryFor] at hent
  cases hk : b.keyGetter x with
  | error e => simp [hk] at hent
  | ok k =>
    cases hv : b.valueGetter x with
    | error e => simp [hk, hv] at hent
    | ok w =>
      simp only [hk, hv] at hent
      by_cases hkk : k = key
      · simp only [hkk, if_true, Option.some.injEq, Prod.mk.injEq] at hent
        obtain ⟨h1, h2⟩ := hent
        subst h1; subst h2; subst hkk
        exact ⟨x, hp, hk, hv⟩
      · simp [hkk] at hent

theorem keyedPairs_fst_sublist (b : Batcher σ I K V) (key : K) (items : List (Nat × I)) :
    ((b.keyedPairs key items).map Prod.fst).Sublist (items.map Prod.fst) := by
  induction items with
  | nil => simp [Batcher.keyedPairs]
  | cons p rest ih =>
    simp only [Batcher.keyedPairs, List.filterMap_cons] at ih ⊢
    cases hent : b.entryFor key p with
    | none => simpa using List.Sublist.cons _ ih
    | some q =>
      have hq : q.1 = p.1 := by
        simp only [Batcher.entryFor] at hent
        cases hk : b.keyGetter p.2 with
        | error e => simp [hk] at hent
        | ok k =>
          cases hv : b.valueGetter p.2 with
          | error e => simp [hk, hv] at hent
          | ok w =>
            simp only [hk, hv] at hent
            by_cases hkk : k = key
            · simp only [hkk, if_true, Option.some.injEq] at hent
              rw [← hent]
            · simp [hkk] at hent
      simp only [List.map_cons, hq]
      exact List.Sublist.cons₂ _ ih

theorem mem_keyedPairs_of_item (b : Batcher σ I K V) {key : K} {items : List (Nat × I)}
    {i : Nat} {x : I} {v : V} (hmem : (i, x) ∈ items) (hk : b.keyGetter x = .ok key)
    (hv : b.valueGetter x = .ok v) : (i, v) ∈ b.keyedPairs key items := by
  simp only [Batcher.keyedPairs, List.mem_filterMap]
  exact ⟨(i, x), hmem, by simp [Batcher.entryFor, hk, hv]⟩

theorem count_flatMap_filter {α β : Type} [DecidableEq β] (l : List α) (f : α → List β)
    (p : α → Bool) (i : β) (h : ∀ s ∈ l, i ∈ f s → p s = true) :
    (l.flatMap f).count i = ((l.filter p).flatMap f).count i := by
  induction l with
  | nil => rfl
  | cons a rest ih =>
    have ih1 := ih (fun s hs => h s (List.mem_cons_of_mem _ hs))
    cases hp : p a with
    | true => simp [List.filter_cons, hp, List.count_append, ih1]
    | false =>
      have hnot : i ∉ f a := by
        intro hmem
        have := h a (List.mem_cons_self _ _) hmem
        rw [hp] at this
        simp at this
      simp [List.filter_cons, hp, List.count_append, ih1, List.count_eq_zero_of_not_mem hnot]

theorem pairsUnder_fst (key : K) (subs : List (K × Batch V))
    (hlen : ∀ s ∈ subs, s.2.Values.length = s.2.Indices.length) :
    (pairsUnder key subs).map Prod.fst =
      (subs.filter (fun s => decide (s.1 = key))).flatMap (fun s => s.2.Indices) := by
  induction subs with
  | nil => rfl
  | cons a rest ih =>
    have ih1 := ih (fun s hs => hlen s (List.mem_cons_of_mem _ hs))
    have ha := hlen a (List.mem_cons_self _ _)
    simp only [pairsUnder] at ih1 ⊢
    by_cases hk : a.1 = key
    · simp only [List.filter_cons, hk, decide_True, if_true, List.flatMap_cons, List.map_append,
        ih1]
      congr 1
      exact List.map_fst_zip _ _ (by omega)
    · simp only [List.filter_cons, hk, decide_False, Bool.false_eq_true, if_false, ih1]

/-- When no call fails the run returns `nil`. -/
theorem err_none_of_clean (b : Batcher σ I K V) (hC : 1 ≤ b.capacity)
    (order : List (K × Batch V) → List (K × Batch V)) (input : List I) (world : σ)
    (hok : Clean (b.Batch order input world).calls) :
    (b.Batch order input world).err = none := by
  rcases batch_outcome_strict b hC order input world with h | h
  · exact h.1
  · exact absurd hok (not_clean_of_stopped h)

/-- In a run that returns `nil` both getters succeeded on every item. -/
theorem getters_of_success (b : Batcher σ I K V) (hC : 1 ≤ b.capacity)
    (order : List (K × Batch V) → List (K × Batch V)) (input : List I) (world : σ)
    (herr : (b.Batch order input world).err = none) {i : Nat} {x : I}
    (hx : input[i]? = some x) :
    ∃ key value, b.keyGetter x = .ok key ∧ b.valueGetter x = .ok value := by
  obtain ⟨st, _, inv, _⟩ := batch_success b hC order input world herr
  exact inv.getters (i, x) (List.mk_mem_enum_iff_getElem?.mpr hx)

/-- C1. For every capacity of at least one and every input, if no `GetBatchKey`,
`GetBatchValue` or `Submit` call of the run fails then `Batch` returns `nil`, and every
position `i` of the input occurs exactly once among the indices of all submitted batches;
the batch that lists it was submitted under the key of `in[i]` and pairs it with the value
of `in[i]`. -/
theorem batch_submits_each_item_once (b : Batcher σ I K V) (hC : 1 ≤ b.capacity)
    (order : List (K × Batch V) → List (K × Batch V)) (horder : ∀ m, (order m).Perm m)
    (input : List I) (world : σ) (hok : Clean (b.Batch order input world).calls) :
    (b.Batch order input world).err = none ∧
    ∀ i x, input[i]? = some x →
      ∃ key value, b.keyGetter x = .ok key ∧ b.valueGetter x = .ok value ∧
        ((submissions (b.Batch order input world).calls).flatMap
          (fun s => s.2.Indices)).count i = 1 ∧
        ∀ s ∈ submissions (b.Batch order input world).calls, ∀ pos : Nat,
          s.2.Indices[pos]? = some i → s.1 = key ∧ s.2.Values[pos]? = some value := by
  have herr := err_none_of_clean b hC order input world hok
  refine ⟨herr, ?_⟩
  intro i x hx
  obtain ⟨key, value, hk, hv⟩ := getters_of_success b hC order input world herr hx
  have hlen := batch_lengths b hC order horder input world herr
  have hcover := batch_cover b hC order horder input world herr
  have hwhere : ∀ s ∈ submissions (b.Batch order input world).calls, ∀ pos : Nat,
      s.2.Indices[pos]? = some i → s.1 = key ∧ s.2.Values[pos]? = some value := by
    intro s hs pos hpos
    obtain ⟨v, hval, hmem⟩ := mem_pairsUnder_of_index hs (hlen s hs) hpos
    rw [hcover s.1] at hmem
    obtain ⟨y, hy, hky, hvy⟩ := mem_keyedPairs b hmem
    have hy2 : input[i]? = some y := List.mk_mem_enum_iff_getElem?.mp hy
    rw [hx] at hy2
    simp only [Option.some.injEq] at hy2
    subst hy2
    rw [hk] at hky
    rw [hv] at hvy
    simp only [Except.ok.injEq] at hky hvy
    exact ⟨hky.symm, by rw [hval, hvy]⟩
  refine ⟨key, value, hk, hv, ?_, hwhere⟩
  rw [count_flatMap_filter _ _ (fun s => decide (s.1 = key)) i, ← pairsUnder_fst key _ hlen,
    hcover key]
  · apply List.count_eq_one_of_mem
    · refine List.Nodup.sublist (keyedPairs_fst_sublist b key input.enum) ?_
      rw [List.enum_map_fst]
      exact List.nodup_range _
    · exact List.mem_map_of_mem Prod.fst
        (mem_keyedPairs_of_item b (List.mk_mem_enum_iff_getElem?.mpr hx) hk hv)
  · intro s hs hmem
    obtain ⟨pos, hpos⟩ := List.mem_iff_getElem?.mp hmem
    simpa using (hwhere s hs pos hpos).1

/-- Whatever the loop body does from a state that satisfies the invariant, every batch handed
to `Submit` so far is full. -/
theorem scanItem_sizes (b : Batcher σ I K V) {done : List (Nat × I)} {st : ScanState σ K V}
    (hC : 1 ≤ b.capacity) (inv : ScanInv b done st) (i : Nat) (x : I) :
    ∀ s ∈ submissions (b.scanItem i x st).2.calls, s.2.Size = b.capacity := by
  have hold : ∀ s ∈ submissions st.calls, s.2.Size = b.capacity :=
    fun s hs => (inv.full s hs).1
  rcases scanItem_cases b i x st with ⟨e, _, h1⟩ | ⟨key, e, _, _, h1⟩ |
    ⟨key, value, _, _, _, _, h2⟩ | ⟨key, value, _, _, _, _, h1⟩ |
    ⟨key, value, world1, _, _, _, hnext, _, h1⟩ |
    ⟨key, value, world1, e, _, _, _, hnext, _, h1⟩
  · rw [h1]
    simpa [submissions_append, submissions] using hold
  · rw [h1]
    simpa [submissions_append, submissions] using hold
  · rw [h2]
    simpa [submissions_append, submissions] using hold
  · rw [h1]
    simpa [submissions_append, submissions] using hold
  · rw [h1]
    intro s hs
    simp only [submissions_append, submissions, List.mem_append, List.mem_singleton] at hs
    rcases hs with hs | hs
    · exact hold s hs
    · subst hs
      have := (current_spec b hC inv key).1
      simp only [Batch.IsFull, beq_iff_eq] at hnext
      rw [hnext]
      simpa [grown] using this
  · rw [h1]
    intro s hs
    simp only [submissions_append, submissions, List.mem_append, List.mem_singleton] at hs
    rcases hs with hs | hs
    · exact hold s hs
    · subst hs
      have := (current_spec b hC inv key).1
      simp only [Batch.IsFull, beq_iff_eq] at hnext
      rw [hnext]
      simpa [grown] using this

/-- C2. For every capacity of at least one and every run of `Batcher.Batch`, whether it
returns `nil` or an error, every batch handed to `Submit` has at least one pair and at most
as many as the capacity. -/
theorem batch_submits_within_capacity (b : Batcher σ I K V) (hC : 1 ≤ b.capacity)
    (order : List (K × Batch V) → List (K × Batch V)) (horder : ∀ m, (order m).Perm m)
    (input : List I) (world : σ) :
    ∀ s ∈ submissions (b.Batch order input world).calls,
      1 ≤ s.2.Size ∧ s.2.Size ≤ b.capacity := by
  cases hs : b.scan input.enum (initial world) with
  | mk err st =>
    cases err with
    | some e =>
      rw [batch_of_scan_error b order input world hs]
      obtain ⟨pre, i, x, post, st0, _, h2, h3⟩ := scan_error_split b input.enum hs
      have inv : ScanInv b ([] ++ pre) st0 := scan_inv b hC pre (scanInv_init b world) h2
      have hsz := scanItem_sizes b hC inv i x
      rw [h3] at hsz
      intro s hmem
      have := hsz s hmem
      omega
    | none =>
      rw [batch_of_scan_ok b order input world hs]
      have inv : ScanInv b ([] ++ input.enum) st :=
        scan_inv b hC input.enum (scanInv_init b world) hs
      obtain ⟨made, h1, hpre, _⟩ := flush_submissions b (order st.batchByKey) st
      intro s hmem
      simp only at hmem
      rw [h1] at hmem
      rcases List.mem_append.mp hmem with h | h
      · have := (inv.full s h).1
        simp only [Batch.Size]
        omega
      · have hflush : s ∈ toFlush (order st.batchByKey) := hpre.subset h
        obtain ⟨hin, hne⟩ := List.mem_filter.mp hflush
        have hroom := inv.room s ((horder st.batchByKey).mem_iff.mp hin)
        simp only [Batch.IsEmpty, Batch.Size, Bool.not_eq_true', beq_eq_false_iff_ne, ne_eq]
          at hne
        simp only [Batch.Size]
        omega

theorem mem_of_mem_dropLast_append {α : Type} {a f : List α} (hf : f.length ≤ 1) {s : α}
    (hs : s ∈ (a ++ f).dropLast) : s ∈ a := by
  match f, hf with
  | [], _ =>
    rw [List.append_nil] at hs
    exact List.dropLast_subset a hs
  | [y], _ =>
    rw [List.dropLast_concat] at hs
    exact hs

theorem filter_key_length_le_one {m : List (K × Batch V)} (h : (m.map Prod.fst).Nodup)
    (key : K) : (m.filter (fun s => decide (s.1 = key))).length ≤ 1 := by
  rw [filter_key_eq h key]
  cases lookup key m <;> simp

/-- With capacity one the loop body submits exactly the pair of its item. -/
theorem scanItem_single (b : Batcher σ I K V) {done : List (Nat × I)} {st st1 : ScanState σ K V}
    (hC1 : b.capacity = 1) (inv : ScanInv b done st) (i : Nat) (x : I)
    (h : b.scanItem i x st = (none, st1)) :
    (submissions st1.calls).map some = (submissions st.calls).map some ++ [b.single (i, x)] := by
  have hC : 1 ≤ b.capacity := by omega
  rcases scanItem_cases b i x st with ⟨e, _, h1⟩ | ⟨key, e, _, _, h1⟩ |
    ⟨key, value, _, _, _, h1, _⟩ | ⟨key, value, hk, hv, _, hnext, h1⟩ |
    ⟨key, value, world1, hk, hv, _, hnext, _, h1⟩ | ⟨key, value, world1, e, _, _, _, _, _, h1⟩
  · rw [h1] at h; simp at h
  · rw [h1] at h; simp at h
  · rw [h] at h1; simp at h1
  · exfalso
    obtain ⟨h2, h3, _, _⟩ := current_spec b hC inv key
    simp [grown, Batch.IsFull, Batch.Size, h2] at hnext
    omega
  · rw [h1] at h
    simp only [Prod.mk.injEq, true_and] at h
    rw [← h]
    obtain ⟨h2, h3, h4, _⟩ := current_spec b hC inv key
    generalize current b.capacity key st.batchByKey = cur at h2 h3 h4 ⊢
    have hidx : cur.Indices = [] := List.length_eq_zero.mp (by omega)
    have hval : cur.Values = [] := List.length_eq_zero.mp (by omega)
    have hgrown : grown cur i value = { Indices := [i], Values := [value], capacity := 1 } := by
      cases cur
      simp_all [grown]
    simp [submissions_append, submissions, Batcher.single, hk, hv, hgrown]
  · rw [h1] at h; simp at h

theorem scan_single (b : Batcher σ I K V) (hC1 : b.capacity = 1) (items : List (Nat × I)) :
    ∀ {done : List (Nat × I)} {st st1 : ScanState σ K V}, ScanInv b done st →
      b.scan items st = (none, st1) →
      (submissions st1.calls).map some = (submissions st.calls).map some ++ items.map b.single := by
  induction items with
  | nil =>
    intro done st st1 _ h
    simp [Batcher.scan] at h
    simp [← h]
  | cons p rest ih =>
    intro done st st1 inv h
    obtain ⟨i, x⟩ := p
    simp only [Batcher.scan] at h
    cases hs : b.scanItem i x st with
    | mk err st2 =>
      rw [hs] at h
      cases err with
      | some e => simp at h
      | none =>
        simp only at h
        rw [ih (scanItem_inv b (by omega) inv i x hs) h, scanItem_single b hC1 inv i x hs]
        simp

/-- C3. For every capacity of at least one, if no call of the run fails then for each key
the batches submitted under it, concatenated in submission order, are the positions of the
items with that key in input order, each with its value; every submitted batch has as many
values as indices; every batch submitted under a key except possibly the last one is full;
and with capacity one the submissions are, in input order, the single pairs of the items. -/
theorem batch_groups_by_key_in_order (b : Batcher σ I K V) (hC : 1 ≤ b.capacity)
    (order : List (K × Batch V) → List (K × Batch V)) (horder : ∀ m, (order m).Perm m)
    (input : List I) (world : σ) (hok : Clean (b.Batch order input world).calls) :
    (∀ key, pairsUnder key (submissions (b.Batch order input world).calls) =
        b.keyedPairs key input.enum) ∧
    (∀ s ∈ submissions (b.Batch order input world).calls,
        s.2.Values.length = s.2.Indices.length) ∧
    (∀ key, ∀ s ∈ ((submissions (b.Batch order input world).calls).filter
        (fun s => decide (s.1 = key))).dropLast, s.2.Size = b.capacity) ∧
    (b.capacity = 1 →
      (submissions (b.Batch order input world).calls).map some = input.enum.map b.single) := by
  have herr := err_none_of_clean b hC order input world hok
  refine ⟨batch_cover b hC order horder input world herr,
    batch_lengths b hC order horder input world herr, ?_, ?_⟩
  · intro key s hs
    obtain ⟨st, _, inv, hsubs⟩ := batch_success b hC order input world herr
    rw [hsubs, List.filter_append] at hs
    have hshort : ((toFlush (order st.batchByKey)).filter
        (fun s => decide (s.1 = key))).length ≤ 1 := by
      have hsub : ((toFlush (order st.batchByKey)).filter (fun s => decide (s.1 = key))).Sublist
          ((order st.batchByKey).filter (fun s => decide (s.1 = key))) :=
        List.Sublist.filter _ (List.filter_sublist _)
      have h1 := hsub.length_le
      rw [filter_key_perm (horder st.batchByKey) inv.nodup key] at h1
      have h2 := filter_key_length_le_one inv.nodup key
      omega
    have hmem := mem_of_mem_dropLast_append hshort hs
    exact (inv.full s (List.mem_filter.mp hmem).1).1
  · intro hC1
    obtain ⟨st, hscan, inv, hsubs⟩ := batch_success b hC order input world herr
    have hnone : toFlush (order st.batchByKey) = [] := by
      simp only [toFlush, List.filter_eq_nil_iff]
      intro s hs
      have hroom := inv.room s ((horder st.batchByKey).mem_iff.mp hs)
      simp only [Batch.IsEmpty, Batch.Size, Bool.not_eq_true', beq_eq_false_iff_ne, ne_eq,
        not_not]
      omega
    rw [hsubs, hnone, List.append_nil, scan_single b hC1 input.enum (scanInv_init b world) hscan]
    simp [initial, submissions]

theorem scan_append (b : Batcher σ I K V) (pre rest : List (Nat × I)) :
    ∀ (st : ScanState σ K V), b.scan (pre ++ rest) st =
      match b.scan pre st with
      | (some e, st1) => (some e, st1)
      | (none, st1) => b.scan rest st1 := by
  induction pre with
  | nil => intro st; rfl
  | cons p tail ih =>
    intro st
    obtain ⟨i, x⟩ := p
    simp only [List.cons_append, Batcher.scan]
    cases hs : b.scanItem i x st with
    | mk err st2 =>
      cases err with
      | some e => rfl
      | none => exact ih st2

/-- When the getters succeed on every item and the submitter never fails, the scan goes
through. -/
theorem scan_progress (b : Batcher σ I K V) (hC : 1 ≤ b.capacity)
    (hsubmit : ∀ key batch world, (b.submitter key batch world).1 = none)
    (items : List (Nat × I)) :
    ∀ {done : List (Nat × I)} {st : ScanState σ K V}, ScanInv b done st →
      (∀ p ∈ items, ∃ k v, b.keyGetter p.2 = .ok k ∧ b.valueGetter p.2 = .ok v) →
      ∃ st1, b.scan items st = (none, st1) := by
  induction items with
  | nil =>
    intro done st _ _
    exact ⟨st, rfl⟩
  | cons p rest ih =>
    intro done st inv hget
    obtain ⟨i, x⟩ := p
    obtain ⟨k, v, hk, hv⟩ := hget (i, x) (List.mem_cons_self _ _)
    have hstep : ∃ st2, b.scanItem i x st = (none, st2) := by
      rcases scanItem_cases b i x st with ⟨e, h0, _⟩ | ⟨key, e, _, h0, _⟩ |
        ⟨key, value, _, _, hfull, _, _⟩ | ⟨key, value, _, _, _, _, h1⟩ |
        ⟨key, value, world1, _, _, _, _, _, h1⟩ | ⟨key, value, world1, e, _, _, _, _, hsub, _⟩
      · rw [hk] at h0; simp at h0
      · rw [hv] at h0; simp at h0
      · rw [current_not_full b hC inv key] at hfull; simp at hfull
      · exact ⟨_, h1⟩
      · exact ⟨_, h1⟩
      · have := hsubmit key (grown (current b.capacity key st.batchByKey) i value) st.world
        rw [hsub] at this
        simp at this
    obtain ⟨st2, hs⟩ := hstep
    obtain ⟨st1, h1⟩ := ih (scanItem_inv b hC inv i x hs)
      (fun p hp => hget p (List.mem_cons_of_mem _ hp))
    exact ⟨st1, by simp [Batcher.scan, hs, h1]⟩

theorem keyedPairs_length (b : Batcher σ I K V) (key : K) (items : List (Nat × I))
    (hget : ∀ p ∈ items, ∃ k v, b.keyGetter p.2 = .ok k ∧ b.valueGetter p.2 = .ok v) :
    (b.keyedPairs key items).length = (items.map Prod.snd).countP (b.hasKey key) := by
  induction items with
  | nil => rfl
  | cons p rest ih =>
    have ih1 := ih (fun q hq => hget q (List.mem_cons_of_mem _ hq))
    obtain ⟨k, v, hk, hv⟩ := hget p (List.mem_cons_self _ _)
    simp only [Batcher.keyedPairs, List.filterMap_cons, List.map_cons, List.countP_cons] at ih1 ⊢
    by_cases hkk : k = key
    · simp [Batcher.entryFor, Batcher.hasKey, hk, hv, hkk, ih1]
    · simp [Batcher.entryFor, Batcher.hasKey, hk, hv, hkk, ih1]

theorem pairsUnder_length (key : K) (subs : List (K × Batch V)) (c : Nat)
    (hfull : ∀ s ∈ subs, s.2.Indices.length = c ∧ s.2.Values.length = c) :
    (pairsUnder key subs).length = c * (subs.filter (fun s => decide (s.1 = key))).length := by
  induction subs with
  | nil => simp [pairsUnder]
  | cons a rest ih =>
    have ih1 := ih (fun s hs => hfull s (List.mem_cons_of_mem _ hs))
    obtain ⟨h1, h2⟩ := hfull a (List.mem_cons_self _ _)
    simp only [pairsUnder] at ih1 ⊢
    by_cases hk : a.1 = key
    · simp only [List.filter_cons, hk, decide_True, if_true, List.flatMap_cons,
        List.length_append, List.length_cons]
      rw [ih1]
      simp only [Batch.pairs, List.length_zip, h1, h2, Nat.min_self, Nat.mul_succ]
      omega
    · simp only [List.filter_cons, hk, decide_False, Bool.false_eq_true, if_false, ih1]

theorem bufferedPairs_length_lt (b : Batcher σ I K V) {done : List (Nat × I)}
    {st : ScanState σ K V} (hC : 1 ≤ b.capacity) (inv : ScanInv b done st) (key : K) :
    (bufferedPairs key st.batchByKey).length < b.capacity := by
  obtain ⟨_, h2, h3, h4⟩ := current_spec b hC inv key
  rw [← h4]
  simp only [Batch.pairs, List.length_zip]
  omega

/-- Under the invariant, the number of batches submitted under a key is the number of items
seen with that key divided by the capacity. -/
theorem submitted_count (b : Batcher σ I K V) {done : List (Nat × I)} {st : ScanState σ K V}
    (hC : 1 ≤ b.capacity) (inv : ScanInv b done st) (key : K) :
    ((submissions st.calls).filter (fun s => decide (s.1 = key))).length =
      (b.keyedPairs key done).length / b.capacity := by
  have h1 := congrArg List.length (inv.cover key)
  rw [List.length_append, pairsUnder_length key _ b.capacity inv.full] at h1
  have h2 := bufferedPairs_length_lt b hC inv key
  rw [← h1, Nat.mul_add_div (by omega), Nat.div_eq_of_lt h2]
  rfl

/-- Under the invariant, the indices held by submitted and buffered batches are positions
of items already seen. -/
theorem index_seen (b : Batcher σ I K V) {done : List (Nat × I)} {st : ScanState σ K V}
    (inv : ScanInv b done st) {i : Nat} :
    (∀ s ∈ submissions st.calls, i ∈ s.2.Indices → i ∈ done.map Prod.fst) ∧
    (∀ p ∈ st.batchByKey, i ∈ p.2.Indices → i ∈ done.map Prod.fst) := by
  constructor
  · intro s hs hi
    obtain ⟨pos, hpos⟩ := List.mem_iff_getElem?.mp hi
    have hlen : s.2.Values.length = s.2.Indices.length := by
      have := inv.full s hs
      omega
    obtain ⟨v, _, hmem⟩ := mem_pairsUnder_of_index hs hlen hpos
    have hmem2 : (i, v) ∈ b.keyedPairs s.1 done := by
      rw [← inv.cover s.1]
      exact List.mem_append_left _ hmem
    obtain ⟨x, hx, _, _⟩ := mem_keyedPairs b hmem2
    exact List.mem_map_of_mem Prod.fst hx
  · intro p hp hi
    obtain ⟨pos, hpos⟩ := List.mem_iff_getElem?.mp hi
    have hroom := inv.room p hp
    have hpos2 : pos < p.2.Indices.length := by
      by_contra hcon
      rw [List.getElem?_eq_none (by omega)] at hpos
      simp at hpos
    have hmem : (i, p.2.Values[pos]) ∈ bufferedPairs p.1 st.batchByKey := by
      obtain ⟨k, batch⟩ := p
      simp only [bufferedPairs, lookup_of_mem inv.nodup hp, Batch.pairs]
      rw [List.mem_iff_getElem?]
      exact ⟨pos, by simp [List.getElem?_zip_eq_some, hpos, List.getElem?_eq_getElem]⟩
    have hmem2 : (i, p.2.Values[pos]) ∈ b.keyedPairs p.1 done := by
      rw [← inv.cover p.1]
      exact List.mem_append_right _ hmem
    obtain ⟨x, hx, _, _⟩ := mem_keyedPairs b hmem2
    exact List.mem_map_of_mem Prod.fst hx

/-- The loop body on an item whose key or value extraction fails: an error, no submission,
and the map untouched. -/
theorem scanItem_getter_fail (b : Batcher σ I K V) (i : Nat) (x : I) (st : ScanState σ K V)
    (hfail : (∃ e, b.keyGetter x = .error e) ∨ (∃ e, b.valueGetter x = .error e)) :
    ∃ e st1, b.scanItem i x st = (some e, st1) ∧ st1.batchByKey = st.batchByKey ∧
      submissions st1.calls = submissions st.calls := by
  cases hk : b.keyGetter x with
  | error e =>
    exact ⟨_, _, scanItem_key_error b i x st hk, rfl, by simp [submissions_append, submissions]⟩
  | ok key =>
    rcases hfail with ⟨e, h⟩ | ⟨e, hv⟩
    · rw [hk] at h; simp at h
    · exact ⟨_, _, scanItem_value_error b i x st hk hv, rfl,
        by simp [submissions_append, submissions]⟩

theorem enum_split {α : Type} (input : List α) (j : Nat) (x : α) (hx : input[j]? = some x) :
    input.enum = (input.take j).enum ++ (j, x) :: List.enumFrom (j + 1) (input.drop (j + 1)) := by
  have hj : j < input.length := by
    by_contra hcon
    rw [List.getElem?_eq_none (by omega)] at hx
    simp at hx
  have hxj : input[j] = x := by
    rw [List.getElem?_eq_getElem hj] at hx
    simpa using hx
  have hsplit : input = input.take j ++ x :: input.drop (j + 1) := by
    rw [← hxj, ← List.drop_eq_getElem_cons hj, List.take_append_drop]
  conv_lhs => rw [hsplit]
  rw [List.enum_append, List.length_take, Nat.min_eq_left (by omega)]
  rfl

theorem mem_enum_take {α : Type} {input : List α} {j i : Nat} {y : α}
    (h : (i, y) ∈ (input.take j).enum) : i < j ∧ input[i]? = some y := by
  have h1 := List.mk_mem_enum_iff_getElem?.mp h
  rw [List.getElem?_take] at h1
  by_cases hij : i < j
  · simp only [hij, if_true] at h1
    exact ⟨hij, h1⟩
  · simp [hij] at h1

/-- C4. For every capacity of at least one and a submitter that never fails, if key or value
extraction first fails at position `j` then `Batch` returns an error, and by then for each
key the number of batches submitted under it is the number of items with that key among the
first `j` items divided by the capacity; every submitted batch is full, and position `j` is
in no submitted batch and in no buffered batch. -/
theorem batch_getter_error_keeps_full_batches (b : Batcher σ I K V) (hC : 1 ≤ b.capacity)
    (hsubmit : ∀ key batch world, (b.submitter key batch world).1 = none)
    (order : List (K × Batch V) → List (K × Batch V)) (input : List I) (world : σ)
    (j : Nat) (x : I) (hx : input[j]? = some x)
    (hbefore : ∀ i y, i < j → input[i]? = some y →
      ∃ k v, b.keyGetter y = .ok k ∧ b.valueGetter y = .ok v)
    (hfail : (∃ e, b.keyGetter x = .error e) ∨ (∃ e, b.valueGetter x = .error e)) :
    (∃ e, (b.Batch order input world).err = some e) ∧
    (∀ key, ((submissions (b.Batch order input world).calls).filter
        (fun s => decide (s.1 = key))).length =
      (input.take j).countP (b.hasKey key) / b.capacity) ∧
    (∀ s ∈ submissions (b.Batch order input world).calls,
      s.2.Size = b.capacity ∧ j ∉ s.2.Indices) ∧
    (∀ p ∈ (b.Batch order input world).buffered, j ∉ p.2.Indices) := by
  have hget : ∀ p ∈ (input.take j).enum,
      ∃ k v, b.keyGetter p.2 = .ok k ∧ b.valueGetter p.2 = .ok v := by
    intro p hp
    obtain ⟨i, y⟩ := p
    obtain ⟨h1, h2⟩ := mem_enum_take hp
    exact hbefore i y h1 h2
  obtain ⟨st0, hscan0⟩ := scan_progress b hC hsubmit (input.take j).enum
    (scanInv_init b world) hget
  have inv : ScanInv b (input.take j).enum st0 := by
    simpa using scan_inv b hC (input.take j).enum (scanInv_init b world) hscan0
  obtain ⟨e, st1, hstep, hmap, hsubs⟩ := scanItem_getter_fail b j x st0 hfail
  have hscan : b.scan input.enum (initial world) = (some e, st1) := by
    rw [enum_split input j x hx, scan_append]
    have hscan1 : b.scan (input.take j).enum (initial world) = (none, st0) := hscan0
    rw [hscan1]
    simp [Batcher.scan, hstep]
  rw [batch_of_scan_error b order input world hscan]
  simp only [hsubs, hmap]
  have hnotin : j ∉ (input.take j).enum.map Prod.fst := by
    rw [List.enum_map_fst]
    simp
  refine ⟨⟨e, rfl⟩, ?_, ?_, ?_⟩
  · intro key
    rw [submitted_count b hC inv key, keyedPairs_length b key _ hget, List.enum_map_snd]
  · intro s hs
    exact ⟨(inv.full s hs).1, fun hmem => hnotin ((index_seen b inv).1 s hs hmem)⟩
  · intro p hp hmem
    exact hnotin ((index_seen b inv).2 p hp hmem)

omit [DecidableEq K] in
theorem keyFirst_append {a ch : List (Call K V)} (ha : KeyFirst a) (hch : KeyFirst ch) :
    KeyFirst (a ++ ch) := by
  intro pre i r post h
  rcases List.append_eq_append_iff.mp h with ⟨a1, h1, h2⟩ | ⟨c1, h1, h2⟩
  · obtain ⟨k, hk⟩ := hch a1 i r post h2
    exact ⟨k, by rw [h1]; exact List.mem_append_right _ hk⟩
  · cases c1 with
    | nil =>
      simp only [List.nil_append] at h2
      simp only [List.append_nil] at h1
      obtain ⟨k, hk⟩ := hch [] i r post (by simpa using h2.symm)
      simp at hk
    | cons d rest =>
      simp only [List.cons_append, List.cons.injEq] at h2
      obtain ⟨h3, _⟩ := h2
      subst h3
      exact ha pre i r rest h1

omit [DecidableEq K] in
theorem keyFirst_nil : KeyFirst ([] : List (Call K V)) := by
  intro pre i r post h
  simp at h

omit [DecidableEq K] in
theorem keyFirst_key (i : Nat) (r : Except String K) :
    KeyFirst ([Call.getKey i r] : List (Call K V)) := by
  intro pre j q post h
  match pre with
  | [] => simp at h
  | _ :: rest => simp at h

omit [DecidableEq K] in
theorem keyFirst_submit (key : K) (batch : Batch V) (err : Option String) :
    KeyFirst [Call.submit key batch err] := by
  intro pre j q post h
  match pre with
  | [] => simp at h
  | _ :: rest => simp at h

omit [DecidableEq K] in
theorem keyFirst_pair (i : Nat) (key : K) (r : Except String V) (tail : List (Call K V))
    (htail : KeyFirst tail) :
    KeyFirst (Call.getKey i (.ok key) :: Call.getValue i r :: tail) := by
  intro pre j q post h
  match pre with
  | [] => simp at h
  | [a] =>
    simp only [List.cons_append, List.nil_append, List.cons.injEq, Call.getValue.injEq] at h
    obtain ⟨h1, ⟨h2, _⟩, _⟩ := h
    exact ⟨key, by simp [← h1, h2]⟩
  | a :: c :: rest =>
    simp only [List.cons_append, List.cons.injEq] at h
    obtain ⟨_, _, h3⟩ := h
    obtain ⟨k, hk⟩ := htail rest j q post h3
    exact ⟨k, by simp [hk]⟩

theorem scanItem_keyFirst (b : Batcher σ I K V) (i : Nat) (x : I) (st : ScanState σ K V)
    (h : KeyFirst st.calls) : KeyFirst (b.scanItem i x st).2.calls := by
  rcases scanItem_cases b i x st with ⟨e, _, h1⟩ | ⟨key, e, _, _, h1⟩ |
    ⟨key, value, _, _, _, _, h2⟩ | ⟨key, value, _, _, _, _, h1⟩ |
    ⟨key, value, world1, _, _, _, _, _, h1⟩ | ⟨key, value, world1, e, _, _, _, _, _, h1⟩
  · rw [h1]
    exact keyFirst_append h (keyFirst_key _ _)
  · rw [h1]
    exact keyFirst_append h (keyFirst_pair _ _ _ _ keyFirst_nil)
  · rw [h2]
    exact keyFirst_append h (keyFirst_pair _ _ _ _ keyFirst_nil)
  · rw [h1]
    exact keyFirst_append h (keyFirst_pair _ _ _ _ keyFirst_nil)
  · rw [h1]
    exact keyFirst_append h (keyFirst_pair _ _ _ _ (keyFirst_submit _ _ _))
  · rw [h1]
    exact keyFirst_append h (keyFirst_pair _ _ _ _ (keyFirst_submit _ _ _))

theorem scan_keyFirst (b : Batcher σ I K V) (items : List (Nat × I)) :
    ∀ (st : ScanState σ K V), KeyFirst st.calls → KeyFirst (b.scan items st).2.calls := by
  induction items with
  | nil => intro st h; exact h
  | cons p rest ih =>
    intro st h
    obtain ⟨i, x⟩ := p
    have hitem := scanItem_keyFirst b i x st h
    simp only [Batcher.scan]
    cases hs : b.scanItem i x st with
    | mk err st2 =>
      rw [hs] at hitem
      cases err with
      | some e => exact hitem
      | none => exact ih st2 hitem

theorem flush_keyFirst (b : Batcher σ I K V) (visit : List (K × Batch V)) :
    ∀ (st : ScanState σ K V), KeyFirst st.calls → KeyFirst (b.flush visit st).2.calls := by
  induction visit with
  | nil => intro st h; exact h
  | cons p rest ih =>
    intro st h
    obtain ⟨key, batch⟩ := p
    simp only [Batcher.flush, Batcher.submit]
    cases hE : batch.IsEmpty with
    | true =>
      simp only [if_true, List.append_nil]
      exact ih _ h
    | false =>
      cases hsub : b.submitter key batch st.world with
      | mk err world1 =>
        cases err with
        | none =>
          simp only [Bool.false_eq_true, if_false]
          exact ih _ (keyFirst_append h (keyFirst_submit _ _ _))
        | some e =>
          simp only [Bool.false_eq_true, if_false]
          exact keyFirst_append h (keyFirst_submit _ _ _)

theorem batch_keyFirst (b : Batcher σ I K V) (order : List (K × Batch V) → List (K × Batch V))
    (input : List I) (world : σ) : KeyFirst (b.Batch order input world).calls := by
  have hscan := scan_keyFirst b input.enum (initial world) keyFirst_nil
  cases hs : b.scan input.enum (initial world) with
  | mk err st =>
    rw [hs] at hscan
    cases err with
    | some e =>
      rw [batch_of_scan_error b order input world hs]
      exact hscan
    | none =>
      rw [batch_of_scan_ok b order input world hs]
      exact flush_keyFirst b _ st hscan

/-- C5. For every capacity of at least one, `Batch` returns `nil` exactly when no call made
during the run fails. A failed call is the first failure and the last call of the run, and
the returned error is its error behind the prefix for its kind; and a value is extracted
only after the key of the same item was extracted successfully. -/
theorem batch_error_iff_call_fails (b : Batcher σ I K V) (hC : 1 ≤ b.capacity)
    (order : List (K × Batch V) → List (K × Batch V)) (input : List I) (world : σ) :
    ((b.Batch order input world).err = none ↔ Clean (b.Batch order input world).calls) ∧
    (∀ pre c post, (b.Batch order input world).calls = pre ++ c :: post → c.failed = true →
      post = [] ∧ Clean pre) ∧
    (∀ i e, Call.getKey i (.error e) ∈ (b.Batch order input world).calls →
      (b.Batch order input world).err = some ("error getting batch key: " ++ e)) ∧
    (∀ i e, Call.getValue i (.error e) ∈ (b.Batch order input world).calls →
      (b.Batch order input world).err = some ("error getting batch value: " ++ e)) ∧
    (∀ key batch e, Call.submit key batch (some e) ∈ (b.Batch order input world).calls →
      (b.Batch order input world).err = some ("error submitting batch: " ++ e)) ∧
    KeyFirst (b.Batch order input world).calls := by
  have hout := batch_outcome_strict b hC order input world
  have hfail : ∀ c ∈ (b.Batch order input world).calls, c.failed = true →
      (b.Batch order input world).err = c.wrapped := by
    intro c hc hf
    rcases hout with ⟨_, h⟩ | h
    · have := h c hc
      rw [hf] at this
      simp at this
    · obtain ⟨pre, post, hsplit⟩ := List.append_of_mem hc
      exact (failed_is_last h hsplit hf).2.1
  refine ⟨⟨?_, fun h => err_none_of_clean b hC order input world h⟩, ?_,
    fun i e h => hfail _ h rfl, fun i e h => hfail _ h rfl, fun key batch e h => hfail _ h rfl,
    batch_keyFirst b order input world⟩
  · intro herr
    rcases hout with ⟨_, h⟩ | ⟨pre, c, _, _, h3, h4⟩
    · exact h
    · rw [herr] at h4
      cases c with
      | getKey j r => cases r <;> simp [Call.failed, Call.wrapped] at h3 h4
      | getValue j r => cases r <;> simp [Call.failed, Call.wrapped] at h3 h4
      | submit k bt r => cases r <;> simp [Call.failed, Call.wrapped] at h3 h4
  · intro pre c post hsplit hf
    rcases hout with ⟨_, h⟩ | h
    · have := h c (by rw [hsplit]; simp)
      rw [hf] at this
      simp at this
    · have := failed_is_last h hsplit hf
      exact ⟨this.1, this.2.2⟩

/-- C6. When a `Submit` call fails during `Batcher.Batch`, whether for a batch that just
filled or in the final loop, it is the last call of the run: no `Submit`, `GetBatchKey` or
`GetBatchValue` call follows it, no call before it failed, and `Batch` returns its error
behind the submit prefix. -/
theorem batch_stops_at_failed_submit (b : Batcher σ I K V)
    (order : List (K × Batch V) → List (K × Batch V)) (input : List I) (world : σ)
    (pre post : List (Call K V)) (key : K) (batch : Batch V) (e : String)
    (h : (b.Batch order input world).calls = pre ++ Call.submit key batch (some e) :: post) :
    post = [] ∧ Clean pre ∧
      (b.Batch order input world).err = some ("error submitting batch: " ++ e) := by
  have hnot : ¬ Clean (b.Batch order input world).calls := by
    intro hclean
    have := hclean (Call.submit key batch (some e)) (by rw [h]; simp)
    simp [Call.failed] at this
  rcases batch_outcome b order input world with ⟨_, h1⟩ | ⟨_, h1⟩ | h1
  · exact absurd h1 hnot
  · exact absurd h1 hnot
  · have := failed_is_last h1 h rfl
    exact ⟨this.1, this.2.2, this.2.1⟩

theorem sample_clean :
    Clean (sampleBatcher.Batch List.reverse [0, 1, 2, 3, 4, 5] []).calls := by
  unfold Clean
  decide

theorem batch_submits_each_item_once_witness :
    Clean (sampleBatcher.Batch List.reverse [0, 1, 2, 3, 4, 5] []).calls ∧
    (sampleBatcher.Batch List.reverse [0, 1, 2, 3, 4, 5] []).err = none :=
  ⟨sample_clean,
    (batch_submits_each_item_once sampleBatcher (by decide) List.reverse
      (fun m => List.reverse_perm m) [0, 1, 2, 3, 4, 5] [] sample_clean).1⟩

theorem batch_submits_within_capacity_witness :
    1 ≤ refusingBatcher.capacity ∧
    (submissions (refusingBatcher.Batch List.reverse [0, 1, 2, 3, 4, 5] []).calls).all
      (fun s => decide (1 ≤ s.2.Size ∧ s.2.Size ≤ refusingBatcher.capacity)) = true :=
  ⟨by decide,
    List.all_eq_true.mpr (fun s hs => decide_eq_true
      (batch_submits_within_capacity refusingBatcher (by decide) List.reverse
        (fun m => List.reverse_perm m) [0, 1, 2, 3, 4, 5] [] s hs))⟩

theorem batch_groups_by_key_in_order_witness :
    Clean (sampleBatcher.Batch List.reverse [0, 1, 2, 3, 4, 5] []).calls ∧
    pairsUnder 1 (submissions (sampleBatcher.Batch List.reverse [0, 1, 2, 3, 4, 5] []).calls) =
      sampleBatcher.keyedPairs 1 [0, 1, 2, 3, 4, 5].enum :=
  ⟨sample_clean,
    (batch_groups_by_key_in_order sampleBatcher (by decide) List.reverse
      (fun m => List.reverse_perm m) [0, 1, 2, 3, 4, 5] [] sample_clean).1 1⟩

theorem batch_getter_error_keeps_full_batches_witness :
    (∃ e, (sampleBatcher.Batch id [0, 1, 2, 4, 100, 5] []).err = some e) ∧
    ((submissions (sampleBatcher.Batch id [0, 1, 2, 4, 100, 5] []).calls).filter
        (fun s => decide (s.1 = 1))).length =
      ([0, 1, 2, 4, 100, 5].take 4).countP (sampleBatcher.hasKey 1) / 2 := by
  have h := batch_getter_error_keeps_full_batches sampleBatcher (by decide)
    (fun _ _ _ => rfl) id [0, 1, 2, 4, 100, 5] [] 4 100 (by decide)
    (by
      intro i y hi hy
      have hy2 : y < 100 := by
        interval_cases i <;> simp at hy <;> omega
      exact ⟨[1, 0, 1, 2, 0, 1].getD y 0, y * 3, by simp [sampleBatcher, hy2],
        by simp [sampleBatcher, hy2]⟩)
    (Or.inl ⟨"bad key", rfl⟩)
  exact ⟨h.1, h.2.1 1⟩

theorem batch_error_iff_call_fails_witness :
    ((refusingBatcher.Batch id [0, 1, 2, 3, 4, 5] []).err = none ↔
      Clean (refusingBatcher.Batch id [0, 1, 2, 3, 4, 5] []).calls) :=
  (batch_error_iff_call_fails refusingBatcher (by decide) id [0, 1, 2, 3, 4, 5] []).1

theorem batch_stops_at_failed_submit_witness :
    (refusingBatcher.Batch id [0, 1, 2, 3, 4, 5] []).calls =
      [.getKey 0 (.ok 1), .getValue 0 (.ok 0), .getKey 1 (.ok 0), .getValue 1 (.ok 3),
        .getKey 2 (.ok 1), .getValue 2 (.ok 6),
        .submit 1 { Indices := [0, 2], Values := [0, 6], capacity := 2 } none,
        .getKey 3 (.ok 2), .getValue 3 (.ok 9), .getKey 4 (.ok 0), .getValue 4 (.ok 12)] ++
      .submit 0 { Indices := [1, 4], Values := [3, 12], capacity := 2 } (some "test-error") ::
        [] ∧
    (refusingBatcher.Batch id [0, 1, 2, 3, 4, 5] []).err =
      some ("error submitting batch: " ++ "test-error") ∧
    (refusingBatcher.Batch id [0, 1, 2, 3, 4, 5] []).buffered =
      [(1, { Indices := [], Values := [], capacity := 2 }),
        (0, { Indices := [1, 4], Values := [3, 12], capacity := 2 }),
        (2, { Indices := [3], Values := [9], capacity := 2 })] :=
  ⟨rfl,
    (batch_stops_at_failed_submit refusingBatcher id [0, 1, 2, 3, 4, 5] [] _ [] 0
      { Indices := [1, 4], Values := [3, 12], capacity := 2 } "test-error" rfl).2.2,
    rfl⟩

/-- With a capacity of at least one, getters that succeed on every item and a submitter that
never fails, the first loop goes through all the items. -/
theorem scan_of_success (b : Batcher σ I K V) (hC : 1 ≤ b.capacity)
    (hsubmit : ∀ key batch world, (b.submitter key batch world).1 = none)
    (items : List (Nat × I)) :
    ∀ {done : List (Nat × I)} {st : ScanState σ K V}, ScanInv b done st →
      (∀ p ∈ items, ∃ k v, b.keyGetter p.2 = .ok k ∧ b.valueGetter p.2 = .ok v) →
      ∃ st1, b.scan items st = (none, st1) := by
  induction items with
  | nil =>
    intro done st _ _
    exact ⟨st, rfl⟩
  | cons p rest ih =>
    intro done st inv hget
    obtain ⟨i, x⟩ := p
    obtain ⟨k, v, hk, hv⟩ := hget (i, x) (List.mem_cons_self _ _)
    have hrest : ∀ p ∈ rest, ∃ k v, b.keyGetter p.2 = .ok k ∧ b.valueGetter p.2 = .ok v :=
      fun p hp => hget p (List.mem_cons_of_mem _ hp)
    have hstep : ∃ st2, b.scanItem i x st = (none, st2) := by
      rcases scanItem_cases b i x st with ⟨e, h0, _⟩ | ⟨key, e, _, h0, _⟩ |
        ⟨key, value, _, _, hfull, _, _⟩ | ⟨key, value, _, _, _, _, h1⟩ |
        ⟨key, value, world1, _, _, _, _, _, h1⟩ | ⟨key, value, world1, e, _, _, _, _, hsub, _⟩
      · rw [hk] at h0; simp at h0
      · rw [hv] at h0; simp at h0
      · rw [current_not_full b hC inv key] at hfull
        simp at hfull
      · exact ⟨_, h1⟩
      · exact ⟨_, h1⟩
      · have := hsubmit key (grown (current b.capacity key st.batchByKey) i value) st.world
        rw [hsub] at this
        simp at this
    obtain ⟨st2, h2⟩ := hstep
    obtain ⟨st1, h1⟩ := ih (scanItem_inv b hC inv i x h2) hrest
    exact ⟨st1, by simp [Batcher.scan, h2, h1]⟩

/-- With a submitter that never fails the final loop returns no error. -/
theorem flush_of_success (b : Batcher σ I K V)
    (hsubmit : ∀ key batch world, (b.submitter key batch world).1 = none)
    (visit : List (K × Batch V)) :
    ∀ (st : ScanState σ K V), (b.flush visit st).1 = none := by
  induction visit with
  | nil => intro st; rfl
  | cons p rest ih =>
    intro st
    obtain ⟨key, batch⟩ := p
    simp only [Batcher.flush, Batcher.submit]
    cases hE : batch.IsEmpty with
    | true =>
      simp only [if_true]
      exact ih _
    | false =>
      cases hsub : b.submitter key batch st.world with
      | mk err world1 =>
        have := hsubmit key batch st.world
        rw [hsub] at this
        simp only at this
        subst this
        simp only [Bool.false_eq_true, if_false]
        exact ih _

/-- With the capacity zero the first loop stops at an item that has a key and a value: the
fresh batch for the key is full. -/
theorem scan_of_zero_capacity (b : Batcher σ I K V) (hC : b.capacity = 0) (world : σ) (x : I)
    (rest : List I) (key : K) (value : V) (hk : b.keyGetter x = .ok key)
    (hv : b.valueGetter x = .ok value) :
    b.scan (x :: rest).enum (initial world) =
      (some "error appending to batch: the batch is full",
        { batchByKey := store key (NewBatch b.capacity) [], world := world,
          calls := [.getKey 0 (.ok key), .getValue 0 (.ok value)] }) := by
  have hstep : b.scanItem 0 x (initial world) =
      (some "error appending to batch: the batch is full",
        { batchByKey := store key (NewBatch b.capacity) [], world := world,
          calls := [.getKey 0 (.ok key), .getValue 0 (.ok value)] }) := by
    simp [Batcher.scanItem, hk, hv, initial, lookup, NewBatch, Batch.Append, Batch.IsFull,
      Batch.Size, hC]
  simp [List.enum_cons, Batcher.scan, hstep]

/-- Two runs whose first loop ends without an error in the state `st`, with a submitter that
never fails: both return `nil`, and each makes the submissions of the first loop followed by
the non-empty batches of the map in its own visiting order. -/
theorem runs_of_scan_ok (b : Batcher σ I K V)
    (order1 order2 : List (K × Batch V) → List (K × Batch V))
    (hperm1 : ∀ m, (order1 m).Perm m) (hperm2 : ∀ m, (order2 m).Perm m)
    (hsubmit : ∀ key batch world, (b.submitter key batch world).1 = none)
    (input : List I) (world : σ) {st : ScanState σ K V}
    (hs : b.scan input.enum (initial world) = (none, st)) :
    submissions (b.Batch order1 input world).calls =
      submissions st.calls ++ toFlush (order1 st.batchByKey) ∧
    submissions (b.Batch order2 input world).calls =
      submissions st.calls ++ toFlush (order2 st.batchByKey) ∧
    (toFlush (order1 st.batchByKey)).Perm (toFlush (order2 st.batchByKey)) ∧
    (b.Batch order1 input world).err = none ∧ (b.Batch order2 input world).err = none := by
  have herr1 := flush_of_success b hsubmit (order1 st.batchByKey) st
  have herr2 := flush_of_success b hsubmit (order2 st.batchByKey) st
  obtain ⟨made1, h11, _, h13⟩ := flush_submissions b (order1 st.batchByKey) st
  obtain ⟨made2, h21, _, h23⟩ := flush_submissions b (order2 st.batchByKey) st
  have hm1 := h13 herr1
  have hm2 := h23 herr2
  subst hm1
  subst hm2
  refine ⟨?_, ?_, ?_, ?_, ?_⟩
  · rw [batch_of_scan_ok b order1 input world hs]
    exact h11
  · rw [batch_of_scan_ok b order2 input world hs]
    exact h21
  · exact ((hperm1 st.batchByKey).trans (hperm2 st.batchByKey).symm).filter _
  · rw [batch_of_scan_ok b order1 input world hs]
    exact herr1
  · rw [batch_of_scan_ok b order2 input world hs]
    exact herr2

/-- C35. With getters that succeed on every item and a submitter that never fails, two runs
of `Batcher.Batch` on the same input that differ in the order in which the final loop visits
the map make the same submissions during the first loop, in the same order and every one of
them a full batch, and in the final loop submit the same non-empty batches under the same
keys, each in its own visiting order: the two lists of final submissions are permutations
of each other. The two runs return the same, which is `nil` when the capacity is at least
one. -/
theorem final_flush_order_only_permutes_submissions (b : Batcher σ I K V)
    (order1 order2 : List (K × Batch V) → List (K × Batch V))
    (hperm1 : ∀ m, (order1 m).Perm m) (hperm2 : ∀ m, (order2 m).Perm m)
    (hsubmit : ∀ key batch world, (b.submitter key batch world).1 = none)
    (input : List I) (world : σ)
    (hgetters : ∀ x ∈ input, ∃ k v, b.keyGetter x = .ok k ∧ b.valueGetter x = .ok v) :
    ∃ scanned final1 final2,
      submissions (b.Batch order1 input world).calls = scanned ++ final1 ∧
      submissions (b.Batch order2 input world).calls = scanned ++ final2 ∧
      scanned = submissions (b.scan input.enum (initial world)).2.calls ∧
      (∀ s ∈ scanned, s.2.Indices.length = b.capacity ∧ s.2.Values.length = b.capacity) ∧
      final1 = toFlush (order1 (b.scan input.enum (initial world)).2.batchByKey) ∧
      final2 = toFlush (order2 (b.scan input.enum (initial world)).2.batchByKey) ∧
      final1.Perm final2 ∧
      (b.Batch order1 input world).err = (b.Batch order2 input world).err ∧
      (1 ≤ b.capacity → (b.Batch order1 input world).err = none) := by
  by_cases hC : 1 ≤ b.capacity
  · have hget : ∀ p ∈ input.enum,
        ∃ k v, b.keyGetter p.2 = .ok k ∧ b.valueGetter p.2 = .ok v := by
      intro p hp
      obtain ⟨i, x⟩ := p
      obtain ⟨hi, hx⟩ := List.mem_enum hp
      exact hgetters x (List.mem_iff_getElem.mpr ⟨i, hi, hx.symm⟩)
    obtain ⟨st, hs⟩ := scan_of_success b hC hsubmit input.enum (scanInv_init b world) hget
    have inv : ScanInv b ([] ++ input.enum) st :=
      scan_inv b hC input.enum (scanInv_init b world) hs
    obtain ⟨h1, h2, h3, h4, h5⟩ :=
      runs_of_scan_ok b order1 order2 hperm1 hperm2 hsubmit input world hs
    refine ⟨submissions st.calls, toFlush (order1 st.batchByKey),
      toFlush (order2 st.batchByKey), h1, h2, by rw [hs], inv.full, by rw [hs], by rw [hs],
      h3, by rw [h4, h5], fun _ => h4⟩
  · have hzero : b.capacity = 0 := by omega
    cases input with
    | nil =>
      have hs : b.scan ([] : List I).enum (initial world) = (none, initial world) := rfl
      obtain ⟨h1, h2, h3, h4, h5⟩ :=
        runs_of_scan_ok b order1 order2 hperm1 hperm2 hsubmit [] world hs
      refine ⟨submissions (initial world : ScanState σ K V).calls,
        toFlush (order1 (initial world : ScanState σ K V).batchByKey),
        toFlush (order2 (initial world : ScanState σ K V).batchByKey), h1, h2, by rw [hs], ?_,
        by rw [hs], by rw [hs], h3, by rw [h4, h5], fun _ => h4⟩
      intro s hmem
      simp [initial, submissions] at hmem
    | cons x rest =>
      obtain ⟨key, value, hk, hv⟩ := hgetters x (List.mem_cons_self _ _)
      have hs := scan_of_zero_capacity b hzero world x rest key value hk hv
      have hempty : ∀ order : List (K × Batch V) → List (K × Batch V),
          (∀ m, (order m).Perm m) →
          toFlush (order (store key (NewBatch b.capacity) [])) = [] := by
        intro order hperm
        have hp : (toFlush (order (store key (NewBatch b.capacity) []))).Perm
            (toFlush (store key (NewBatch b.capacity) [])) := (hperm _).filter _
        have hnil : toFlush (store key (NewBatch b.capacity : Batch V) []) = [] := by
          simp [toFlush, store, NewBatch, Batch.IsEmpty, Batch.Size]
        rw [hnil] at hp
        exact hp.eq_nil
      refine ⟨[], [], [], ?_, ?_, by rw [hs]; rfl, by simp, ?_, ?_, List.Perm.refl _, ?_,
        fun h => absurd h hC⟩
      · rw [batch_of_scan_error b order1 (x :: rest) world hs]
        rfl
      · rw [batch_of_scan_error b order2 (x :: rest) world hs]
        rfl
      · rw [hs]
        exact (hempty order1 hperm1).symm
      · rw [hs]
        exact (hempty order2 hperm2).symm
      · rw [batch_of_scan_error b order1 (x :: rest) world hs,
          batch_of_scan_error b order2 (x :: rest) world hs]

omit [DecidableEq K] in
/-- The error of a failed call is not the append error. -/
theorem wrapped_ne_append (c : Call K V) (e : String) :
    c.wrapped ≠ some ("error appending to batch: " ++ e) := by
  intro h
  cases c with
  | getKey i r =>
    cases r with
    | ok k => simp [Call.wrapped] at h
    | error e1 =>
      simp only [Call.wrapped, Option.some.injEq] at h
      have h1 := congrArg String.data h
      simp only [String.data_append] at h1
      simp at h1
  | getValue i r =>
    cases r with
    | ok v => simp [Call.wrapped] at h
    | error e1 =>
      simp only [Call.wrapped, Option.some.injEq] at h
      have h1 := congrArg String.data h
      simp only [String.data_append] at h1
      simp at h1
  | submit k batch r =>
    cases r with
    | none => simp [Call.wrapped] at h
    | some e1 =>
      simp only [Call.wrapped, Option.some.injEq] at h
      have h1 := congrArg String.data h
      simp only [String.data_append] at h1
      simp at h1

/-- C38. With a capacity of at least one, `Batcher.Batch` never returns the error of a failed
`Append`: whenever the first loop has gone through a part of the input and the getters
succeed on the next item, the batch the loop body works on for the key of that item holds
fewer items than the capacity, and `Append` on it succeeds. -/
theorem append_in_batch_never_fails (b : Batcher σ I K V) (hC : 1 ≤ b.capacity)
    (order : List (K × Batch V) → List (K × Batch V)) (input : List I) (world : σ) :
    (∀ e, (b.Batch order input world).err ≠ some ("error appending to batch: " ++ e)) ∧
    (∀ (pre : List (Nat × I)) (i : Nat) (x : I) (post : List (Nat × I))
        (st0 : ScanState σ K V) (key : K) (value : V),
      input.enum = pre ++ (i, x) :: post → b.scan pre (initial world) = (none, st0) →
      b.keyGetter x = .ok key → b.valueGetter x = .ok value →
      (current b.capacity key st0.batchByKey).Size < (current b.capacity key
        st0.batchByKey).Capacity ∧
      (current b.capacity key st0.batchByKey).IsFull = false ∧
      (current b.capacity key st0.batchByKey).Append i value =
        .ok (grown (current b.capacity key st0.batchByKey) i value)) := by
  constructor
  · intro e h
    rcases batch_outcome_strict b hC order input world with ⟨h1, _⟩ | ⟨pre, c, _, _, _, h4⟩
    · rw [h1] at h
      simp at h
    · rw [h4] at h
      exact wrapped_ne_append c e h
  · intro pre i x post st0 key value _ hscan _ _
    have inv : ScanInv b ([] ++ pre) st0 := scan_inv b hC pre (scanInv_init b world) hscan
    obtain ⟨h1, h2, _, _⟩ := current_spec b hC inv key
    have hfull := current_not_full b hC inv key
    refine ⟨?_, hfull, ?_⟩
    · simp only [Batch.Size, Batch.Capacity, h1]
      exact h2
    · simp [Batch.Append, hfull, grown]

/-- C39. With the capacity zero, `Batcher.Batch` on an input whose first item has a key and
a value returns the error of `Append` on a full batch, and on the empty input it returns
`nil`; in both cases nothing is submitted and the world is as it was. -/
theorem zero_capacity_rejects_first_item (b : Batcher σ I K V) (hC : b.capacity = 0)
    (order : List (K × Batch V) → List (K × Batch V)) (horder : ∀ m, (order m).Perm m)
    (world : σ) :
    (∀ (x : I) (rest : List I) (key : K) (value : V),
      b.keyGetter x = .ok key → b.valueGetter x = .ok value →
      (b.Batch order (x :: rest) world).err =
        some "error appending to batch: the batch is full" ∧
      submissions (b.Batch order (x :: rest) world).calls = [] ∧
      (b.Batch order (x :: rest) world).world = world) ∧
    ((b.Batch order [] world).err = none ∧ (b.Batch order [] world).calls = [] ∧
      (b.Batch order [] world).world = world) := by
  constructor
  · intro x rest key value hk hv
    rw [batch_of_scan_error b order (x :: rest) world
      (scan_of_zero_capacity b hC world x rest key value hk hv)]
    exact ⟨rfl, rfl, rfl⟩
  · have hnil : order ([] : List (K × Batch V)) = [] := (horder []).eq_nil
    simp [Batcher.Batch, Batcher.scan, initial, hnil, Batcher.flush]

theorem final_flush_order_only_permutes_submissions_witness :
    ∃ final1 final2,
      submissions (sampleBatcher.Batch id [0, 1, 2, 3, 4, 5] []).calls =
        submissions (sampleBatcher.scan [0, 1, 2, 3, 4, 5].enum (initial [])).2.calls ++
          final1 ∧
      submissions (sampleBatcher.Batch List.reverse [0, 1, 2, 3, 4, 5] []).calls =
        submissions (sampleBatcher.scan [0, 1, 2, 3, 4, 5].enum (initial [])).2.calls ++
          final2 ∧
      final1.Perm final2 := by
  obtain ⟨scanned, final1, final2, h1, h2, h3, _, _, _, h7, _⟩ :=
    final_flush_order_only_permutes_submissions sampleBatcher id List.reverse
      (fun m => List.Perm.refl m) (fun m => List.reverse_perm m) (fun _ _ _ => rfl)
      [0, 1, 2, 3, 4, 5] []
      (fun x hx => by
        have hlt : x < 100 := by
          simp only [List.mem_cons, List.mem_singleton, List.not_mem_nil, or_false] at hx
          omega
        exact ⟨[1, 0, 1, 2, 0, 1].getD x 0, x * 3, by simp [sampleBatcher, hlt],
          by simp [sampleBatcher, hlt]⟩)
  subst h3
  exact ⟨final1, final2, h1, h2, h7⟩

theorem append_in_batch_never_fails_witness :
    1 ≤ sampleBatcher.capacity ∧
    (sampleBatcher.Batch id [0, 1, 2, 3, 4, 5] []).err ≠
      some ("error appending to batch: " ++ "the batch is full") :=
  ⟨by decide,
    (append_in_batch_never_fails sampleBatcher (by decide) id [0, 1, 2, 3, 4, 5] []).1
      "the batch is full"⟩

theorem zero_capacity_rejects_first_item_witness :
    zeroBatcher.capacity = 0 ∧
    (zeroBatcher.Batch id [0, 1] []).err =
      some "error appending to batch: the batch is full" ∧
    submissions (zeroBatcher.Batch id [0, 1] []).calls = [] :=
  have h := (zero_capacity_rejects_first_item zeroBatcher rfl id (fun m => List.Perm.refl m)
    []).1 0 [1] 1 0 rfl rfl
  ⟨rfl, h.1, h.2.1⟩

end Batching

namespace Batching.Sliced

/-- Appending to a slice adds the element at the end. -/
theorem Slice.append_items {α : Type} (grow : Nat → Nat) (s : Slice α) (x : α) :
    (s.append grow x).items = s.items ++ [x] := by
  unfold Slice.append
  split <;> rfl

/-- Appending to a slice with room left keeps its storage. -/
theorem Slice.append_cap {α : Type} (grow : Nat → Nat) (s : Slice α) (x : α)
    (h : s.items.length < s.cap) : (s.append grow x).cap = s.cap := by
  unfold Slice.append
  rw [dif_pos h]

theorem isFull_iff {V : Type} (batch : Batch V) :
    batch.IsFull = true ↔ (batch.Size : Int) = batch.Capacity := by
  simp [Batch.IsFull, Batch.Capacity]

/-- C24. `Append` returns the error `the batch is full` exactly when the size equals the
capacity beforehand, and then the batch is as it was. Otherwise it returns `nil`, the index
and the value are added at the end of `Indices` and of `Values`, whose earlier elements stay,
the capacity is unchanged and the size is one more. -/
theorem append_full_or_adds_pair {V : Type} (grow : Nat → Nat) (batch : Batch V) (index : Int)
    (value : V) :
    ((batch.Append grow index value).1 = some "the batch is full" ↔
      (batch.Size : Int) = batch.Capacity) ∧
    ((batch.Size : Int) = batch.Capacity → (batch.Append grow index value).2 = batch) ∧
    ((batch.Size : Int) ≠ batch.Capacity →
      (batch.Append grow index value).1 = none ∧
      (batch.Append grow index value).2.Indices.items = batch.Indices.items ++ [index] ∧
      (batch.Append grow index value).2.Values.items = batch.Values.items ++ [value] ∧
      (batch.Append grow index value).2.Capacity = batch.Capacity ∧
      (batch.Append grow index value).2.Size = batch.Size + 1) := by
  by_cases hfull : batch.IsFull = true
  · have heq := (isFull_iff batch).mp hfull
    refine ⟨⟨fun _ => heq, fun _ => by simp [Batch.Append, hfull]⟩,
      fun _ => by simp [Batch.Append, hfull], fun hne => absurd heq hne⟩
  · have hne : (batch.Size : Int) ≠ batch.Capacity := fun h => hfull ((isFull_iff batch).mpr h)
    have hstep : batch.Append grow index value =
        (none, { batch with Indices := batch.Indices.append grow index,
                            Values := batch.Values.append grow value }) := by
      simp [Batch.Append, hfull]
    refine ⟨⟨fun h => ?_, fun h => absurd h hne⟩, fun h => absurd h hne, fun _ => ?_⟩
    · rw [hstep] at h
      simp at h
    · rw [hstep]
      refine ⟨rfl, Slice.append_items _ _ _, Slice.append_items _ _ _, rfl, ?_⟩
      simp [Batch.Size, Slice.len, Slice.append_items]

/-- C25. After `Reset` the size is zero, the batch is empty and `Indices` and `Values` hold
no element, while the capacity and the reserved storage of `Indices` and of `Values` are what
they were. -/
theorem reset_empties_and_keeps_storage {V : Type} (batch : Batch V) :
    batch.Reset.Size = 0 ∧ batch.Reset.IsEmpty = true ∧
    batch.Reset.Indices.items = [] ∧ batch.Reset.Values.items = [] ∧
    batch.Reset.Capacity = batch.Capacity ∧
    batch.Reset.Indices.cap = batch.Indices.cap ∧
    batch.Reset.Values.cap = batch.Values.cap :=
  ⟨rfl, rfl, rfl, rfl, rfl, rfl, rfl⟩

/-- C26. `NewBatchFrom` fails with the error on the number of indices and values when the
lengths differ, fails with the error on the capacities, a different text, when the lengths
agree and the reserved capacities differ, and in every other case returns a batch of the two
slices whose size is their length and whose capacity is their reserved capacity. -/
theorem newBatchFrom_checks_lengths_then_capacities {V : Type} (indices : Slice Int)
    (values : Slice V) :
    (indices.len ≠ values.len →
      NewBatchFrom indices values =
        .error ("the number of indices and values must be the same: " ++
          toString indices.len ++ " != " ++ toString values.len)) ∧
    (indices.len = values.len → indices.cap ≠ values.cap →
      NewBatchFrom indices values =
        .error ("the capacities of the indices and values must be the same: " ++
          toString indices.cap ++ " != " ++ toString values.cap)) ∧
    (indices.len = values.len → indices.cap = values.cap →
      ∃ batch, NewBatchFrom indices values = .ok batch ∧
        batch.Indices = indices ∧ batch.Values = values ∧
        batch.Size = indices.len ∧ batch.Size = values.len ∧
        batch.Capacity = indices.cap ∧ batch.Capacity = values.cap) ∧
    (∀ a b c d : String,
      "the number of indices and values must be the same: " ++ a ++ " != " ++ b ≠
        "the capacities of the indices and values must be the same: " ++ c ++ " != " ++ d) := by
  refine ⟨fun hlen => by simp [NewBatchFrom, hlen],
    fun hlen hcap => by simp [NewBatchFrom, hlen, hcap], fun hlen hcap => ?_, ?_⟩
  · refine ⟨{ Indices := indices, Values := values, capacity := indices.cap },
      by simp [NewBatchFrom, hlen, hcap], rfl, rfl, rfl, hlen, rfl, ?_⟩
    simp [Batch.Capacity, hcap]
  · intro a b c d h
    have h1 := congrArg String.data h
    simp only [String.data_append] at h1
    simp at h1

/-- The invariant of the batches a program gets: both slices have the same length, the size
is at most the capacity, and the capacity and the storage of both slices are what the
construction fixed. -/
theorem made_invariant {V : Type} {capacity : Int} {batch : Batch V}
    (h : Made capacity batch) :
    batch.Indices.len = batch.Values.len ∧ (batch.Size : Int) ≤ batch.capacity ∧
    batch.capacity = capacity ∧ (batch.Indices.cap : Int) = capacity ∧
    (batch.Values.cap : Int) = capacity := by
  induction h with
  | new capacity batch hnew =>
    unfold NewBatch at hnew
    split at hnew
    · rename_i hpos
      simp only [Option.some.injEq] at hnew
      subst hnew
      simp [Batch.Size, Slice.len, Slice.make, hpos]
    · simp at hnew
  | ofSlices indices values batch hfrom =>
    unfold NewBatchFrom at hfrom
    split at hfrom
    · simp at hfrom
    · split at hfrom
      · simp at hfrom
      · rename_i hlen hcap
        simp only [ne_eq, Decidable.not_not] at hlen hcap
        simp only [Except.ok.injEq] at hfrom
        subst hfrom
        have hb := indices.bound
        refine ⟨hlen, ?_, rfl, rfl, by simp [hcap]⟩
        simp only [Batch.Size, Slice.len]
        omega
  | append capacity batch grow index value _ ih =>
    obtain ⟨h1, h2, h3, h4, h5⟩ := ih
    by_cases hfull : batch.IsFull = true
    · have hsame : (batch.Append grow index value).2 = batch := by
        simp [Batch.Append, hfull]
      rw [hsame]
      exact ⟨h1, h2, h3, h4, h5⟩
    · have hne : (batch.Size : Int) ≠ batch.capacity := fun h =>
        hfull ((isFull_iff batch).mpr h)
      have hstep : (batch.Append grow index value).2 =
          { batch with Indices := batch.Indices.append grow index,
                       Values := batch.Values.append grow value } := by
        simp [Batch.Append, hfull]
      simp only [Batch.Size, Slice.len] at h1 h2 hne
      have hroomI : batch.Indices.items.length < batch.Indices.cap := by omega
      have hroomV : batch.Values.items.length < batch.Values.cap := by omega
      rw [hstep]
      simp only [Batch.Size, Slice.len, Slice.append_items, List.length_append,
        List.length_singleton, Slice.append_cap _ _ _ hroomI, Slice.append_cap _ _ _ hroomV]
      refine ⟨by omega, by omega, h3, h4, h5⟩
  | reset capacity batch _ ih =>
    obtain ⟨_, _, h3, h4, h5⟩ := ih
    refine ⟨rfl, ?_, h3, h4, h5⟩
    simp only [Batch.Reset, Batch.Size, Slice.len, Slice.truncate, List.length_nil]
    have hb := batch.Indices.bound
    omega

/-- C27. A batch made by `NewBatch` with a capacity that is not negative or by a successful
`NewBatchFrom`, and changed by `Append` and `Reset` alone, has as many indices as values and
a size that is at most its capacity, and its capacity is the one fixed at its construction;
`NewBatch` does make a batch for every such capacity. The reserved storage of both slices
stays that capacity as well, so `Append` never allocates. -/
theorem made_batch_keeps_shape_and_capacity {V : Type} (capacity : Int) (batch : Batch V)
    (hmade : Made capacity batch) :
    batch.Indices.len = batch.Values.len ∧ (batch.Size : Int) ≤ batch.Capacity ∧
    batch.Capacity = capacity ∧
    (batch.Indices.cap : Int) = capacity ∧ (batch.Values.cap : Int) = capacity ∧
    (∀ c : Int, 0 ≤ c → ∃ made : Batch V, NewBatch c = some made ∧ Made c made) := by
  obtain ⟨h1, h2, h3, h4, h5⟩ := made_invariant hmade
  refine ⟨h1, h2, h3, h4, h5, ?_⟩
  intro c hc
  have hnew : ∃ made : Batch V, NewBatch c = some made := by
    simp [NewBatch, hc]
  obtain ⟨made, hmk⟩ := hnew
  exact ⟨made, hmk, Made.new c made hmk⟩

theorem sampleBatch_made :
    NewBatchFrom (Slice.ofList [0, 1]) (Slice.ofList [(2 : Int), 4]) = .ok sampleBatch :=
  rfl

theorem append_full_or_adds_pair_witness :
    (roomyBatch.Append id 2 6).1 = none ∧
    (roomyBatch.Append id 2 6).2.Indices.items = [0, 1, 2] ∧
    (roomyBatch.Append id 2 6).2.Values.items = [2, 4, 6] ∧
    (roomyBatch.Append id 2 6).2.Capacity = 3 ∧
    (roomyBatch.Append id 2 6).2.Size = 3 ∧
    (sampleBatch.Append id 2 6).1 = some "the batch is full" :=
  have h := (append_full_or_adds_pair id roomyBatch 2 6).2.2 (by decide)
  ⟨h.1, h.2.1, h.2.2.1, h.2.2.2.1, h.2.2.2.2,
    (append_full_or_adds_pair id sampleBatch 2 6).1.mpr (by decide)⟩

theorem newBatchFrom_checks_lengths_then_capacities_witness :
    NewBatchFrom (Slice.ofList [0, 1]) (Slice.ofList [(2 : Int)]) =
      .error "the number of indices and values must be the same: 2 != 1" ∧
    NewBatchFrom sampleIndices sampleValues =
      .error "the capacities of the indices and values must be the same: 3 != 4" :=
  ⟨(newBatchFrom_checks_lengths_then_capacities (Slice.ofList [0, 1])
      (Slice.ofList [(2 : Int)])).1 (by decide),
    (newBatchFrom_checks_lengths_then_capacities sampleIndices sampleValues).2.1 rfl
      (by decide)⟩

theorem made_batch_keeps_shape_and_capacity_witness :
    Made 2 (sampleBatch.Reset.Append id 2 6).2 ∧
    (sampleBatch.Reset.Append id 2 6).2.Size = 1 ∧
    (sampleBatch.Reset.Append id 2 6).2.Capacity = 2 :=
  have hmade : Made 2 (sampleBatch.Reset.Append id 2 6).2 :=
    Made.append _ _ id 2 6
      (Made.reset _ _ (Made.ofSlices (Slice.ofList [0, 1]) _ _ sampleBatch_made))
  ⟨hmade, rfl, (made_batch_keeps_shape_and_capacity _ _ hmade).2.2.1⟩

end Batching.Sliced

namespace Messaging

/-- What one run of the retry loop adds to the `Send` results: at most as many as the tries,
every one but the last without an error; the last one has an error exactly when the loop ends
with it as a permanent error. -/
theorem retry_sends {σ : Type} (flow : RequestFlow σ) :
    ∀ (tries : Nat) (tried : Tried σ),
      ∃ added, (Retry (SendRequest.operation flow) tries tried).2.sends = tried.sends ++ added ∧
        added.length ≤ tries ∧ (∀ x ∈ added.dropLast, x = none) ∧
        (∀ err, (Retry (SendRequest.operation flow) tries tried).1 = some (.permanent err) →
          added.getLast? = some (some err)) ∧
        ((∀ err, (Retry (SendRequest.operation flow) tries tried).1 ≠ some (.permanent err)) →
          ∀ x ∈ added, x = none) := by
  intro tries
  induction tries with
  | zero =>
    intro tried
    exact ⟨[], by simp [Retry], by simp, by simp, by simp [Retry], by simp⟩
  | succ n ih =>
    intro tried
    cases hs : flow.Send tried.state with
    | mk sendErr state =>
      cases sendErr with
      | some err =>
        have hop : SendRequest.operation flow tried = (some (.permanent err),
            { state := state, sends := tried.sends ++ [some err] }) := by
          simp [SendRequest.operation, hs]
        refine ⟨[some err], by simp [Retry, hop], by simp, by simp, ?_, ?_⟩
        · intro e he
          simp only [Retry, hop, Option.some.injEq, OperationError.permanent.injEq] at he
          simp [he]
        · intro hne
          exact absurd (by simp [Retry, hop]) (hne err)
      | none =>
        by_cases hdone : flow.IsDone state = true
        · have hop : SendRequest.operation flow tried =
              (none, { state := state, sends := tried.sends ++ [none] }) := by
            simp [SendRequest.operation, hs, hdone]
          refine ⟨[none], by simp [Retry, hop], by simp, by simp, ?_, by simp⟩
          intro e he
          simp [Retry, hop] at he
        · have hop : SendRequest.operation flow tried =
              (some (.again ""), { state := state, sends := tried.sends ++ [none] }) := by
            simp [SendRequest.operation, hs, hdone]
          by_cases hn : n = 0
          · subst hn
            refine ⟨[none], by simp [Retry, hop], by simp, by simp, ?_, by simp⟩
            intro e he
            simp [Retry, hop] at he
          · obtain ⟨added, h1, h2, h3, h4, h5⟩ :=
              ih { state := state, sends := tried.sends ++ [none] }
            have hretry : Retry (SendRequest.operation flow) (n + 1) tried =
                Retry (SendRequest.operation flow) n
                  { state := state, sends := tried.sends ++ [none] } := by
              simp [Retry, hop, hn]
            rw [hretry]
            refine ⟨none :: added, by simp [h1], by simp; omega, ?_, ?_, ?_⟩
            · intro x hx
              cases added with
              | nil => simp at hx
              | cons a rest =>
                simp only [List.dropLast_cons₂, List.mem_cons] at hx
                rcases hx with hx | hx
                · exact hx
                · exact h3 x hx
            · intro e he
              have hlast := h4 e he
              cases added with
              | nil => simp at hlast
              | cons a rest => simpa [List.getLast?_cons_cons] using hlast
            · intro hne x hx
              simp only [List.mem_cons] at hx
              rcases hx with hx | hx
              · exact hx
              · exact h5 hne x hx

/-- An element of a list is in its front part or is its last element. -/
theorem mem_dropLast_or_last {α : Type} (l : List α) (x : α) (hx : x ∈ l) :
    x ∈ l.dropLast ∨ l.getLast? = some x := by
  induction l with
  | nil => simp at hx
  | cons a rest ih =>
    cases rest with
    | nil =>
      simp only [List.mem_singleton] at hx
      subst hx
      exact Or.inr rfl
    | cons b more =>
      simp only [List.mem_cons] at hx
      rcases hx with hx | hx
      · subst hx
        exact Or.inl (by simp)
      · rcases ih (by simpa using hx) with h | h
        · exact Or.inl (by simp [h])
        · exact Or.inr (by simpa [List.getLast?_cons_cons] using h)

/-- The retry loop on a flow whose `Send` never fails and that is never done uses every try
and ends with the dummy error. -/
theorem retry_never_done {σ : Type} (flow : RequestFlow σ)
    (hsend : ∀ state, (flow.Send state).1 = none) (hdone : ∀ state, flow.IsDone state = false) :
    ∀ (tries : Nat) (tried : Tried σ), 1 ≤ tries →
      (Retry (SendRequest.operation flow) tries tried).1 = some (.again "") ∧
      (Retry (SendRequest.operation flow) tries tried).2.sends =
        tried.sends ++ List.replicate tries none := by
  intro tries
  induction tries with
  | zero =>
    intro tried h
    omega
  | succ n ih =>
    intro tried _
    have hop : SendRequest.operation flow tried =
        (some (.again ""), { state := (flow.Send tried.state).2,
                             sends := tried.sends ++ [none] }) := by
      have h1 := hsend tried.state
      cases hs : flow.Send tried.state with
      | mk sendErr state =>
        rw [hs] at h1
        simp only at h1
        subst h1
        simp [SendRequest.operation, hs, hdone]
    by_cases hn : n = 0
    · subst hn
      simp [Retry, hop]
    · obtain ⟨h1, h2⟩ := ih { state := (flow.Send tried.state).2,
                               sends := tried.sends ++ [none] } (by omega)
      have hretry : Retry (SendRequest.operation flow) (n + 1) tried =
          Retry (SendRequest.operation flow) n
            { state := (flow.Send tried.state).2, sends := tried.sends ++ [none] } := by
        simp [Retry, hop, hn]
      rw [hretry]
      refine ⟨h1, ?_⟩
      rw [h2, List.replicate_succ]
      simp

/-- The `Send` results `SendRequest` reports are those of its retry loop. -/
theorem sendRequest_sends {σ : Type} (flow : RequestFlow σ)
    (exponentialBackoff : ExponentialBackoff) (state : σ) :
    (SendRequest flow exponentialBackoff state).sends =
      (Retry (SendRequest.operation flow) exponentialBackoff.MaxTries
        { state := state, sends := [] }).2.sends := by
  unfold SendRequest
  split <;> rename_i heq <;> rw [heq]

/-- A permanent error of the retry loop is what `SendRequest` returns. -/
theorem sendRequest_err_permanent {σ : Type} (flow : RequestFlow σ)
    (exponentialBackoff : ExponentialBackoff) (state : σ) (err : String)
    (h : (Retry (SendRequest.operation flow) exponentialBackoff.MaxTries
      { state := state, sends := [] }).1 = some (.permanent err)) :
    (SendRequest flow exponentialBackoff state).err = some err := by
  unfold SendRequest
  split
  · rename_i heq
    rw [heq] at h
    simp only [Option.some.injEq, OperationError.permanent.injEq] at h
    rw [h]
  · rename_i hne heq
    rw [heq] at h
    exact absurd h (hne err)

/-- Without a permanent error of the retry loop `SendRequest` returns `nil`. -/
theorem sendRequest_err_none {σ : Type} (flow : RequestFlow σ)
    (exponentialBackoff : ExponentialBackoff) (state : σ)
    (h : ∀ err, (Retry (SendRequest.operation flow) exponentialBackoff.MaxTries
      { state := state, sends := [] }).1 ≠ some (.permanent err)) :
    (SendRequest flow exponentialBackoff state).err = none := by
  unfold SendRequest
  split
  · rename_i err tried heq
    rw [heq] at h
    exact absurd rfl (h err)
  · rfl

/-- C19. For every `MaxTries` of at least one and every flow whose `Send` always returns
`nil` and whose `IsDone` is always false, `SendRequest` calls `Send` exactly `MaxTries` times,
each call returning `nil`, and returns `nil`. -/
theorem sendRequest_uses_every_try {σ : Type} (flow : RequestFlow σ)
    (exponentialBackoff : ExponentialBackoff) (state : σ)
    (htries : 1 ≤ exponentialBackoff.MaxTries)
    (hsend : ∀ s, (flow.Send s).1 = none) (hdone : ∀ s, flow.IsDone s = false) :
    (SendRequest flow exponentialBackoff state).sends.length = exponentialBackoff.MaxTries ∧
    (SendRequest flow exponentialBackoff state).sends =
      List.replicate exponentialBackoff.MaxTries none ∧
    (SendRequest flow exponentialBackoff state).err = none := by
  obtain ⟨h1, h2⟩ := retry_never_done flow hsend hdone exponentialBackoff.MaxTries
    { state := state, sends := [] } htries
  have hsends : (SendRequest flow exponentialBackoff state).sends =
      List.replicate exponentialBackoff.MaxTries none := by
    rw [sendRequest_sends, h2]
    rfl
  refine ⟨by rw [hsends, List.length_replicate], hsends, ?_⟩
  apply sendRequest_err_none
  intro err herr
  rw [h1] at herr
  simp at herr

/-- C20. `SendRequest` returns an error if and only if one of the `Send` calls it makes
returns an error; such a call is the last one, every call before it having returned `nil`,
and the error `SendRequest` returns is the error of that call. -/
theorem sendRequest_error_iff_send_fails {σ : Type} (flow : RequestFlow σ)
    (exponentialBackoff : ExponentialBackoff) (state : σ) :
    ((∃ err, (SendRequest flow exponentialBackoff state).err = some err) ↔
      ∃ err, some err ∈ (SendRequest flow exponentialBackoff state).sends) ∧
    (∀ err, some err ∈ (SendRequest flow exponentialBackoff state).sends →
      (SendRequest flow exponentialBackoff state).sends.getLast? = some (some err) ∧
      (∀ x ∈ (SendRequest flow exponentialBackoff state).sends.dropLast, x = none) ∧
      (SendRequest flow exponentialBackoff state).err = some err) := by
  obtain ⟨added, h1, _, h3, h4, h5⟩ := retry_sends flow exponentialBackoff.MaxTries
    { state := state, sends := [] }
  simp only [List.nil_append] at h1
  rw [sendRequest_sends, h1]
  by_cases hperm : ∃ e, (Retry (SendRequest.operation flow) exponentialBackoff.MaxTries
      { state := state, sends := [] }).1 = some (.permanent e)
  · obtain ⟨e, he⟩ := hperm
    have herr := sendRequest_err_permanent flow exponentialBackoff state e he
    have hlast := h4 e he
    have hmem : some e ∈ added := List.mem_of_mem_getLast? hlast
    refine ⟨⟨fun _ => ⟨e, hmem⟩, fun _ => ⟨e, herr⟩⟩, ?_⟩
    intro err hin
    rcases mem_dropLast_or_last added (some err) hin with h | h
    · have := h3 _ h
      simp at this
    · rw [hlast] at h
      simp only [Option.some.injEq] at h
      subst h
      exact ⟨hlast, h3, herr⟩
  · have hne : ∀ e, (Retry (SendRequest.operation flow) exponentialBackoff.MaxTries
        { state := state, sends := [] }).1 ≠ some (.permanent e) :=
      fun e he => hperm ⟨e, he⟩
    have hnone := h5 hne
    have herr := sendRequest_err_none flow exponentialBackoff state hne
    refine ⟨⟨fun ⟨e, he⟩ => by rw [herr] at he; simp at he,
      fun ⟨e, he⟩ => by have := hnone _ he; simp at this⟩, ?_⟩
    intro err hin
    have := hnone _ hin
    simp at this

theorem sendRequest_uses_every_try_witness :
    1 ≤ DefaultExponentialBackoff.MaxTries ∧
    (SendRequest (failingFlow 0) DefaultExponentialBackoff 0).sends.length = 3 ∧
    (SendRequest (failingFlow 0) DefaultExponentialBackoff 0).err = none :=
  have h := sendRequest_uses_every_try (failingFlow 0) DefaultExponentialBackoff 0 (by decide)
    (fun s => by simp [failingFlow]) (fun _ => rfl)
  ⟨by decide, h.1, h.2.2⟩

theorem sendRequest_error_iff_send_fails_witness :
    (SendRequest (failingFlow 2) DefaultExponentialBackoff 0).sends =
      [none, some "test error"] ∧
    (SendRequest (failingFlow 2) DefaultExponentialBackoff 0).err = some "test error" :=
  ⟨rfl, ((sendRequest_error_iff_send_fails (failingFlow 2) DefaultExponentialBackoff 0).2
    "test error" (by decide)).2.2⟩

/-- The retry loop on a flow whose first `k` `Send`s return no error and that is done after
the `k`-th and not before: with `k` tries or more it makes `k` `Send`s and ends without an
error. -/
theorem retry_until_done {σ : Type} (flow : RequestFlow σ) :
    ∀ (k tries : Nat) (tried : Tried σ), 1 ≤ k → k ≤ tries →
      (∀ i, i < k → (flow.Send (flow.after i tried.state)).1 = none) →
      (∀ i, 1 ≤ i → i < k → flow.IsDone (flow.after i tried.state) = false) →
      flow.IsDone (flow.after k tried.state) = true →
      Retry (SendRequest.operation flow) tries tried =
        (none, { state := flow.after k tried.state,
                 sends := tried.sends ++ List.replicate k none }) := by
  intro k
  induction k with
  | zero => intro tries tried hk; omega
  | succ j ih =>
    intro tries tried _ hle hsend hnot hdone
    obtain ⟨t, rfl⟩ : ∃ t, tries = t + 1 := ⟨tries - 1, by omega⟩
    have h0 := hsend 0 (by omega)
    cases hs : flow.Send tried.state with
    | mk sendErr state1 =>
      simp only [RequestFlow.after, hs] at h0
      subst h0
      by_cases hj : j = 0
      · subst hj
        have hd : flow.IsDone state1 = true := by
          simpa [RequestFlow.after, hs] using hdone
        simp [Retry, SendRequest.operation, hs, hd, RequestFlow.after]
      · have hd : flow.IsDone state1 = false := by
          simpa [RequestFlow.after, hs] using hnot 1 (by omega) (by omega)
        have ht : t ≠ 0 := by omega
        have hstep : Retry (SendRequest.operation flow) (t + 1) tried =
            Retry (SendRequest.operation flow) t
              { state := state1, sends := tried.sends ++ [none] } := by
          simp [Retry, SendRequest.operation, hs, hd, ht]
        have hrest := ih t { state := state1, sends := tried.sends ++ [none] } (by omega)
          (by omega)
          (fun i hi => by simpa [RequestFlow.after, hs] using hsend (i + 1) (by omega))
          (fun i h1 hi => by
            simpa [RequestFlow.after, hs] using hnot (i + 1) (by omega) (by omega))
          (by simpa [RequestFlow.after, hs] using hdone)
        rw [hstep, hrest]
        simp [RequestFlow.after, hs, List.replicate_succ]

/-- C21. When the first `k` `Send`s return no error and `IsDone`, which `SendRequest` asks
after each `Send`, reports true for the first time after the `k`-th, with `k` between one and
`MaxTries`, then `SendRequest` makes exactly `k` `Send`s, leaves the flow in the state after
the `k`-th, and returns `nil`. -/
theorem sendRequest_stops_when_done {σ : Type} (flow : RequestFlow σ)
    (exponentialBackoff : ExponentialBackoff) (state : σ) (k : Nat)
    (hk : 1 ≤ k) (hle : k ≤ exponentialBackoff.MaxTries)
    (hsend : ∀ i, i < k → (flow.Send (flow.after i state)).1 = none)
    (hnot : ∀ i, 1 ≤ i → i < k → flow.IsDone (flow.after i state) = false)
    (hdone : flow.IsDone (flow.after k state) = true) :
    (SendRequest flow exponentialBackoff state).sends = List.replicate k none ∧
    (SendRequest flow exponentialBackoff state).sends.length = k ∧
    (SendRequest flow exponentialBackoff state).state = flow.after k state ∧
    (SendRequest flow exponentialBackoff state).err = none := by
  have hretry := retry_until_done flow k exponentialBackoff.MaxTries
    { state := state, sends := [] } hk hle hsend hnot hdone
  have hall : SendRequest flow exponentialBackoff state =
      { err := none, state := flow.after k state, sends := List.replicate k none } := by
    simp [SendRequest, hretry]
  rw [hall]
  exact ⟨rfl, by simp, rfl, rfl⟩

/-- C23. The five status-code families are the hundreds from 100 to 599, lower bound
included and upper bound excluded; so no code is in two families, a code is in one exactly
when it lies from 100 to 599, 429 is a client error and not a server error, and the code 599
of `StatusInternalServerErrorPermanent` is a server error. -/
theorem status_families_partition (c : Int) :
    (IsInformationalStatusCode c = true ↔ 100 ≤ c ∧ c < 200) ∧
    (IsSuccessfulStatusCode c = true ↔ 200 ≤ c ∧ c < 300) ∧
    (IsRedirectionStatusCode c = true ↔ 300 ≤ c ∧ c < 400) ∧
    (IsClientErrorStatusCode c = true ↔ 400 ≤ c ∧ c < 500) ∧
    (IsServerErrorStatusCode c = true ↔ 500 ≤ c ∧ c < 600) ∧
    ([IsInformationalStatusCode c, IsSuccessfulStatusCode c, IsRedirectionStatusCode c,
      IsClientErrorStatusCode c, IsServerErrorStatusCode c].count true ≤ 1) ∧
    ([IsInformationalStatusCode c, IsSuccessfulStatusCode c, IsRedirectionStatusCode c,
      IsClientErrorStatusCode c, IsServerErrorStatusCode c].count true = 1 ↔
      100 ≤ c ∧ c ≤ 599) ∧
    IsClientErrorStatusCode StatusTooManyRequests = true ∧
    IsServerErrorStatusCode StatusTooManyRequests = false ∧
    IsServerErrorStatusCode StatusInternalServerErrorPermanent = true := by
  have h1 : IsInformationalStatusCode c = true ↔ 100 ≤ c ∧ c < 200 := by
    simp [IsInformationalStatusCode, StatusContinue, StatusOK]
  have h2 : IsSuccessfulStatusCode c = true ↔ 200 ≤ c ∧ c < 300 := by
    simp [IsSuccessfulStatusCode, StatusOK, StatusMultipleChoices]
  have h3 : IsRedirectionStatusCode c = true ↔ 300 ≤ c ∧ c < 400 := by
    simp [IsRedirectionStatusCode, StatusMultipleChoices, StatusBadRequest]
  have h4 : IsClientErrorStatusCode c = true ↔ 400 ≤ c ∧ c < 500 := by
    simp [IsClientErrorStatusCode, StatusBadRequest, StatusInternalServerError]
  have h5 : IsServerErrorStatusCode c = true ↔ 500 ≤ c ∧ c < 600 := by
    simp [IsServerErrorStatusCode, StatusInternalServerError]
  refine ⟨h1, h2, h3, h4, h5, ?_, ?_, by decide, by decide, by decide⟩
  · cases a1 : IsInformationalStatusCode c <;> cases a2 : IsSuccessfulStatusCode c <;>
      cases a3 : IsRedirectionStatusCode c <;> cases a4 : IsClientErrorStatusCode c <;>
      cases a5 : IsServerErrorStatusCode c <;>
      simp only [a1, a2, a3, a4, a5, Bool.false_eq_true, false_iff, true_iff] at h1 h2 h3 h4 h5 <;>
      first | decide | omega
  · cases a1 : IsInformationalStatusCode c <;> cases a2 : IsSuccessfulStatusCode c <;>
      cases a3 : IsRedirectionStatusCode c <;> cases a4 : IsClientErrorStatusCode c <;>
      cases a5 : IsServerErrorStatusCode c <;>
      simp only [a1, a2, a3, a4, a5, Bool.false_eq_true, false_iff, true_iff] at h1 h2 h3 h4 h5 <;>
      first
      | omega
      | (constructor
         · intro _; omega
         · intro _; decide)
      | (constructor
         · intro h; exact absurd h (by decide)
         · intro _; omega)

theorem sendRequest_stops_when_done_witness :
    (3 : Nat) ≤ ({ DefaultExponentialBackoff with MaxTries := 10 } : ExponentialBackoff).MaxTries ∧
    (SendRequest (doneAfter 3) { DefaultExponentialBackoff with MaxTries := 10 } 0).sends.length
      = 3 ∧
    (SendRequest (doneAfter 3) { DefaultExponentialBackoff with MaxTries := 10 } 0).err = none :=
  have h := sendRequest_stops_when_done (doneAfter 3)
    { DefaultExponentialBackoff with MaxTries := 10 } 0 3 (by decide) (by decide)
    (fun _ _ => rfl)
    (fun i h1 h3 => by
      have hi : i = 1 ∨ i = 2 := by omega
      rcases hi with hi | hi <;> subst hi <;> decide)
    (by decide)
  ⟨by decide, h.2.1, h.2.2.2⟩

/-- With the loop of the spec, `SendRequest.through` is `SendRequest`. -/
theorem sendRequest_through_retry {σ : Type} (flow : RequestFlow σ)
    (exponentialBackoff : ExponentialBackoff) (state : σ) :
    SendRequest.through Retry flow exponentialBackoff state =
      SendRequest flow exponentialBackoff state :=
  rfl

/-- C22, amended. With a budget of at least one try, for which the retry loop is the loop of
the spec, `SendRequest` makes at most `MaxTries` `Send`s, whatever the rest of the
configuration and the flow. -/
theorem sendRequest_tries_bounded {σ : Type}
    (retry : (Tried σ → Option OperationError × Tried σ) → Nat → Tried σ →
      Option OperationError × Tried σ)
    (hretry : ∀ operation maxTries tried, 1 ≤ maxTries →
      retry operation maxTries tried = Retry operation maxTries tried)
    (flow : RequestFlow σ) (exponentialBackoff : ExponentialBackoff) (state : σ)
    (hTries : 1 ≤ exponentialBackoff.MaxTries) :
    (SendRequest.through retry flow exponentialBackoff state).sends.length ≤
      exponentialBackoff.MaxTries := by
  have hsame : SendRequest.through retry flow exponentialBackoff state =
      SendRequest flow exponentialBackoff state := by
    rw [← sendRequest_through_retry]
    unfold SendRequest.through
    rw [hretry _ _ _ hTries]
  obtain ⟨added, h1, h2, _⟩ := retry_sends flow exponentialBackoff.MaxTries
    { state := state, sends := [] }
  rw [hsame, sendRequest_sends, h1]
  simpa using h2

/-- C22, as it is stated, fails for a budget of zero tries, which `SendRequest` hands to the
library as it is and which sets no limit there: on a flow that is done after its third
`Send`, `SendRequest` makes three `Send`s, which is more than `MaxTries`. -/
theorem sendRequest_zero_budget_not_bounded :
    ({ DefaultExponentialBackoff with MaxTries := 0 } : ExponentialBackoff).MaxTries = 0 ∧
    (SendRequest.through (backoffRetry 5) (doneAfter 3)
      { DefaultExponentialBackoff with MaxTries := 0 } 0).sends = [none, none, none] ∧
    ¬ (SendRequest.through (backoffRetry 5) (doneAfter 3)
      { DefaultExponentialBackoff with MaxTries := 0 } 0).sends.length ≤
        ({ DefaultExponentialBackoff with MaxTries := 0 } : ExponentialBackoff).MaxTries := by
  have hsends : (SendRequest.through (backoffRetry 5) (doneAfter 3)
      { DefaultExponentialBackoff with MaxTries := 0 } 0).sends = [none, none, none] := rfl
  refine ⟨rfl, hsends, ?_⟩
  rw [hsends]
  decide

theorem sendRequest_tries_bounded_witness :
    (SendRequest.through (backoffRetry 5) (failingFlow 0) DefaultExponentialBackoff 0).sends.length
      ≤ DefaultExponentialBackoff.MaxTries :=
  sendRequest_tries_bounded (backoffRetry 5)
    (fun operation maxTries tried h => by
      have hne : maxTries ≠ 0 := by omega
      simp [backoffRetry, hne])
    (failingFlow 0) DefaultExponentialBackoff 0 (by decide)

end Messaging

namespace Skyflow

variable {I O P : Type}

/-- The error loop on indices inside the output: it does not panic, keeps the length, leaves
other positions alone, and applies `SetError` once at each index when they are distinct. -/
theorem setErrors_spec (SetError : O → Option String → Int → O) (error : String)
    (statusCode : Int) (indices : List Nat) :
    ∀ (out : List O), (∀ index ∈ indices, index < out.length) →
      ∃ out1, setErrors SetError error statusCode indices out = some out1 ∧
        out1.length = out.length ∧
        (∀ i, i ∉ indices → out1[i]? = out[i]?) ∧
        (indices.Nodup → ∀ index ∈ indices,
          out1[index]? = (out[index]?).map (fun o => SetError o (some error) statusCode)) := by
  induction indices with
  | nil =>
    intro out _
    exact ⟨out, rfl, rfl, fun _ _ => rfl, fun _ index h => by simp at h⟩
  | cons a rest ih =>
    intro out hb
    have ha : a < out.length := hb a (List.mem_cons_self _ _)
    have hget : out[a]? = some out[a] := List.getElem?_eq_getElem ha
    obtain ⟨out1, h1, h2, h3, h4⟩ := ih (out.set a (SetError out[a] (some error) statusCode))
      (fun index hmem => by
        rw [List.length_set]
        exact hb index (List.mem_cons_of_mem _ hmem))
    refine ⟨out1, ?_, ?_, ?_, ?_⟩
    · simp only [setErrors, hget]
      exact h1
    · rw [h2, List.length_set]
    · intro i hi
      simp only [List.mem_cons, not_or] at hi
      rw [h3 i hi.2, List.getElem?_set_ne (fun h => hi.1 h.symm)]
    · intro hnodup index hmem
      simp only [List.nodup_cons] at hnodup
      rcases List.mem_cons.mp hmem with h | h
      · subst h
        rw [h3 index hnodup.1, List.getElem?_set_self ha, hget]
        rfl
      · have hne : a ≠ index := fun hEq => hnodup.1 (hEq ▸ h)
        rw [h4 hnodup.2 index h, List.getElem?_set_ne hne]

/-- Whenever the unpack loop ends without a panic, the output keeps its length and the new
indices are the old accumulator followed by a sublist of the indices handed in. -/
theorem unpackLoop_shape (ShouldRetry : Option O → Bool) (decoded : List (Option O)) :
    ∀ (remaining : List Nat) (out : List O) (acc : List Nat) (out1 : List O) (acc1 : List Nat),
      unpackLoop ShouldRetry decoded remaining out acc = some (out1, acc1) →
      out1.length = out.length ∧ ∃ kept, acc1 = acc ++ kept ∧ kept.Sublist remaining := by
  induction decoded with
  | nil =>
    intro remaining out acc out1 acc1 h
    simp only [unpackLoop, Option.some.injEq, Prod.mk.injEq] at h
    obtain ⟨h1, h2⟩ := h
    subst h1; subst h2
    exact ⟨rfl, [], by simp, List.nil_sublist _⟩
  | cons d rest ih =>
    intro remaining out acc out1 acc1 h
    cases remaining with
    | nil => simp [unpackLoop] at h
    | cons index more =>
      cases d with
      | none => simp [unpackLoop] at h
      | some o =>
        simp only [unpackLoop] at h
        by_cases hlt : index < out.length
        · simp only [hlt, if_true] at h
          obtain ⟨h1, kept, h2, h3⟩ := ih more _ _ out1 acc1 h
          rw [List.length_set] at h1
          refine ⟨h1, ?_⟩
          by_cases hr : ShouldRetry (some o) = true
          · simp only [hr, if_true] at h2
            exact ⟨index :: kept, by simp [h2], List.Sublist.cons₂ _ h3⟩
          · simp only [hr, Bool.false_eq_true, if_false] at h2
            exact ⟨kept, h2, List.Sublist.cons _ h3⟩
        · simp [hlt] at h

/-- The unpack loop on as many non-nil items as indices handed in, the indices being distinct
positions of the output: it does not panic, writes each item at its index, leaves the other
positions alone, and appends the indices of the items to retry. -/
theorem unpackLoop_spec (ShouldRetry : Option O → Bool) (items : List O) :
    ∀ (remaining : List Nat) (out : List O) (acc : List Nat),
      items.length = remaining.length → (∀ index ∈ remaining, index < out.length) →
      remaining.Nodup →
      ∃ out1, unpackLoop ShouldRetry (items.map some) remaining out acc =
          some (out1, acc ++ retried ShouldRetry remaining items) ∧
        out1.length = out.length ∧
        (∀ i, i ∉ remaining → out1[i]? = out[i]?) ∧
        (∀ p ∈ remaining.zip items, out1[p.1]? = some p.2) := by
  induction items with
  | nil =>
    intro remaining out acc _ _ _
    exact ⟨out, by simp [unpackLoop, retried], rfl, fun _ _ => rfl, by simp⟩
  | cons o rest ih =>
    intro remaining out acc hlen hb hnodup
    cases remaining with
    | nil => simp at hlen
    | cons index more =>
      simp only [List.length_cons, Nat.add_right_cancel_iff] at hlen
      have hidx : index < out.length := hb index (List.mem_cons_self _ _)
      simp only [List.nodup_cons] at hnodup
      obtain ⟨out1, h1, h2, h3, h4⟩ := ih more (out.set index o)
        (if ShouldRetry (some o) then acc ++ [index] else acc) hlen
        (fun j hj => by
          rw [List.length_set]
          exact hb j (List.mem_cons_of_mem _ hj))
        hnodup.2
      refine ⟨out1, ?_, ?_, ?_, ?_⟩
      · simp only [List.map_cons, unpackLoop, hidx, if_true, h1]
        by_cases hr : ShouldRetry (some o) = true
        · simp [retried, hr]
        · simp [retried, hr]
      · rw [h2, List.length_set]
      · intro i hi
        simp only [List.mem_cons, not_or] at hi
        rw [h3 i hi.2, List.getElem?_set_ne (fun h => hi.1 h.symm)]
      · intro p hp
        simp only [List.zip_cons_cons, List.mem_cons] at hp
        rcases hp with hp | hp
        · subst hp
          rw [h3 index hnodup.1, List.getElem?_set_self hidx]
        · exact h4 p hp

theorem Narrowed.refl (flow : BatchFlow I O P) : Narrowed flow flow :=
  ⟨rfl, rfl, rfl, rfl, rfl, rfl, rfl, List.Sublist.refl _⟩

theorem Narrowed.trans {a b c : BatchFlow I O P} (h1 : Narrowed a b) (h2 : Narrowed b c) :
    Narrowed a c :=
  ⟨h2.method.trans h1.method, h2.vaultURL.trans h1.vaultURL, h2.route.trans h1.route,
    h2.bearer.trans h1.bearer, h2.handler.trans h1.handler, h2.input.trans h1.input,
    h2.size.trans h1.size, h2.fewer.trans h1.fewer⟩

theorem Narrowed.valid {flow flow1 : BatchFlow I O P} (h : Narrowed flow flow1)
    (hv : flow.Valid) : flow1.Valid := by
  refine ⟨?_, ?_, ?_⟩
  · rw [h.size, h.input, hv.size]
  · intro index hmem
    rw [h.input]
    exact hv.bound index (h.fewer.subset hmem)
  · exact hv.increasing.sublist h.fewer

theorem setErrors_length (SetError : O → Option String → Int → O) (error : String)
    (statusCode : Int) (indices : List Nat) :
    ∀ (out out1 : List O), setErrors SetError error statusCode indices out = some out1 →
      out1.length = out.length := by
  induction indices with
  | nil =>
    intro out out1 h
    simp only [setErrors, Option.some.injEq] at h
    rw [h]
  | cons a rest ih =>
    intro out out1 h
    simp only [setErrors] at h
    cases hget : out[a]? with
    | none => simp [hget] at h
    | some o =>
      simp only [hget] at h
      rw [ih _ _ h, List.length_set]

theorem narrowed_setError {flow flow1 : BatchFlow I O P} {error : String} {statusCode : Int}
    (h : flow.setErrorOnRemainingIndices error statusCode = some flow1) :
    Narrowed flow flow1 ∧ flow1.indices = flow.indices := by
  simp only [BatchFlow.setErrorOnRemainingIndices] at h
  cases hs : setErrors flow.handler.SetError error statusCode flow.indices flow.out with
  | none => simp [hs] at h
  | some out1 =>
    simp only [hs, Option.some.injEq] at h
    subst h
    exact ⟨⟨rfl, rfl, rfl, rfl, rfl, rfl, setErrors_length _ _ _ _ _ _ hs, List.Sublist.refl _⟩,
      rfl⟩

theorem narrowed_clear (flow : BatchFlow I O P) : Narrowed flow flow.clearRemainingIndices :=
  ⟨rfl, rfl, rfl, rfl, rfl, rfl, rfl, List.nil_sublist _⟩

theorem narrowed_unpackBatch {flow flow1 : BatchFlow I O P} {decoded : List (Option O)}
    (h : flow.unpackBatch decoded = some flow1) : Narrowed flow flow1 := by
  simp only [BatchFlow.unpackBatch] at h
  cases hs : unpackLoop flow.handler.ShouldRetry decoded flow.indices flow.out [] with
  | none => simp [hs] at h
  | some res =>
    obtain ⟨out1, acc1⟩ := res
    simp only [hs, Option.some.injEq] at h
    subst h
    obtain ⟨h1, kept, h2, h3⟩ := unpackLoop_shape _ _ _ _ _ _ _ hs
    simp only [List.nil_append] at h2
    subst h2
    exact ⟨rfl, rfl, rfl, rfl, rfl, rfl, h1, h3⟩

theorem narrowed_map_setError {flow flow1 : BatchFlow I O P} {error : String}
    {statusCode : Int} {err : Option String}
    (h : (flow.setErrorOnRemainingIndices error statusCode).map (fun f => (f, (none : Option String)))
      = some (flow1, err)) : Narrowed flow flow1 := by
  cases hs : flow.setErrorOnRemainingIndices error statusCode with
  | none => simp [hs] at h
  | some f =>
    simp only [hs, Option.map_some', Option.some.injEq, Prod.mk.injEq] at h
    rw [← h.1]
    exact (narrowed_setError hs).1

theorem narrowed_unpackResponse {flow flow1 : BatchFlow I O P} {statusCode : Int}
    {body : Except String String} {err : Option String}
    (h : flow.unpackResponse statusCode body = some (flow1, err)) : Narrowed flow flow1 := by
  unfold BatchFlow.unpackResponse at h
  cases body with
  | error e =>
    simp only at h
    exact narrowed_map_setError h
  | ok text =>
    simp only at h
    split at h
    · cases hd : flow.decodeBatch text with
      | error e =>
        simp only [hd, Option.some.injEq, Prod.mk.injEq] at h
        rw [← h.1]
        exact Narrowed.refl flow
      | ok decoded =>
        simp only [hd] at h
        cases hu : flow.unpackBatch decoded with
        | none => simp [hu] at h
        | some f =>
          simp only [hu, Option.map_some', Option.some.injEq, Prod.mk.injEq] at h
          rw [← h.1]
          exact narrowed_unpackBatch hu
    · split at h
      · cases hd : flow.decodeBatch text with
        | error e =>
          simp only [hd] at h
          exact narrowed_map_setError h
        | ok decoded =>
          simp only [hd] at h
          cases hu : flow.unpackBatch decoded with
          | none => simp [hu] at h
          | some f =>
            simp only [hu, Option.map_some', Option.some.injEq, Prod.mk.injEq] at h
            rw [← h.1]
            exact narrowed_unpackBatch hu
      · split at h
        · exact narrowed_map_setError h
        · cases hs : flow.setErrorOnRemainingIndices (flow.decodeError text) statusCode with
          | none => simp [hs] at h
          | some f =>
            simp only [hs, Option.map_some', Option.some.injEq, Prod.mk.injEq] at h
            rw [← h.1]
            exact (narrowed_setError hs).1.trans (narrowed_clear f)

/-- A `Send` keeps configuration and input, keeps the length of the output, and never adds a
remaining index. -/
theorem narrowed_send {flow : BatchFlow I O P} {transport : Transport P} {result : Sent I O P}
    (h : flow.Send transport = some result) : Narrowed flow result.flow := by
  unfold BatchFlow.Send at h
  cases hb : flow.buildRequest transport with
  | none => simp [hb] at h
  | some built =>
    cases built with
    | error e =>
      simp only [hb] at h
      cases hs : flow.setErrorOnRemainingIndices e Messaging.StatusInternalServerError with
      | none => simp [hs] at h
      | some f =>
        simp only [hs, Option.map_some', Option.some.injEq] at h
        rw [← h]
        exact (narrowed_setError hs).1.trans (narrowed_clear f)
    | ok maybe =>
      cases maybe with
      | none =>
        simp only [hb, Option.some.injEq] at h
        rw [← h]
        exact Narrowed.refl flow
      | some req =>
        simp only [hb] at h
        cases hd : transport.Do req with
        | failure e timedOut =>
          simp only [hd] at h
          cases hs : flow.setErrorOnRemainingIndices e Messaging.StatusInternalServerError with
          | none => simp [hs] at h
          | some f =>
            simp only [hs, Option.map_some', Option.some.injEq] at h
            rw [← h]
            cases timedOut with
            | true => exact (narrowed_setError hs).1.trans (narrowed_clear f)
            | false => exact (narrowed_setError hs).1
        | response statusCode body =>
          simp only [hd] at h
          cases hu : flow.unpackResponse statusCode body with
          | none => simp [hu] at h
          | some res =>
            obtain ⟨flow1, err⟩ := res
            have hn := narrowed_unpackResponse hu
            cases err with
            | none =>
              simp only [hu, Option.some.injEq] at h
              rw [← h]
              exact hn
            | some e =>
              simp only [hu] at h
              cases hs : flow1.setErrorOnRemainingIndices e
                  Messaging.StatusInternalServerError with
              | none => simp [hs] at h
              | some f =>
                simp only [hs, Option.map_some', Option.some.injEq] at h
                rw [← h]
                exact hn.trans ((narrowed_setError hs).1.trans (narrowed_clear f))

theorem valid_of_new [Inhabited O] {lib : UrlLib} {method vaultURL route bearer : String}
    {handler : BatchFlowHandler I O P} {input : List I} {flow : BatchFlow I O P}
    (h : NewBatchFlow lib method vaultURL route bearer handler input = .ok flow) :
    flow.Valid := by
  unfold NewBatchFlow at h
  cases hp : lib.Parse vaultURL with
  | error e => simp [hp] at h
  | ok parsed =>
    simp only [hp] at h
    split at h
    · simp at h
    · split at h
      · simp at h
      · simp only [Except.ok.injEq] at h
        subst h
        refine ⟨by simp, ?_, ?_⟩
        · intro index hmem
          simpa using hmem
        · exact List.pairwise_lt_range _

/-- Every flow a program can hold satisfies the state invariant. -/
theorem reachable_valid [Inhabited O] {flow : BatchFlow I O P} (h : Reachable flow) :
    flow.Valid := by
  induction h with
  | made lib method vaultURL route bearer handler input flow hnew => exact valid_of_new hnew
  | sent flow transport result _ hsend ih => exact (narrowed_send hsend).valid ih

theorem valid_nodup {flow : BatchFlow I O P} (hv : flow.Valid) : flow.indices.Nodup :=
  hv.increasing.imp (fun h => Nat.ne_of_lt h)

theorem valid_inside {flow : BatchFlow I O P} (hv : flow.Valid) :
    ∀ index ∈ flow.indices, index < flow.out.length := by
  intro index hmem
  rw [hv.size]
  exact hv.bound index hmem

/-- Recording an error on a valid flow: no panic, the remaining indices stay, every remaining
position gets the error through `SetError`, and the other positions are left alone. -/
theorem setError_valid {flow : BatchFlow I O P} (hv : flow.Valid) (error : String)
    (statusCode : Int) :
    ∃ flow1, flow.setErrorOnRemainingIndices error statusCode = some flow1 ∧
      flow1.indices = flow.indices ∧ flow1.handler = flow.handler ∧
      (∀ index ∈ flow.indices, ∃ o, flow.out[index]? = some o ∧
        flow1.out[index]? = some (flow.handler.SetError o (some error) statusCode)) ∧
      (∀ i, i ∉ flow.indices → flow1.out[i]? = flow.out[i]?) := by
  obtain ⟨out1, h1, _, h3, h4⟩ := setErrors_spec flow.handler.SetError error statusCode
    flow.indices flow.out (valid_inside hv)
  refine ⟨{ flow with out := out1 }, by simp [BatchFlow.setErrorOnRemainingIndices, h1], rfl, rfl,
    ?_, h3⟩
  intro index hmem
  have hlt := valid_inside hv index hmem
  refine ⟨flow.out[index], List.getElem?_eq_getElem hlt, ?_⟩
  simp only
  rw [h4 (valid_nodup hv) index hmem, List.getElem?_eq_getElem hlt]
  rfl

theorem not_successful_of_server_error {statusCode : Int}
    (h : Messaging.IsServerErrorStatusCode statusCode = true) :
    Messaging.IsSuccessfulStatusCode statusCode = false := by
  simp only [Messaging.IsServerErrorStatusCode, Messaging.StatusInternalServerError,
    Bool.and_eq_true, decide_eq_true_eq] at h
  simp only [Messaging.IsSuccessfulStatusCode, Messaging.StatusOK,
    Messaging.StatusMultipleChoices, Bool.and_eq_false_iff, decide_eq_false_iff_not]
  omega

/-- A `Send` whose request was built and answered goes on with `unpackResponse`. -/
theorem send_of_response {flow : BatchFlow I O P} {transport : Transport P} {req : Request}
    {statusCode : Int} {body : Except String String}
    (hreq : flow.buildRequest transport = some (.ok (some req)))
    (hdo : transport.Do req = .response statusCode body) :
    flow.Send transport =
      match flow.unpackResponse statusCode body with
      | none => none
      | some (flow1, some err) =>
        (flow1.setErrorOnRemainingIndices err Messaging.StatusInternalServerError).map
          (fun flow2 =>
            { flow := flow2.clearRemainingIndices, err := some err, requests := [req] })
      | some (flow1, none) => some { flow := flow1, err := none, requests := [req] } := by
  cases hu : flow.unpackResponse statusCode body with
  | none => simp [BatchFlow.Send, hreq, hdo, hu]
  | some res =>
    obtain ⟨flow1, err⟩ := res
    cases err <;> simp [BatchFlow.Send, hreq, hdo, hu]

/-- What `unpackResponse` does with a decoded 2xx or 5xx response. -/
theorem unpackResponse_decoded {flow : BatchFlow I O P} {statusCode : Int} {body : String}
    {decoded : List (Option O)}
    (hstatus : Messaging.IsSuccessfulStatusCode statusCode = true ∨
      Messaging.IsServerErrorStatusCode statusCode = true)
    (hdecode : flow.decodeBatch body = .ok decoded) :
    flow.unpackResponse statusCode (.ok body) =
      (flow.unpackBatch decoded).map (fun flow1 => (flow1, none)) := by
  rcases hstatus with h | h
  · simp [BatchFlow.unpackResponse, h, hdecode]
  · simp [BatchFlow.unpackResponse, h, not_successful_of_server_error h, hdecode]

theorem decodeBatch_ok {flow : BatchFlow I O P} {body : String} {decoded : List (Option O)}
    (h : flow.handler.DecodeBatch flow.indices.length body = .ok decoded) :
    flow.decodeBatch body = .ok decoded := by
  simp [BatchFlow.decodeBatch, h]

theorem decodeBatch_error {flow : BatchFlow I O P} {body e : String}
    (h : flow.handler.DecodeBatch flow.indices.length body = .error e) :
    flow.decodeBatch body = .error (decodeFailure flow body e) := by
  simp only [BatchFlow.decodeBatch, h, decodeFailure]
  cases flow.handler.DecodeError body <;> rfl

/-- When `Send` receives a 2xx or 5xx response whose body decodes to a batch of exactly as
many items as remain, none of them nil, it returns `nil`, writes item `i` at the position
`remaining[i]` of the output, leaves the other positions as they were, and the new remaining
list is the positions whose items `ShouldRetry` accepts, in their original order. -/
theorem send_unpacks_decoded_batch [Inhabited O] (flow : BatchFlow I O P)
    (hreach : Reachable flow) (transport : Transport P) (req : Request) (statusCode : Int)
    (body : String) (items : List O)
    (hreq : flow.buildRequest transport = some (.ok (some req)))
    (hdo : transport.Do req = .response statusCode (.ok body))
    (hstatus : Messaging.IsSuccessfulStatusCode statusCode = true ∨
      Messaging.IsServerErrorStatusCode statusCode = true)
    (hdecode : flow.handler.DecodeBatch flow.indices.length body = .ok (items.map some))
    (hlen : items.length = flow.indices.length) :
    ∃ result, flow.Send transport = some result ∧ result.err = none ∧
      (∀ (i index : Nat) (item : O), flow.indices[i]? = some index → items[i]? = some item →
        result.flow.out[index]? = some item) ∧
      (∀ i, i ∉ flow.indices → result.flow.out[i]? = flow.out[i]?) ∧
      result.flow.indices = retried flow.handler.ShouldRetry flow.indices items := by
  have hv := reachable_valid hreach
  obtain ⟨out1, h1, _, h3, h4⟩ := unpackLoop_spec flow.handler.ShouldRetry items flow.indices
    flow.out [] hlen (valid_inside hv) (valid_nodup hv)
  have hunpack : flow.unpackBatch (items.map some) =
      some { flow with out := out1,
                       indices := retried flow.handler.ShouldRetry flow.indices items } := by
    simp [BatchFlow.unpackBatch, h1]
  refine ⟨{ flow := { flow with out := out1,
                                indices := retried flow.handler.ShouldRetry flow.indices items },
            err := none, requests := [req] }, ?_, rfl, ?_, h3, rfl⟩
  · rw [send_of_response hreq hdo, unpackResponse_decoded hstatus (decodeBatch_ok hdecode),
      hunpack]
    rfl
  · intro i index item hi hitem
    have hmem : (index, item) ∈ flow.indices.zip items := by
      rw [List.mem_iff_getElem?]
      exact ⟨i, List.getElem?_zip_eq_some.mpr ⟨hi, hitem⟩⟩
    exact h4 (index, item) hmem

/-- C8. When `Send` receives a 2xx response whose body the handler cannot decode into a
batch of the remaining size, it returns the decoding error, the flow is done afterwards, and
every position that was remaining has that error recorded through `SetError` with status
500; the other positions are as they were. -/
theorem send_fails_on_undecodable_success [Inhabited O] (flow : BatchFlow I O P)
    (hreach : Reachable flow) (transport : Transport P) (req : Request) (statusCode : Int)
    (body e : String)
    (hreq : flow.buildRequest transport = some (.ok (some req)))
    (hdo : transport.Do req = .response statusCode (.ok body))
    (hstatus : Messaging.IsSuccessfulStatusCode statusCode = true)
    (hdecode : flow.handler.DecodeBatch flow.indices.length body = .error e) :
    ∃ result, flow.Send transport = some result ∧
      result.err = some (decodeFailure flow body e) ∧
      result.flow.IsDone = true ∧
      (∀ index ∈ flow.indices, ∃ o, flow.out[index]? = some o ∧
        result.flow.out[index]? =
          some (flow.handler.SetError o (some (decodeFailure flow body e)) 500)) ∧
      (∀ i, i ∉ flow.indices → result.flow.out[i]? = flow.out[i]?) := by
  have hv := reachable_valid hreach
  obtain ⟨flow1, h1, _, _, h4, h5⟩ := setError_valid hv (decodeFailure flow body e)
    Messaging.StatusInternalServerError
  have hunpack : flow.unpackResponse statusCode (.ok body) =
      some (flow, some (decodeFailure flow body e)) := by
    simp [BatchFlow.unpackResponse, hstatus, decodeBatch_error hdecode]
  refine ⟨{ flow := flow1.clearRemainingIndices, err := some (decodeFailure flow body e),
            requests := [req] }, ?_, rfl, rfl, h4, h5⟩
  rw [send_of_response hreq hdo, hunpack]
  simp [h1]

/-- C9. When `Send` receives a 5xx response whose body the handler cannot decode into a
batch of the remaining size, it returns `nil`, the remaining indices are unchanged, and
every remaining position has the decoding error recorded through `SetError` with the status
code of the response; the other positions are as they were. -/
theorem send_retries_undecodable_server_error [Inhabited O] (flow : BatchFlow I O P)
    (hreach : Reachable flow) (transport : Transport P) (req : Request) (statusCode : Int)
    (body e : String)
    (hreq : flow.buildRequest transport = some (.ok (some req)))
    (hdo : transport.Do req = .response statusCode (.ok body))
    (hstatus : Messaging.IsServerErrorStatusCode statusCode = true)
    (hdecode : flow.handler.DecodeBatch flow.indices.length body = .error e) :
    ∃ result, flow.Send transport = some result ∧ result.err = none ∧
      result.flow.indices = flow.indices ∧ result.flow.IsDone = flow.IsDone ∧
      (∀ index ∈ flow.indices, ∃ o, flow.out[index]? = some o ∧
        result.flow.out[index]? =
          some (flow.handler.SetError o (some (decodeFailure flow body e)) statusCode)) ∧
      (∀ i, i ∉ flow.indices → result.flow.out[i]? = flow.out[i]?) := by
  have hv := reachable_valid hreach
  obtain ⟨flow1, h1, h2, _, h4, h5⟩ := setError_valid hv (decodeFailure flow body e) statusCode
  have hunpack : flow.unpackResponse statusCode (.ok body) = some (flow1, none) := by
    simp [BatchFlow.unpackResponse, hstatus, not_successful_of_server_error hstatus,
      decodeBatch_error hdecode, h1]
  refine ⟨{ flow := flow1, err := none, requests := [req] }, ?_, rfl, h2, ?_, h4, h5⟩
  · rw [send_of_response hreq hdo, hunpack]
  · simp [BatchFlow.IsDone, h2]

theorem sampleFlow_made :
    NewDetokenizeFlow sampleUrlLib sampleJson "vaultID" "https://vault-host" "bearer" ["token"] =
      .ok sampleFlow := by
  rfl

theorem sampleFlow_reachable : Reachable sampleFlow :=
  Reachable.made sampleUrlLib "POST" "https://vault-host" "/v2/tokens/detokenize" "bearer"
    ({ vaultID := "vaultID", json := sampleJson } : detokenizeFlowHandler).toHandler ["token"]
    sampleFlow sampleFlow_made

theorem decodedSlots_length (size : Nat) (decoded : List (Option DetokenizeResponseObject)) :
    (decodedSlots size decoded).length = size := by
  simp [decodedSlots]

/-- The detokenize handler rejects a body whose `response` array is shorter than the size
asked for. -/
theorem decodeBatch_fewer (handler : detokenizeFlowHandler) (size : Nat) (body : String)
    (decoded : List (Option DetokenizeResponseObject))
    (hjson : handler.json.unmarshalResponse body = .ok decoded)
    (hfewer : decoded.length < size) :
    handler.DecodeBatch size body = .error "received fewer tokens than requested" := by
  have hlast : (decodedSlots size decoded).getLast? = some none := by
    rw [List.getLast?_eq_getElem?, decodedSlots_length]
    simp only [decodedSlots, List.getElem?_map]
    rw [List.getElem?_range (by omega)]
    simp only [Option.map_some', Option.some.injEq]
    rw [List.getElem?_eq_none (by omega)]
    rfl
  simp only [detokenizeFlowHandler.DecodeBatch, hjson, decodedSlots_length, hlast, and_true]
  rw [if_pos (by omega)]

/-- C10, as the code has it. When the detokenize handler decodes fewer items than were
requested, `Send` treats it as fatal on a 2xx response, returning an error and leaving the
flow done, and as retryable on a 5xx response, returning `nil` and leaving the remaining
indices unchanged, so that the flow is not done. -/
theorem detokenize_fewer_items_fatal_only_on_success (handler : detokenizeFlowHandler)
    (flow : DetokenizeFlow) (hreach : Reachable flow)
    (hhandler : flow.handler = handler.toHandler)
    (transport : Transport DetokenizePayload) (req : Request) (statusCode : Int)
    (body : String) (decoded : List (Option DetokenizeResponseObject))
    (hreq : flow.buildRequest transport = some (.ok (some req)))
    (hdo : transport.Do req = .response statusCode (.ok body))
    (hjson : handler.json.unmarshalResponse body = .ok decoded)
    (hfewer : decoded.length < flow.indices.length) :
    (Messaging.IsSuccessfulStatusCode statusCode = true →
      ∃ result err, flow.Send transport = some result ∧ result.err = some err ∧
        result.flow.IsDone = true) ∧
    (Messaging.IsServerErrorStatusCode statusCode = true →
      ∃ result, flow.Send transport = some result ∧ result.err = none ∧
        result.flow.indices = flow.indices ∧ result.flow.IsDone = false) := by
  have hdecode : flow.handler.DecodeBatch flow.indices.length body =
      .error "received fewer tokens than requested" := by
    rw [hhandler]
    exact decodeBatch_fewer handler _ body decoded hjson hfewer
  have hv := reachable_valid hreach
  constructor
  · intro hstatus
    obtain ⟨flow1, h1, _, _, _, _⟩ := setError_valid hv
      (decodeFailure flow body "received fewer tokens than requested")
      Messaging.StatusInternalServerError
    have hunpack : flow.unpackResponse statusCode (.ok body) =
        some (flow, some (decodeFailure flow body "received fewer tokens than requested")) := by
      simp [BatchFlow.unpackResponse, hstatus, decodeBatch_error hdecode]
    refine ⟨{ flow := flow1.clearRemainingIndices,
              err := some (decodeFailure flow body "received fewer tokens than requested"),
              requests := [req] }, _, ?_, rfl, rfl⟩
    rw [send_of_response hreq hdo, hunpack]
    simp [h1]
  · intro hstatus
    obtain ⟨flow1, h1, h2, _, _, _⟩ := setError_valid hv
      (decodeFailure flow body "received fewer tokens than requested") statusCode
    have hunpack : flow.unpackResponse statusCode (.ok body) = some (flow1, none) := by
      simp [BatchFlow.unpackResponse, hstatus, not_successful_of_server_error hstatus,
        decodeBatch_error hdecode, h1]
    refine ⟨{ flow := flow1, err := none, requests := [req] }, ?_, rfl, h2, ?_⟩
    · rw [send_of_response hreq hdo, hunpack]
    · simp only [BatchFlow.IsDone, h2, beq_eq_false_iff_ne, ne_eq]
      omega

/-- The sample flow gets a 500 response whose body has no item for the one token requested:
`Send` returns `nil` and the flow is not done, so the failure is not fatal. -/
theorem detokenize_fewer_items_on_5xx_not_fatal :
    sampleJson.unmarshalResponse "\x7b\x7d" = .ok [] ∧
    sampleFlow.indices.length = 1 ∧
    (sampleFlow.Send (answering 500 "\x7b\x7d")).map (fun r => (r.err, r.flow.IsDone)) =
      some (none, false) := by
  refine ⟨rfl, rfl, ?_⟩
  decide

theorem send_unpacks_decoded_batch_witness :
    ∃ result, sampleFlow.Send (answering 200 sampleBody) = some result ∧ result.err = none ∧
      result.flow.indices = [] ∧ result.flow.out = [sampleObject] := by
  obtain ⟨result, h1, h2, h3, _, h5⟩ := send_unpacks_decoded_batch sampleFlow
    sampleFlow_reachable (answering 200 sampleBody) sampleRequest 200 sampleBody [sampleObject]
    rfl rfl (Or.inl (by decide)) rfl rfl
  refine ⟨result, h1, h2, ?_, ?_⟩
  · rw [h5]
    decide
  · have hsize : result.flow.out.length = 1 := (narrowed_send h1).size
    have h0 := h3 0 0 sampleObject rfl rfl
    match hout : result.flow.out, hsize with
    | [o], _ =>
      rw [hout] at h0
      simpa using h0

theorem send_fails_on_undecodable_success_witness :
    ∃ result, sampleFlow.Send (answering 200 "\x7b\x7d") = some result ∧
      result.err = some ("failed to decode Skyflow API response: while decoding \x27\x7b\x7d\x27: "
        ++ "received fewer tokens than requested") ∧
      result.flow.IsDone = true := by
  obtain ⟨result, h1, h2, h3, _⟩ := send_fails_on_undecodable_success sampleFlow
    sampleFlow_reachable (answering 200 "\x7b\x7d") sampleRequest 200 "\x7b\x7d"
    "received fewer tokens than requested" rfl rfl (by decide) rfl
  exact ⟨result, h1, by rw [h2]; decide, h3⟩

theorem send_retries_undecodable_server_error_witness :
    ∃ result, sampleFlow.Send (answering 503 "\x7b\x7d") = some result ∧ result.err = none ∧
      result.flow.indices = [0] := by
  obtain ⟨result, h1, h2, h3, _⟩ := send_retries_undecodable_server_error sampleFlow
    sampleFlow_reachable (answering 503 "\x7b\x7d") sampleRequest 503 "\x7b\x7d"
    "received fewer tokens than requested" rfl rfl (by decide) rfl
  exact ⟨result, h1, h2, h3⟩

theorem detokenize_fewer_items_fatal_only_on_success_witness :
    ∃ result, sampleFlow.Send (answering 500 "\x7b\x7d") = some result ∧ result.err = none ∧
      result.flow.indices = sampleFlow.indices ∧ result.flow.IsDone = false :=
  (detokenize_fewer_items_fatal_only_on_success { vaultID := "vaultID", json := sampleJson }
    sampleFlow sampleFlow_reachable rfl (answering 500 "\x7b\x7d") sampleRequest 500 "\x7b\x7d"
    [] rfl rfl rfl (by decide)).2 (by decide)

/-- A request is only built while some index remains. -/
theorem remaining_of_request {flow : BatchFlow I O P} {transport : Transport P} {req : Request}
    (hreq : flow.buildRequest transport = some (.ok (some req))) :
    flow.indices.length ≠ 0 := by
  intro h0
  simp [BatchFlow.buildRequest, h0] at hreq

theorem isDone_eq_false {flow : BatchFlow I O P} (h : flow.indices.length ≠ 0) :
    flow.IsDone = false := by
  simpa [BatchFlow.IsDone] using h

/-- A `Send` whose request was built and not answered records the failure of the client. -/
theorem send_of_failure {flow : BatchFlow I O P} {transport : Transport P} {req : Request}
    {err : String} {timedOut : Bool}
    (hreq : flow.buildRequest transport = some (.ok (some req)))
    (hdo : transport.Do req = .failure err timedOut) :
    flow.Send transport =
      (flow.setErrorOnRemainingIndices err Messaging.StatusInternalServerError).map
        (fun flow1 =>
          { flow := if timedOut then flow1.clearRemainingIndices else flow1,
            err := none, requests := [req] }) := by
  simp [BatchFlow.Send, hreq, hdo]

/-- C11, amended. When `Send` receives a 429 response, with its body read, for a flow with
remaining items, it returns `nil`, the remaining indices are unchanged, so that the flow
stays not done, and every remaining position has the decoded error recorded through
`SetError` with the status 429; the other positions are as they were. -/
theorem send_keeps_rate_limited_items [Inhabited O] (flow : BatchFlow I O P)
    (hreach : Reachable flow) (transport : Transport P) (req : Request) (body : String)
    (hreq : flow.buildRequest transport = some (.ok (some req)))
    (hdo : transport.Do req = .response 429 (.ok body)) :
    ∃ result, flow.Send transport = some result ∧ result.err = none ∧
      1 ≤ flow.indices.length ∧
      result.flow.indices = flow.indices ∧ result.flow.IsDone = false ∧
      (∀ index ∈ flow.indices, ∃ o, flow.out[index]? = some o ∧
        result.flow.out[index]? =
          some (flow.handler.SetError o (some (flow.decodeError body)) 429)) ∧
      (∀ i, i ∉ flow.indices → result.flow.out[i]? = flow.out[i]?) := by
  have hv := reachable_valid hreach
  have hsome := remaining_of_request hreq
  obtain ⟨flow1, h1, h2, _, h4, h5⟩ := setError_valid hv (flow.decodeError body) 429
  have hunpack : flow.unpackResponse 429 (.ok body) = some (flow1, none) := by
    have hs : Messaging.IsSuccessfulStatusCode 429 = false := by decide
    have hr : Messaging.IsServerErrorStatusCode 429 = false := by decide
    simp [BatchFlow.unpackResponse, hs, hr, Messaging.StatusTooManyRequests, h1]
  refine ⟨{ flow := flow1, err := none, requests := [req] }, ?_, rfl, by omega, h2, ?_, h4, h5⟩
  · rw [send_of_response hreq hdo, hunpack]
  · exact isDone_eq_false (by simpa [h2] using hsome)

/-- C12, amended. When `Send` receives a response, with its body read, whose status code is
neither 2xx, 5xx nor 429, it returns `nil`, every position that was remaining has the
decoded error recorded through `SetError` with the status code of the response, the other
positions are as they were, and no index remains, so that the flow is done. -/
theorem send_ends_on_other_status [Inhabited O] (flow : BatchFlow I O P)
    (hreach : Reachable flow) (transport : Transport P) (req : Request) (statusCode : Int)
    (body : String)
    (hreq : flow.buildRequest transport = some (.ok (some req)))
    (hdo : transport.Do req = .response statusCode (.ok body))
    (hsuccess : Messaging.IsSuccessfulStatusCode statusCode = false)
    (hserver : Messaging.IsServerErrorStatusCode statusCode = false)
    (hlimit : statusCode ≠ 429) :
    ∃ result, flow.Send transport = some result ∧ result.err = none ∧
      result.flow.indices = [] ∧ result.flow.IsDone = true ∧
      (∀ index ∈ flow.indices, ∃ o, flow.out[index]? = some o ∧
        result.flow.out[index]? =
          some (flow.handler.SetError o (some (flow.decodeError body)) statusCode)) ∧
      (∀ i, i ∉ flow.indices → result.flow.out[i]? = flow.out[i]?) := by
  have hv := reachable_valid hreach
  obtain ⟨flow1, h1, _, _, h4, h5⟩ := setError_valid hv (flow.decodeError body) statusCode
  have hunpack : flow.unpackResponse statusCode (.ok body) =
      some (flow1.clearRemainingIndices, none) := by
    simp [BatchFlow.unpackResponse, hsuccess, hserver, Messaging.StatusTooManyRequests, hlimit,
      h1]
  refine ⟨{ flow := flow1.clearRemainingIndices, err := none, requests := [req] }, ?_, rfl, rfl,
    rfl, h4, h5⟩
  rw [send_of_response hreq hdo, hunpack]

/-- C13. When the client itself fails, `Send` returns `nil` and every position that was
remaining has that error recorded through `SetError` with the status 500, the other positions
being as they were; after a timeout no index remains and the flow is done, and after any
other failure the remaining indices are unchanged and the flow is not done. -/
theorem send_records_transport_failure [Inhabited O] (flow : BatchFlow I O P)
    (hreach : Reachable flow) (transport : Transport P) (req : Request) (err : String)
    (timedOut : Bool)
    (hreq : flow.buildRequest transport = some (.ok (some req)))
    (hdo : transport.Do req = .failure err timedOut) :
    ∃ result, flow.Send transport = some result ∧ result.err = none ∧
      (∀ index ∈ flow.indices, ∃ o, flow.out[index]? = some o ∧
        result.flow.out[index]? = some (flow.handler.SetError o (some err) 500)) ∧
      (∀ i, i ∉ flow.indices → result.flow.out[i]? = flow.out[i]?) ∧
      (timedOut = true → result.flow.indices = [] ∧ result.flow.IsDone = true) ∧
      (timedOut = false →
        result.flow.indices = flow.indices ∧ result.flow.IsDone = false) := by
  have hv := reachable_valid hreach
  have hsome := remaining_of_request hreq
  obtain ⟨flow1, h1, h2, _, h4, h5⟩ := setError_valid hv err
    Messaging.StatusInternalServerError
  cases timedOut with
  | true =>
    refine ⟨{ flow := flow1.clearRemainingIndices, err := none, requests := [req] }, ?_, rfl,
      h4, h5, fun _ => ⟨rfl, rfl⟩, fun h => by simp at h⟩
    rw [send_of_failure hreq hdo, h1]
    rfl
  | false =>
    refine ⟨{ flow := flow1, err := none, requests := [req] }, ?_, rfl, h4, h5,
      fun h => by simp at h, fun _ => ⟨h2, isDone_eq_false (by simpa [h2] using hsome)⟩⟩
    rw [send_of_failure hreq hdo, h1]
    rfl

/-- The only way `unpackResponse` returns an error: the body of a 2xx response that the
handler cannot decode, the flow being left as it was. -/
theorem unpackResponse_error {flow flow1 : BatchFlow I O P} {statusCode : Int}
    {body : Except String String} {err : String}
    (h : flow.unpackResponse statusCode body = some (flow1, some err)) :
    flow1 = flow ∧ ∃ text e, body = .ok text ∧
      Messaging.IsSuccessfulStatusCode statusCode = true ∧
      flow.handler.DecodeBatch flow.indices.length text = .error e ∧
      err = decodeFailure flow text e := by
  unfold BatchFlow.unpackResponse at h
  cases body with
  | error e =>
    simp only at h
    cases hs : flow.setErrorOnRemainingIndices
      ("failed to read Skyflow API response body: " ++ e) Messaging.StatusInternalServerError <;>
      simp [hs] at h
  | ok text =>
    simp only at h
    by_cases hsucc : Messaging.IsSuccessfulStatusCode statusCode = true
    · simp only [hsucc, if_true] at h
      cases hd : flow.handler.DecodeBatch flow.indices.length text with
      | error e =>
        rw [decodeBatch_error hd] at h
        simp only [Option.some.injEq, Prod.mk.injEq] at h
        exact ⟨h.1.symm, text, e, rfl, hsucc, hd, h.2.symm⟩
      | ok decoded =>
        rw [decodeBatch_ok hd] at h
        cases hu : flow.unpackBatch decoded <;> simp [hu] at h
    · simp only [hsucc, Bool.false_eq_true, if_false] at h
      split at h
      · cases hd : flow.decodeBatch text with
        | error e =>
          simp only [hd] at h
          cases hs : flow.setErrorOnRemainingIndices e statusCode <;> simp [hs] at h
        | ok decoded =>
          simp only [hd] at h
          cases hu : flow.unpackBatch decoded <;> simp [hu] at h
      · split at h
        · cases hs : flow.setErrorOnRemainingIndices (flow.decodeError text) statusCode <;>
            simp [hs] at h
        · cases hs : flow.setErrorOnRemainingIndices (flow.decodeError text) statusCode <;>
            simp [hs] at h

/-- What an `unpackResponse` that returns `nil` has done to the flow: recorded an error under
a status that is 500, 5xx or 429 and kept the indices; recorded an error and cleared the
indices; or unpacked a batch. -/
theorem unpackResponse_cases {flow flow1 : BatchFlow I O P} {statusCode : Int}
    {body : Except String String}
    (h : flow.unpackResponse statusCode body = some (flow1, none)) :
    (∃ e c, (c = 500 ∨ Messaging.IsServerErrorStatusCode c = true ∨ c = 429) ∧
      flow.setErrorOnRemainingIndices e c = some flow1) ∨
    (∃ e c flow2, flow.setErrorOnRemainingIndices e c = some flow2 ∧
      flow1 = flow2.clearRemainingIndices) ∨
    (∃ decoded, flow.unpackBatch decoded = some flow1) := by
  unfold BatchFlow.unpackResponse at h
  cases body with
  | error e =>
    simp only at h
    cases hs : flow.setErrorOnRemainingIndices
        ("failed to read Skyflow API response body: " ++ e)
        Messaging.StatusInternalServerError with
    | none => simp [hs] at h
    | some f =>
      simp only [hs, Option.map_some', Option.some.injEq, Prod.mk.injEq, and_true] at h
      subst h
      exact Or.inl ⟨_, _, Or.inl rfl, hs⟩
  | ok text =>
    simp only at h
    split at h
    · cases hd : flow.decodeBatch text with
      | error e => simp [hd] at h
      | ok decoded =>
        simp only [hd] at h
        cases hu : flow.unpackBatch decoded with
        | none => simp [hu] at h
        | some f =>
          simp only [hu, Option.map_some', Option.some.injEq, Prod.mk.injEq, and_true] at h
          subst h
          exact Or.inr (Or.inr ⟨decoded, hu⟩)
    · split at h
      · rename_i hserver
        cases hd : flow.decodeBatch text with
        | error e =>
          simp only [hd] at h
          cases hs : flow.setErrorOnRemainingIndices e statusCode with
          | none => simp [hs] at h
          | some f =>
            simp only [hs, Option.map_some', Option.some.injEq, Prod.mk.injEq, and_true] at h
            subst h
            exact Or.inl ⟨_, _, Or.inr (Or.inl hserver), hs⟩
        | ok decoded =>
          simp only [hd] at h
          cases hu : flow.unpackBatch decoded with
          | none => simp [hu] at h
          | some f =>
            simp only [hu, Option.map_some', Option.some.injEq, Prod.mk.injEq, and_true] at h
            subst h
            exact Or.inr (Or.inr ⟨decoded, hu⟩)
      · split at h
        · rename_i hlimit
          cases hs : flow.setErrorOnRemainingIndices (flow.decodeError text) statusCode with
          | none => simp [hs] at h
          | some f =>
            simp only [hs, Option.map_some', Option.some.injEq, Prod.mk.injEq, and_true] at h
            subst h
            exact Or.inl ⟨_, _, Or.inr (Or.inr hlimit), hs⟩
        · cases hs : flow.setErrorOnRemainingIndices (flow.decodeError text) statusCode with
          | none => simp [hs] at h
          | some f =>
            simp only [hs, Option.map_some', Option.some.injEq, Prod.mk.injEq, and_true] at h
            subst h
            exact Or.inr (Or.inl ⟨_, _, f, hs, rfl⟩)

/-- What a `Send` has done to the flow: nothing; recorded an error under a status that is
500, 5xx or 429 and kept the indices; recorded an error and cleared the indices; or unpacked
a batch. -/
theorem send_cases {flow : BatchFlow I O P} {transport : Transport P} {result : Sent I O P}
    (h : flow.Send transport = some result) :
    result.flow = flow ∨
    (∃ e c, (c = 500 ∨ Messaging.IsServerErrorStatusCode c = true ∨ c = 429) ∧
      flow.setErrorOnRemainingIndices e c = some result.flow) ∨
    (∃ e c flow2, flow.setErrorOnRemainingIndices e c = some flow2 ∧
      result.flow = flow2.clearRemainingIndices) ∨
    (∃ decoded, flow.unpackBatch decoded = some result.flow) := by
  cases hb : flow.buildRequest transport with
  | none => simp [BatchFlow.Send, hb] at h
  | some built =>
    cases built with
    | error e =>
      simp only [BatchFlow.Send, hb] at h
      cases hs : flow.setErrorOnRemainingIndices e Messaging.StatusInternalServerError with
      | none => simp [hs] at h
      | some f =>
        simp only [hs, Option.map_some', Option.some.injEq] at h
        subst h
        exact Or.inr (Or.inr (Or.inl ⟨_, _, f, hs, rfl⟩))
    | ok maybe =>
      cases maybe with
      | none =>
        simp only [BatchFlow.Send, hb, Option.some.injEq] at h
        subst h
        exact Or.inl rfl
      | some req =>
        cases hd : transport.Do req with
        | failure e timedOut =>
          rw [send_of_failure hb hd] at h
          cases hs : flow.setErrorOnRemainingIndices e Messaging.StatusInternalServerError with
          | none => simp [hs] at h
          | some f =>
            simp only [hs, Option.map_some', Option.some.injEq] at h
            subst h
            cases timedOut with
            | true => exact Or.inr (Or.inr (Or.inl ⟨_, _, f, hs, rfl⟩))
            | false => exact Or.inr (Or.inl ⟨_, _, Or.inl rfl, hs⟩)
        | response statusCode body =>
          rw [send_of_response hb hd] at h
          cases hu : flow.unpackResponse statusCode body with
          | none => simp [hu] at h
          | some res =>
            obtain ⟨flow1, err⟩ := res
            cases err with
            | none =>
              simp only [hu, Option.some.injEq] at h
              subst h
              exact Or.inr (unpackResponse_cases hu)
            | some e =>
              simp only [hu] at h
              obtain ⟨hsame, _⟩ := unpackResponse_error hu
              subst hsame
              cases hs : flow1.setErrorOnRemainingIndices e
                  Messaging.StatusInternalServerError with
              | none => simp [hs] at h
              | some f =>
                simp only [hs, Option.map_some', Option.some.injEq] at h
                subst h
                exact Or.inr (Or.inr (Or.inl ⟨_, _, f, hs, rfl⟩))

/-- The error loop leaves the positions outside the indices alone. -/
theorem setErrors_frame (SetError : O → Option String → Int → O) (error : String)
    (statusCode : Int) (indices : List Nat) :
    ∀ (out out1 : List O), setErrors SetError error statusCode indices out = some out1 →
      ∀ i, i ∉ indices → out1[i]? = out[i]? := by
  induction indices with
  | nil =>
    intro out out1 h i _
    simp only [setErrors, Option.some.injEq] at h
    rw [h]
  | cons a rest ih =>
    intro out out1 h i hi
    simp only [List.mem_cons, not_or] at hi
    simp only [setErrors] at h
    cases hget : out[a]? with
    | none => simp [hget] at h
    | some o =>
      simp only [hget] at h
      rw [ih _ _ h i hi.2, List.getElem?_set_ne (fun hEq => hi.1 hEq.symm)]

/-- The unpack loop leaves the positions outside the indices alone. -/
theorem unpackLoop_frame (ShouldRetry : Option O → Bool) (decoded : List (Option O)) :
    ∀ (remaining : List Nat) (out : List O) (acc : List Nat) (out1 : List O) (acc1 : List Nat),
      unpackLoop ShouldRetry decoded remaining out acc = some (out1, acc1) →
      ∀ i, i ∉ remaining → out1[i]? = out[i]? := by
  induction decoded with
  | nil =>
    intro remaining out acc out1 acc1 h i _
    simp only [unpackLoop, Option.some.injEq, Prod.mk.injEq] at h
    rw [h.1]
  | cons d rest ih =>
    intro remaining out acc out1 acc1 h i hi
    cases remaining with
    | nil => simp [unpackLoop] at h
    | cons index more =>
      cases d with
      | none => simp [unpackLoop] at h
      | some o =>
        simp only [List.mem_cons, not_or] at hi
        simp only [unpackLoop] at h
        by_cases hlt : index < out.length
        · simp only [hlt, if_true] at h
          rw [ih more _ _ out1 acc1 h i hi.2, List.getElem?_set_ne (fun hEq => hi.1 hEq.symm)]
        · simp [hlt] at h

theorem setError_frame {flow flow1 : BatchFlow I O P} {error : String} {statusCode : Int}
    (h : flow.setErrorOnRemainingIndices error statusCode = some flow1) :
    ∀ i, i ∉ flow.indices → flow1.out[i]? = flow.out[i]? := by
  simp only [BatchFlow.setErrorOnRemainingIndices] at h
  cases hs : setErrors flow.handler.SetError error statusCode flow.indices flow.out with
  | none => simp [hs] at h
  | some out1 =>
    simp only [hs, Option.some.injEq] at h
    subst h
    exact setErrors_frame _ _ _ _ _ _ hs

theorem unpackBatch_frame {flow flow1 : BatchFlow I O P} {decoded : List (Option O)}
    (h : flow.unpackBatch decoded = some flow1) :
    ∀ i, i ∉ flow.indices → flow1.out[i]? = flow.out[i]? := by
  simp only [BatchFlow.unpackBatch] at h
  cases hs : unpackLoop flow.handler.ShouldRetry decoded flow.indices flow.out [] with
  | none => simp [hs] at h
  | some res =>
    obtain ⟨out1, acc1⟩ := res
    simp only [hs, Option.some.injEq] at h
    subst h
    exact unpackLoop_frame _ _ _ _ _ _ _ hs

/-- One `Send` leaves the positions that are not remaining alone. -/
theorem send_frame {flow : BatchFlow I O P} {transport : Transport P} {result : Sent I O P}
    (h : flow.Send transport = some result) :
    ∀ i, i ∉ flow.indices → result.flow.out[i]? = flow.out[i]? := by
  rcases send_cases h with h1 | ⟨_, _, _, h2⟩ | ⟨_, _, flow2, h3, h4⟩ | ⟨_, h5⟩
  · intro i _
    rw [h1]
  · exact setError_frame h2
  · intro i hi
    rw [h4]
    exact setError_frame h3 i hi
  · exact unpackBatch_frame h5

/-- Over any number of `Send`s the indices only narrow and the positions that were not
remaining at the start are left alone. -/
theorem sends_frame {flow later : BatchFlow I O P} (h : Sends flow later) :
    later.indices.Sublist flow.indices ∧
      ∀ i, i ∉ flow.indices → later.out[i]? = flow.out[i]? := by
  induction h with
  | same flow => exact ⟨List.Sublist.refl _, fun _ _ => rfl⟩
  | next flow transport result later hsend _ ih =>
    have hsub := (narrowed_send hsend).fewer
    refine ⟨ih.1.trans hsub, ?_⟩
    intro i hi
    rw [ih.2 i (fun hmem => hi (hsub.subset hmem)), send_frame hsend i hi]

/-- C14. `Send` returns an error in exactly two situations: the request cannot be built, and
a 2xx response cannot be decoded. In both it does return that error; and whenever `Send`
returns an error, one of the two is the case, the flow is done afterwards, and the error is
recorded through `SetError` with the status 500 on every position that was remaining, the
other positions being as they were. A `Send` whose request is built and is not answered by a
2xx response with its body read, whatever else happens, returns `nil`. -/
theorem send_error_iff_build_or_success_decode [Inhabited O] (flow : BatchFlow I O P)
    (hreach : Reachable flow) (transport : Transport P) :
    (∀ err, flow.buildRequest transport = some (.error err) →
      ∃ result, flow.Send transport = some result ∧ result.err = some err) ∧
    (∀ req statusCode body e, flow.buildRequest transport = some (.ok (some req)) →
      transport.Do req = .response statusCode (.ok body) →
      Messaging.IsSuccessfulStatusCode statusCode = true →
      flow.handler.DecodeBatch flow.indices.length body = .error e →
      ∃ result, flow.Send transport = some result ∧
        result.err = some (decodeFailure flow body e)) ∧
    (∀ result err, flow.Send transport = some result → result.err = some err →
      (flow.buildRequest transport = some (.error err) ∨
        ∃ req statusCode body e, flow.buildRequest transport = some (.ok (some req)) ∧
          transport.Do req = .response statusCode (.ok body) ∧
          Messaging.IsSuccessfulStatusCode statusCode = true ∧
          flow.handler.DecodeBatch flow.indices.length body = .error e ∧
          err = decodeFailure flow body e) ∧
      result.flow.IsDone = true ∧
      (∀ index ∈ flow.indices, ∃ o, flow.out[index]? = some o ∧
        result.flow.out[index]? = some (flow.handler.SetError o (some err) 500)) ∧
      (∀ i, i ∉ flow.indices → result.flow.out[i]? = flow.out[i]?)) ∧
    (∀ req result, flow.buildRequest transport = some (.ok (some req)) →
      flow.Send transport = some result →
      (∀ statusCode body, transport.Do req = .response statusCode (.ok body) →
        Messaging.IsSuccessfulStatusCode statusCode = false) →
      result.err = none) := by
  have hv := reachable_valid hreach
  have hthird : ∀ result err, flow.Send transport = some result → result.err = some err →
      (flow.buildRequest transport = some (.error err) ∨
        ∃ req statusCode body e, flow.buildRequest transport = some (.ok (some req)) ∧
          transport.Do req = .response statusCode (.ok body) ∧
          Messaging.IsSuccessfulStatusCode statusCode = true ∧
          flow.handler.DecodeBatch flow.indices.length body = .error e ∧
          err = decodeFailure flow body e) ∧
      result.flow.IsDone = true ∧
      (∀ index ∈ flow.indices, ∃ o, flow.out[index]? = some o ∧
        result.flow.out[index]? = some (flow.handler.SetError o (some err) 500)) ∧
      (∀ i, i ∉ flow.indices → result.flow.out[i]? = flow.out[i]?) := by
    intro result err hsend herr
    cases hb : flow.buildRequest transport with
    | none => simp [BatchFlow.Send, hb] at hsend
    | some built =>
      cases built with
      | error e =>
        obtain ⟨flow1, h1, _, _, h4, h5⟩ := setError_valid hv e
          Messaging.StatusInternalServerError
        simp only [BatchFlow.Send, hb, h1, Option.map_some', Option.some.injEq] at hsend
        subst hsend
        simp only [Option.some.injEq] at herr
        subst herr
        exact ⟨Or.inl rfl, rfl, h4, h5⟩
      | ok maybe =>
        cases maybe with
        | none =>
          simp only [BatchFlow.Send, hb, Option.some.injEq] at hsend
          subst hsend
          simp at herr
        | some req =>
          cases hd : transport.Do req with
          | failure e timedOut =>
            rw [send_of_failure hb hd] at hsend
            cases hs : flow.setErrorOnRemainingIndices e
                Messaging.StatusInternalServerError with
            | none => simp [hs] at hsend
            | some f =>
              simp only [hs, Option.map_some', Option.some.injEq] at hsend
              subst hsend
              simp at herr
          | response statusCode body =>
            rw [send_of_response hb hd] at hsend
            cases hu : flow.unpackResponse statusCode body with
            | none => simp [hu] at hsend
            | some res =>
              obtain ⟨flow1, maybeErr⟩ := res
              cases maybeErr with
              | none =>
                simp only [hu, Option.some.injEq] at hsend
                subst hsend
                simp at herr
              | some e =>
                simp only [hu] at hsend
                obtain ⟨hsame, text, e0, hbody, hsucc, hdecode, he⟩ := unpackResponse_error hu
                subst hsame
                obtain ⟨flow2, h1, _, _, h4, h5⟩ := setError_valid hv e
                  Messaging.StatusInternalServerError
                simp only [h1, Option.map_some', Option.some.injEq] at hsend
                subst hsend
                simp only [Option.some.injEq] at herr
                subst herr
                subst hbody
                exact ⟨Or.inr ⟨req, statusCode, text, e0, rfl, hd, hsucc, hdecode, he⟩, rfl,
                  h4, h5⟩
  refine ⟨?_, ?_, hthird, ?_⟩
  · intro err hb
    obtain ⟨flow1, h1, _⟩ := setError_valid hv err Messaging.StatusInternalServerError
    exact ⟨{ flow := flow1.clearRemainingIndices, err := some err, requests := [] },
      by simp [BatchFlow.Send, hb, h1], rfl⟩
  · intro req statusCode body e hb hd hsucc hdecode
    obtain ⟨flow1, h1, _⟩ := setError_valid hv (decodeFailure flow body e)
      Messaging.StatusInternalServerError
    have hunpack : flow.unpackResponse statusCode (.ok body) =
        some (flow, some (decodeFailure flow body e)) := by
      simp [BatchFlow.unpackResponse, hsucc, decodeBatch_error hdecode]
    refine ⟨{ flow := flow1.clearRemainingIndices, err := some (decodeFailure flow body e),
              requests := [req] }, ?_, rfl⟩
    rw [send_of_response hb hd, hunpack]
    simp [h1]
  · intro req result hb hsend hnot
    cases herr : result.err with
    | none => rfl
    | some err =>
      rcases (hthird result err hsend herr).1 with h | ⟨req1, statusCode, body, e, h1, h2, h3, _⟩
      · rw [hb] at h
        simp at h
      · rw [hb] at h1
        simp only [Option.some.injEq, Except.ok.injEq] at h1
        subst h1
        rw [hnot statusCode body h2] at h3
        simp at h3

/-- C15. A `Send` never changes the output at a position that is not remaining when it is
called, and such a position is not remaining afterwards either: over any number of `Send`s,
whatever the responses, the output there stays what it was. A decoded batch longer than the
remaining indices makes `unpackBatch` panic, so no `Send` that returns has unpacked one. -/
theorem send_keeps_resolved_positions (flow later : BatchFlow I O P) (hsends : Sends flow later)
    (i : Nat) (hi : i ∉ flow.indices) :
    i ∉ later.indices ∧ later.out[i]? = flow.out[i]? := by
  obtain ⟨hsub, hframe⟩ := sends_frame hsends
  exact ⟨fun hmem => hi (hsub.subset hmem), hframe i hi⟩

/-- C16. After a `Send` the remaining indices are a sublist of the remaining indices before
it. A new flow has every position of the input remaining, in order; consequently the
remaining indices of a reachable flow are strictly increasing, distinct, and positions of
both the input and the output. -/
theorem remaining_only_narrows [Inhabited O] (flow : BatchFlow I O P)
    (hreach : Reachable flow) :
    (∀ transport result, flow.Send transport = some result →
      result.flow.indices.Sublist flow.indices) ∧
    (∀ lib method vaultURL route bearer handler (input : List I) (made : BatchFlow I O P),
      NewBatchFlow lib method vaultURL route bearer handler input = .ok made →
      made.indices = List.range input.length) ∧
    flow.indices.Pairwise (fun a b => a < b) ∧ flow.indices.Nodup ∧
    (∀ index ∈ flow.indices, index < flow.input.length ∧ index < flow.out.length) := by
  have hv := reachable_valid hreach
  refine ⟨fun transport result hsend => (narrowed_send hsend).fewer, ?_, hv.increasing,
    valid_nodup hv, fun index hmem => ⟨hv.bound index hmem, valid_inside hv index hmem⟩⟩
  intro lib method vaultURL route bearer handler input made hnew
  unfold NewBatchFlow at hnew
  cases hp : lib.Parse vaultURL with
  | error e => simp [hp] at hnew
  | ok parsed =>
    simp only [hp] at hnew
    split at hnew
    · simp at hnew
    · split at hnew
      · simp at hnew
      · simp only [Except.ok.injEq] at hnew
        subst hnew
        rfl

/-- `Send` on a flow with no remaining index builds no request and changes nothing. -/
theorem send_of_done {flow : BatchFlow I O P} (hnil : flow.indices = [])
    (transport : Transport P) :
    flow.Send transport = some { flow := flow, err := none, requests := [] } := by
  simp [BatchFlow.Send, BatchFlow.buildRequest, hnil]

theorem sends_of_done {flow later : BatchFlow I O P} (hnil : flow.indices = [])
    (h : Sends flow later) : later = flow := by
  induction h with
  | same flow => rfl
  | next flow transport result later hstep _ ih =>
    rw [send_of_done hnil transport] at hstep
    simp only [Option.some.injEq] at hstep
    subst hstep
    exact ih hnil

/-- C18. A flow with no remaining index, as is a flow made from no input, is done, and
`Send` on it returns `nil`, hands no request to the client and leaves the flow, its output
and remaining indices included, as it was; so whatever `Send`s follow, the flow stays the
same and stays done. -/
theorem send_on_done_flow_does_nothing [Inhabited O] (flow : BatchFlow I O P)
    (hempty : flow.indices = [] ∨
      ∃ lib method vaultURL route bearer handler,
        NewBatchFlow lib method vaultURL route bearer handler [] = .ok flow) :
    flow.IsDone = true ∧
    (∀ transport, flow.Send transport = some { flow := flow, err := none, requests := [] }) ∧
    (∀ later, Sends flow later → later = flow ∧ later.IsDone = true) := by
  have hnil : flow.indices = [] := by
    rcases hempty with h | ⟨lib, method, vaultURL, route, bearer, handler, hnew⟩
    · exact h
    · unfold NewBatchFlow at hnew
      cases hp : lib.Parse vaultURL with
      | error e => simp [hp] at hnew
      | ok parsed =>
        simp only [hp] at hnew
        split at hnew
        · simp at hnew
        · split at hnew
          · simp at hnew
          · simp only [Except.ok.injEq] at hnew
            subst hnew
            rfl
  have hdone : flow.IsDone = true := by simp [BatchFlow.IsDone, hnil]
  refine ⟨hdone, send_of_done hnil, ?_⟩
  intro later hlater
  have hsame : later = flow := sends_of_done hnil hlater
  exact ⟨hsame, hsame ▸ hdone⟩

/-- Every index the unpack loop adds to the new indices holds, in the end, an item that
`ShouldRetry` accepts. -/
theorem unpackLoop_retried (ShouldRetry : Option O → Bool) (decoded : List (Option O)) :
    ∀ (remaining : List Nat) (out : List O) (acc : List Nat) (out1 : List O) (acc1 : List Nat),
      remaining.Nodup →
      unpackLoop ShouldRetry decoded remaining out acc = some (out1, acc1) →
      ∀ index ∈ acc1, index ∈ acc ∨
        ∃ o, out1[index]? = some o ∧ ShouldRetry (some o) = true := by
  induction decoded with
  | nil =>
    intro remaining out acc out1 acc1 _ h index hmem
    simp only [unpackLoop, Option.some.injEq, Prod.mk.injEq] at h
    rw [← h.2] at hmem
    exact Or.inl hmem
  | cons d rest ih =>
    intro remaining out acc out1 acc1 hnodup h index hmem
    cases remaining with
    | nil => simp [unpackLoop] at h
    | cons first more =>
      cases d with
      | none => simp [unpackLoop] at h
      | some o =>
        simp only [List.nodup_cons] at hnodup
        simp only [unpackLoop] at h
        by_cases hlt : first < out.length
        · simp only [hlt, if_true] at h
          rcases ih more _ _ out1 acc1 hnodup.2 h index hmem with hacc | hitem
          · by_cases hr : ShouldRetry (some o) = true
            · simp only [hr, if_true, List.mem_append, List.mem_singleton] at hacc
              rcases hacc with hacc | hacc
              · exact Or.inl hacc
              · subst hacc
                refine Or.inr ⟨o, ?_, hr⟩
                rw [unpackLoop_frame _ _ _ _ _ _ _ h index hnodup.1,
                  List.getElem?_set_self hlt]
            · simp only [hr, Bool.false_eq_true, if_false] at hacc
              exact Or.inl hacc
          · exact Or.inr hitem
        · simp [hlt] at h

/-- After `unpackBatch` on a flow with distinct remaining indices, every remaining index
holds an item that `ShouldRetry` accepts. -/
theorem unpackBatch_retried {flow flow1 : BatchFlow I O P} {decoded : List (Option O)}
    (hnodup : flow.indices.Nodup) (h : flow.unpackBatch decoded = some flow1) :
    ∀ index ∈ flow1.indices, ∃ o, flow1.out[index]? = some o ∧
      flow.handler.ShouldRetry (some o) = true := by
  simp only [BatchFlow.unpackBatch] at h
  cases hs : unpackLoop flow.handler.ShouldRetry decoded flow.indices flow.out [] with
  | none => simp [hs] at h
  | some res =>
    obtain ⟨out1, acc1⟩ := res
    simp only [hs, Option.some.injEq] at h
    subst h
    intro index hmem
    rcases unpackLoop_retried _ _ _ _ _ _ _ hnodup hs index hmem with h0 | h1
    · simp at h0
    · exact h1

/-- What the detokenize handler's `ShouldRetry` accepts carries a code in 500..599 or 429. -/
theorem shouldRetry_code {handler : detokenizeFlowHandler} {o : DetokenizeResponseObject}
    (h : handler.ShouldRetry (some o) = true) :
    ∃ code, o.HttpCode = some code ∧ ((500 ≤ code ∧ code < 600) ∨ code = 429) := by
  simp only [detokenizeFlowHandler.ShouldRetry] at h
  cases hc : o.HttpCode with
  | none => simp [hc] at h
  | some code =>
    simp only [hc, Bool.or_eq_true, beq_iff_eq] at h
    refine ⟨code, rfl, ?_⟩
    rcases h with h | h
    · simp only [Messaging.IsServerErrorStatusCode, Messaging.StatusInternalServerError,
        Bool.and_eq_true, decide_eq_true_eq] at h
      exact Or.inl h
    · exact Or.inr h

/-- The zero value of every position of a new flow. -/
theorem new_flow_zero [Inhabited O] {lib : UrlLib} {method vaultURL route bearer : String}
    {handler : BatchFlowHandler I O P} {input : List I} {flow : BatchFlow I O P}
    (h : NewBatchFlow lib method vaultURL route bearer handler input = .ok flow) :
    flow.indices = List.range input.length ∧ flow.out = List.replicate input.length default := by
  unfold NewBatchFlow at h
  cases hp : lib.Parse vaultURL with
  | error e => simp [hp] at h
  | ok parsed =>
    simp only [hp] at h
    split at h
    · simp at h
    · split at h
      · simp at h
      · simp only [Except.ok.injEq] at h
        subst h
        exact ⟨rfl, rfl⟩

/-- C17. In every reachable state of a detokenize flow, each remaining position holds either
the zero-value result or a result whose recorded HTTP code is a server-error code (500 to
599) or 429. -/
theorem remaining_holds_zero_or_transient (handler : detokenizeFlowHandler)
    (flow : DetokenizeFlow) (hreach : Reachable flow)
    (hhandler : flow.handler = handler.toHandler) :
    ∀ index ∈ flow.indices, ∃ o, flow.out[index]? = some o ∧
      (o = default ∨
        ∃ code, o.HttpCode = some code ∧ ((500 ≤ code ∧ code < 600) ∨ code = 429)) := by
  induction hreach with
  | made lib method vaultURL route bearer made input flow hnew =>
    obtain ⟨h1, h2⟩ := new_flow_zero hnew
    intro index hmem
    rw [h1, List.mem_range] at hmem
    refine ⟨default, ?_, Or.inl rfl⟩
    rw [h2, List.getElem?_replicate]
    simp [hmem]
  | sent flow transport result hprev hsend ih =>
    have hsame : flow.handler = handler.toHandler := by
      rw [← (narrowed_send hsend).handler]
      exact hhandler
    have hold := ih hsame
    have hv := reachable_valid hprev
    rcases send_cases hsend with h1 | ⟨e, c, hc, h2⟩ | ⟨_, _, flow2, _, h4⟩ | ⟨decoded, h5⟩
    · rw [h1]
      exact hold
    · obtain ⟨flow1, h6, h7, _, h8, _⟩ := setError_valid hv e c
      rw [h2, Option.some.injEq] at h6
      subst h6
      intro index hmem
      rw [h7] at hmem
      obtain ⟨o, _, ho⟩ := h8 index hmem
      refine ⟨_, ho, Or.inr ⟨c, ?_, ?_⟩⟩
      · rw [hsame]
        rfl
      · rcases hc with hc | hc | hc
        · exact Or.inl (by omega)
        · simp only [Messaging.IsServerErrorStatusCode, Messaging.StatusInternalServerError,
            Bool.and_eq_true, decide_eq_true_eq] at hc
          exact Or.inl hc
        · exact Or.inr hc
    · intro index hmem
      rw [h4] at hmem
      simp [BatchFlow.clearRemainingIndices] at hmem
    · intro index hmem
      obtain ⟨o, ho, hr⟩ := unpackBatch_retried (valid_nodup hv) h5 index hmem
      rw [hsame] at hr
      have hr1 : handler.ShouldRetry (some o) = true := hr
      exact ⟨o, ho, Or.inr (shouldRetry_code hr1)⟩

theorem sampleFlow_limited :
    sampleFlow.Send (answering 429 "\x7b\x7d") =
      some { flow := limitedFlow, err := none, requests := [sampleRequest] } := by
  rfl

theorem limitedFlow_reachable : Reachable limitedFlow :=
  Reachable.sent sampleFlow (answering 429 "\x7b\x7d")
    { flow := limitedFlow, err := none, requests := [sampleRequest] } sampleFlow_reachable
    sampleFlow_limited

theorem pairFlow_limited :
    pairFlow.Send (answering 429 "\x7b\x7d") =
      some { flow := pairLimitedFlow, err := none,
             requests := [{ sampleRequest with body := "vaultID:other" }] } := by
  rfl

theorem emptyFlow_made :
    NewBatchFlow sampleUrlLib "POST" "https://vault-host" "/v2/tokens/detokenize" "bearer"
      ({ vaultID := "vaultID", json := sampleJson } : detokenizeFlowHandler).toHandler [] =
      .ok emptyFlow := by
  rfl

theorem send_keeps_rate_limited_items_witness :
    ∃ result, sampleFlow.Send (answering 429 "\x7b\x7d") = some result ∧ result.err = none ∧
      result.flow.indices = [0] ∧ result.flow.IsDone = false ∧
      result.flow.out = limitedFlow.out := by
  obtain ⟨result, h1, h2, _, h4, h5, _⟩ := send_keeps_rate_limited_items sampleFlow
    sampleFlow_reachable (answering 429 "\x7b\x7d") sampleRequest "\x7b\x7d" rfl rfl
  refine ⟨result, h1, h2, h4, h5, ?_⟩
  rw [sampleFlow_limited, Option.some.injEq] at h1
  rw [← h1]

theorem send_ends_on_other_status_witness :
    ∃ result, sampleFlow.Send (answering 404 "\x7b\x7d") = some result ∧ result.err = none ∧
      result.flow.indices = [] ∧ result.flow.IsDone = true := by
  obtain ⟨result, h1, h2, h3, h4, _⟩ := send_ends_on_other_status sampleFlow
    sampleFlow_reachable (answering 404 "\x7b\x7d") sampleRequest 404 "\x7b\x7d" rfl rfl
    (by decide) (by decide) (by decide)
  exact ⟨result, h1, h2, h3, h4⟩

theorem send_records_transport_failure_witness :
    ∃ result, sampleFlow.Send (failing "connection refused" false) = some result ∧
      result.err = none ∧ result.flow.indices = [0] ∧ result.flow.IsDone = false := by
  obtain ⟨result, h1, h2, _, _, _, h6⟩ := send_records_transport_failure sampleFlow
    sampleFlow_reachable (failing "connection refused" false) sampleRequest
    "connection refused" false rfl rfl
  exact ⟨result, h1, h2, (h6 rfl).1, (h6 rfl).2⟩

theorem send_error_iff_build_or_success_decode_witness :
    ∃ result, sampleFlow.Send unmarshallable = some result ∧
      result.err = some "failed to marshal body of Skyflow API request: unsupported type" :=
  (send_error_iff_build_or_success_decode sampleFlow sampleFlow_reachable unmarshallable).1
    "failed to marshal body of Skyflow API request: unsupported type" rfl

theorem send_keeps_resolved_positions_witness :
    Sends pairFlow pairLimitedFlow ∧ 0 ∉ pairFlow.indices ∧
      pairLimitedFlow.out[0]? = some sampleObject ∧ pairLimitedFlow.out ≠ pairFlow.out :=
  have hsends : Sends pairFlow pairLimitedFlow :=
    Sends.next pairFlow (answering 429 "\x7b\x7d") _ pairLimitedFlow pairFlow_limited
      (Sends.same _)
  ⟨hsends, by decide,
    (send_keeps_resolved_positions pairFlow pairLimitedFlow hsends 0 (by decide)).2,
    by decide⟩

theorem remaining_only_narrows_witness :
    limitedFlow.indices.Pairwise (fun a b => a < b) ∧ limitedFlow.indices.Nodup :=
  have h := remaining_only_narrows limitedFlow limitedFlow_reachable
  ⟨h.2.2.1, h.2.2.2.1⟩

theorem remaining_holds_zero_or_transient_witness :
    ∃ o, limitedFlow.out[0]? = some o ∧
      (o = default ∨
        ∃ code, o.HttpCode = some code ∧ ((500 ≤ code ∧ code < 600) ∨ code = 429)) :=
  remaining_holds_zero_or_transient { vaultID := "vaultID", json := sampleJson } limitedFlow
    limitedFlow_reachable rfl 0 (by decide)

theorem send_on_done_flow_does_nothing_witness :
    emptyFlow.IsDone = true ∧
      emptyFlow.Send (answering 200 sampleBody) =
        some { flow := emptyFlow, err := none, requests := [] } :=
  have h := send_on_done_flow_does_nothing emptyFlow
    (Or.inr ⟨sampleUrlLib, "POST", "https://vault-host", "/v2/tokens/detokenize", "bearer",
      ({ vaultID := "vaultID", json := sampleJson } : detokenizeFlowHandler).toHandler,
      emptyFlow_made⟩)
  ⟨h.1, h.2.1 (answering 200 sampleBody)⟩

theorem mixedFlow_reachable : Reachable mixedFlow :=
  Reachable.made sampleUrlLib "POST" "https://vault-host" "/v2/tokens/detokenize" "bearer"
    ({ vaultID := "vaultID", json := mixedJson } : detokenizeFlowHandler).toHandler
    ["token0", "token1", "token2"] mixedFlow rfl

/-- A `Send` answered with a status that is neither 2xx nor 5xx, the body read: it returns
`nil` and every position that was remaining has the decoded error recorded through `SetError`
with the status code of the response. -/
theorem send_of_error_status {I O P : Type} [Inhabited O] {flow : BatchFlow I O P}
    (hreach : Reachable flow) {transport : Transport P} {req : Request} {statusCode : Int}
    {body : String}
    (hreq : flow.buildRequest transport = some (.ok (some req)))
    (hdo : transport.Do req = .response statusCode (.ok body))
    (hsuccess : Messaging.IsSuccessfulStatusCode statusCode = false)
    (hserver : Messaging.IsServerErrorStatusCode statusCode = false) :
    ∃ result, flow.Send transport = some result ∧ result.err = none ∧
      (∀ index ∈ flow.indices, ∃ o, flow.out[index]? = some o ∧
        result.flow.out[index]? =
          some (flow.handler.SetError o (some (flow.decodeError body)) statusCode)) := by
  have hv := reachable_valid hreach
  obtain ⟨flow1, h1, _, _, h4, _⟩ := setError_valid hv (flow.decodeError body) statusCode
  by_cases hlimit : statusCode = Messaging.StatusTooManyRequests
  · subst hlimit
    have hunpack : flow.unpackResponse Messaging.StatusTooManyRequests (.ok body) =
        some (flow1, none) := by
      simp [BatchFlow.unpackResponse, hsuccess, hserver, h1]
    refine ⟨{ flow := flow1, err := none, requests := [req] }, ?_, rfl, h4⟩
    rw [send_of_response hreq hdo, hunpack]
  · have hunpack : flow.unpackResponse statusCode (.ok body) =
        some (flow1.clearRemainingIndices, none) := by
      simp [BatchFlow.unpackResponse, hsuccess, hserver, hlimit, h1]
    refine ⟨{ flow := flow1.clearRemainingIndices, err := none, requests := [req] }, ?_, rfl,
      h4⟩
    rw [send_of_response hreq hdo, hunpack]

/-- What the detokenize handler's `ShouldRetry` accepts. -/
theorem shouldRetry_iff (handler : detokenizeFlowHandler)
    (item : Option DetokenizeResponseObject) :
    handler.ShouldRetry item = true ↔
      ∃ o code, item = some o ∧ o.HttpCode = some code ∧
        ((500 ≤ code ∧ code < 600) ∨ code = 429) := by
  constructor
  · intro h
    cases item with
    | none => simp [detokenizeFlowHandler.ShouldRetry] at h
    | some o =>
      obtain ⟨code, h1, h2⟩ := shouldRetry_code h
      exact ⟨o, code, rfl, h1, h2⟩
  · rintro ⟨o, code, rfl, hcode, h⟩
    simp only [detokenizeFlowHandler.ShouldRetry, hcode, Bool.or_eq_true, beq_iff_eq,
      Messaging.IsServerErrorStatusCode, Messaging.StatusInternalServerError,
      Messaging.StatusTooManyRequests, Bool.and_eq_true, decide_eq_true_eq]
    exact h

/-- C28. The detokenize handler's `ShouldRetry` holds of an item exactly when the item is not
nil, has an HTTP code, and the code is a server-error code (500 to 599) or 429. So when three
positions remain and a 2xx or 5xx response decodes to three objects with the codes 200, 500
and 400, one `Send` returns `nil`, writes each object at its position, and leaves the
position of the object with the code 500 as the only remaining one. -/
theorem should_retry_only_server_error_or_429 (handler : detokenizeFlowHandler)
    (flow : DetokenizeFlow) (hreach : Reachable flow)
    (hhandler : flow.handler = handler.toHandler) (transport : Transport DetokenizePayload)
    (req : Request) (statusCode : Int) (body : String) (a b c : Nat)
    (itemA itemB itemC : DetokenizeResponseObject)
    (hindices : flow.indices = [a, b, c])
    (hreq : flow.buildRequest transport = some (.ok (some req)))
    (hdo : transport.Do req = .response statusCode (.ok body))
    (hstatus : Messaging.IsSuccessfulStatusCode statusCode = true ∨
      Messaging.IsServerErrorStatusCode statusCode = true)
    (hjson : handler.json.unmarshalResponse body = .ok [some itemA, some itemB, some itemC])
    (hA : itemA.HttpCode = some 200) (hB : itemB.HttpCode = some 500)
    (hC : itemC.HttpCode = some 400) :
    (∀ item, handler.ShouldRetry item = true ↔
      ∃ o code, item = some o ∧ o.HttpCode = some code ∧
        ((500 ≤ code ∧ code < 600) ∨ code = 429)) ∧
    ∃ result, flow.Send transport = some result ∧ result.err = none ∧
      result.flow.indices = [b] ∧ result.flow.IsDone = false ∧
      result.flow.out[a]? = some itemA ∧ result.flow.out[b]? = some itemB ∧
      result.flow.out[c]? = some itemC ∧
      (∀ i, i ∉ flow.indices → result.flow.out[i]? = flow.out[i]?) := by
  refine ⟨shouldRetry_iff handler, ?_⟩
  have hv := reachable_valid hreach
  have hslots : decodedSlots 3 [some itemA, some itemB, some itemC] =
      [some itemA, some itemB, some itemC] := rfl
  have hdecode : flow.handler.DecodeBatch flow.indices.length body =
      .ok ([itemA, itemB, itemC].map some) := by
    rw [hhandler, hindices]
    show handler.DecodeBatch 3 body = _
    simp [detokenizeFlowHandler.DecodeBatch, hjson, hslots]
  obtain ⟨out1, h1, _, h3, h4⟩ := unpackLoop_spec flow.handler.ShouldRetry
    [itemA, itemB, itemC] flow.indices flow.out [] (by simp [hindices]) (valid_inside hv)
    (valid_nodup hv)
  have hrA : handler.ShouldRetry (some itemA) = false := by
    simp [detokenizeFlowHandler.ShouldRetry, hA]
    decide
  have hrB : handler.ShouldRetry (some itemB) = true := by
    simp [detokenizeFlowHandler.ShouldRetry, hB]
    decide
  have hrC : handler.ShouldRetry (some itemC) = false := by
    simp [detokenizeFlowHandler.ShouldRetry, hC]
    decide
  have hretried : retried flow.handler.ShouldRetry flow.indices [itemA, itemB, itemC] = [b] := by
    rw [hhandler, hindices]
    show retried handler.ShouldRetry [a, b, c] [itemA, itemB, itemC] = [b]
    simp [retried, hrA, hrB, hrC]
  rw [hretried] at h1
  have hunpack : flow.unpackBatch ([itemA, itemB, itemC].map some) =
      some { flow with out := out1, indices := [b] } := by
    simp only [BatchFlow.unpackBatch, h1, List.nil_append]
  refine ⟨{ flow := { flow with out := out1, indices := [b] }, err := none,
            requests := [req] }, ?_, rfl, rfl, rfl, ?_, ?_, ?_, h3⟩
  · rw [send_of_response hreq hdo, unpackResponse_decoded hstatus (decodeBatch_ok hdecode),
      hunpack]
    rfl
  · exact h4 (a, itemA) (by simp [hindices])
  · exact h4 (b, itemB) (by simp [hindices])
  · exact h4 (c, itemC) (by simp [hindices])

/-- C29. On a response whose status is neither 2xx nor 5xx, 429 among them, with its body
read, the error recorded on every remaining item is the message of the error object of the
body when the body decodes to one with a message that is not empty; when the body is not
valid JSON, has no error object, or has one with no message or an empty one, it is the text
of the body as it came. The code recorded is the status code of the response. -/
theorem error_response_records_message_or_body (handler : detokenizeFlowHandler)
    (flow : DetokenizeFlow) (hreach : Reachable flow)
    (hhandler : flow.handler = handler.toHandler) (transport : Transport DetokenizePayload)
    (req : Request) (statusCode : Int) (body : String)
    (hreq : flow.buildRequest transport = some (.ok (some req)))
    (hdo : transport.Do req = .response statusCode (.ok body))
    (hsuccess : Messaging.IsSuccessfulStatusCode statusCode = false)
    (hserver : Messaging.IsServerErrorStatusCode statusCode = false) :
    Messaging.IsSuccessfulStatusCode 429 = false ∧
    Messaging.IsServerErrorStatusCode 429 = false ∧
    ∃ result, flow.Send transport = some result ∧ result.err = none ∧
      (∀ message,
        handler.json.unmarshalError body = .ok { Error := some { Message := some message } } →
        message ≠ "" →
        ∀ index ∈ flow.indices, ∃ o, result.flow.out[index]? = some o ∧
          o.Error = some message ∧ o.HttpCode = some statusCode) ∧
      (((∃ e, handler.json.unmarshalError body = .error e) ∨
          handler.json.unmarshalError body = .ok { Error := none } ∨
          handler.json.unmarshalError body = .ok { Error := some { Message := none } } ∨
          handler.json.unmarshalError body = .ok { Error := some { Message := some "" } }) →
        ∀ index ∈ flow.indices, ∃ o, result.flow.out[index]? = some o ∧
          o.Error = some body ∧ o.HttpCode = some statusCode) := by
  refine ⟨by decide, by decide, ?_⟩
  obtain ⟨result, h1, h2, h3⟩ := send_of_error_status hreach hreq hdo hsuccess hserver
  refine ⟨result, h1, h2, ?_, ?_⟩
  · intro message hjson hne index hmem
    obtain ⟨o, _, ho⟩ := h3 index hmem
    refine ⟨_, ho, ?_, ?_⟩
    · rw [hhandler]
      show some (flow.decodeError body) = some message
      rw [BatchFlow.decodeError, hhandler]
      show some (match handler.DecodeError body with
        | some err => err
        | none => body) = some message
      simp [detokenizeFlowHandler.DecodeError, hjson, hne]
    · rw [hhandler]
      rfl
  · intro hcases index hmem
    obtain ⟨o, _, ho⟩ := h3 index hmem
    refine ⟨_, ho, ?_, ?_⟩
    · rw [hhandler]
      show some (flow.decodeError body) = some body
      rw [BatchFlow.decodeError, hhandler]
      show some (match handler.DecodeError body with
        | some err => err
        | none => body) = some body
      rcases hcases with ⟨e, h⟩ | h | h | h <;> simp [detokenizeFlowHandler.DecodeError, h]
    · rw [hhandler]
      rfl

theorem should_retry_only_server_error_or_429_witness :
    ∃ result, mixedFlow.Send (answering 207 mixedBody) = some result ∧ result.err = none ∧
      result.flow.indices = [1] ∧ result.flow.out[0]? = mixedObjects[0]? ∧
      result.flow.out[1]? = mixedObjects[1]? ∧ result.flow.out[2]? = mixedObjects[2]? := by
  obtain ⟨result, h1, h2, h3, _, h5, h6, h7, _⟩ :=
    (should_retry_only_server_error_or_429 { vaultID := "vaultID", json := mixedJson }
      mixedFlow mixedFlow_reachable rfl (answering 207 mixedBody) mixedRequest 207 mixedBody
      0 1 2 _ _ _ rfl rfl rfl (Or.inl (by decide)) rfl rfl rfl rfl).2
  exact ⟨result, h1, h2, h3, h5, h6, h7⟩

theorem error_response_records_message_or_body_witness :
    ∃ result, mixedFlow.Send (answering 404 errorBody) = some result ∧
      (∀ index ∈ mixedFlow.indices, ∃ o, result.flow.out[index]? = some o ∧
        o.Error = some "bad token" ∧ o.HttpCode = some 404) := by
  obtain ⟨result, h1, _, h3, _⟩ :=
    (error_response_records_message_or_body { vaultID := "vaultID", json := mixedJson }
      mixedFlow mixedFlow_reachable rfl (answering 404 errorBody) mixedRequest 404 errorBody
      rfl rfl (by decide) (by decide)).2.2
  exact ⟨result, h1, h3 "bad token" rfl (by decide)⟩

/-- Gathering through a partial function that is defined on every element. -/
theorem mapM_of_defined {α β : Type} (f : α → Option β) (l : List α)
    (h : ∀ a ∈ l, ∃ b, f a = some b) :
    ∃ items, l.mapM f = some items ∧ items.map some = l.map f := by
  induction l with
  | nil => exact ⟨[], rfl, rfl⟩
  | cons a rest ih =>
    obtain ⟨b, hb⟩ := h a (List.mem_cons_self _ _)
    obtain ⟨items, h1, h2⟩ := ih (fun x hx => h x (List.mem_cons_of_mem _ hx))
    refine ⟨b :: items, ?_, by simp [hb, h2]⟩
    rw [List.mapM_cons, hb, h1]
    rfl

/-- Increasing numbers below `n`, `n` of them, are the numbers from zero up to `n`. -/
theorem increasing_eq_range (l : List Nat) (n : Nat) (hinc : l.Pairwise (fun a b => a < b))
    (hbound : ∀ x ∈ l, x < n) (hlen : l.length = n) : l = List.range n := by
  have hnodup : l.Nodup := hinc.imp (fun h => Nat.ne_of_lt h)
  have hsub : l ⊆ List.range n := fun x hx => List.mem_range.mpr (hbound x hx)
  have hperm : l.Perm (List.range n) :=
    (List.subperm_of_subset hnodup hsub).perm_of_length_le (by simp [hlen])
  exact List.eq_of_perm_of_sorted hperm hinc (List.sorted_lt_range n)

theorem range_gather {α : Type} (input : List α) :
    (List.range input.length).map (fun index => input[index]?) = input.map some := by
  apply List.ext_getElem?
  intro i
  by_cases hi : i < input.length
  · simp [List.getElem?_map, List.getElem?_range hi, List.getElem?_eq_getElem hi]
  · rw [List.getElem?_eq_none (by simpa using hi), List.getElem?_eq_none (by simpa using hi)]

/-- C33. In a reachable flow the inputs `buildRequest` takes for `BuildPayload` are the
inputs at the remaining indices, in the order of the indices; the whole input, which is
taken as it is when as many indices remain as there are inputs, is that list too, every
index remaining then. While an index remains, the request is made of the payload that
`BuildPayload` builds from that list. -/
theorem payload_built_from_remaining_inputs [Inhabited O] (flow : BatchFlow I O P)
    (hreach : Reachable flow) :
    flow.remainingInput = flow.gathered ∧
    ∃ items, flow.remainingInput = some items ∧ items.length = flow.indices.length ∧
      items.map some = flow.indices.map (fun index => flow.input[index]?) ∧
      (flow.input.length = flow.indices.length →
        flow.indices = List.range flow.input.length ∧ items = flow.input) ∧
      (∀ (transport : Transport P) (payloadBytes : String), flow.indices ≠ [] →
        transport.marshal (flow.handler.BuildPayload items) = .ok payloadBytes →
        transport.requestError flow.method (flow.vaultURL ++ flow.route) = none →
        ∃ req, flow.buildRequest transport = some (.ok (some req)) ∧
          req.body = payloadBytes) := by
  have hv := reachable_valid hreach
  obtain ⟨items, h1, h2⟩ := mapM_of_defined (fun index => flow.input[index]?) flow.indices
    (fun index hmem => ⟨flow.input.get ⟨index, hv.bound index hmem⟩,
      List.getElem?_eq_getElem (hv.bound index hmem)⟩)
  have hshort : flow.input.length = flow.indices.length →
      flow.indices = List.range flow.input.length ∧ items = flow.input := by
    intro hlen
    have hrange := increasing_eq_range flow.indices flow.input.length hv.increasing hv.bound
      hlen.symm
    refine ⟨hrange, ?_⟩
    rw [hrange, range_gather] at h2
    exact List.map_injective_iff.mpr (Option.some_injective _) h2
  have hsame : flow.remainingInput = some items := by
    unfold BatchFlow.remainingInput
    split
    · rename_i hlen
      rw [(hshort hlen).2]
    · exact h1
  refine ⟨by rw [hsame, BatchFlow.gathered, h1], items, hsame, ?_, h2, hshort, ?_⟩
  · have := congrArg List.length h2
    simpa using this
  · intro transport payloadBytes hne hmarshal hrequest
    have hlen : flow.indices.length ≠ 0 := fun h => hne (List.length_eq_zero.mp h)
    refine ⟨{ method := flow.method, url := flow.vaultURL ++ flow.route,
              contentType := "application/json", authorization := "Bearer " ++ flow.bearer,
              body := payloadBytes }, ?_, rfl⟩
    simp [BatchFlow.buildRequest, hlen, hsame, hmarshal, hrequest]

/-- C34. When the body of the response cannot be read, whatever the status code of the
response, `Send` returns `nil`, every remaining position has the error `failed to read
Skyflow API response body` recorded through `SetError` with the status 500, the other
positions are as they were, and the remaining indices are unchanged, so that the flow is not
done. -/
theorem send_retries_unreadable_body [Inhabited O] (flow : BatchFlow I O P)
    (hreach : Reachable flow) (transport : Transport P) (req : Request) (statusCode : Int)
    (err : String)
    (hreq : flow.buildRequest transport = some (.ok (some req)))
    (hdo : transport.Do req = .response statusCode (.error err)) :
    ∃ result, flow.Send transport = some result ∧ result.err = none ∧
      result.flow.indices = flow.indices ∧ result.flow.IsDone = false ∧
      (∀ index ∈ flow.indices, ∃ o, flow.out[index]? = some o ∧
        result.flow.out[index]? =
          some (flow.handler.SetError o
            (some ("failed to read Skyflow API response body: " ++ err)) 500)) ∧
      (∀ i, i ∉ flow.indices → result.flow.out[i]? = flow.out[i]?) := by
  have hv := reachable_valid hreach
  have hsome := remaining_of_request hreq
  obtain ⟨flow1, h1, h2, _, h4, h5⟩ := setError_valid hv
    ("failed to read Skyflow API response body: " ++ err) Messaging.StatusInternalServerError
  have hunpack : flow.unpackResponse statusCode (.error err) = some (flow1, none) := by
    simp [BatchFlow.unpackResponse, h1]
  refine ⟨{ flow := flow1, err := none, requests := [req] }, ?_, rfl, h2, ?_, h4, h5⟩
  · rw [send_of_response hreq hdo, hunpack]
  · exact isDone_eq_false (by simpa [h2] using hsome)

/-- A `Send` answered with a 2xx or 5xx response whose body the handler cannot decode: the
decoding error is recorded on every remaining position, with the status 500 and returned
after a 2xx response, with the status of the response and not returned after a 5xx one. -/
theorem send_of_decode_failure [Inhabited O] {flow : BatchFlow I O P}
    (hreach : Reachable flow) {transport : Transport P} {req : Request} {statusCode : Int}
    {body e : String}
    (hreq : flow.buildRequest transport = some (.ok (some req)))
    (hdo : transport.Do req = .response statusCode (.ok body))
    (hstatus : Messaging.IsSuccessfulStatusCode statusCode = true ∨
      Messaging.IsServerErrorStatusCode statusCode = true)
    (hdecode : flow.handler.DecodeBatch flow.indices.length body = .error e) :
    ∃ result, flow.Send transport = some result ∧
      result.err = (if Messaging.IsSuccessfulStatusCode statusCode = true
        then some (decodeFailure flow body e) else none) ∧
      (∀ index ∈ flow.indices, ∃ o, flow.out[index]? = some o ∧
        result.flow.out[index]? =
          some (flow.handler.SetError o (some (decodeFailure flow body e))
            (if Messaging.IsSuccessfulStatusCode statusCode = true then 500
              else statusCode))) := by
  have hv := reachable_valid hreach
  by_cases hs : Messaging.IsSuccessfulStatusCode statusCode = true
  · obtain ⟨flow1, h1, _, _, h4, _⟩ := setError_valid hv (decodeFailure flow body e)
      Messaging.StatusInternalServerError
    have hunpack : flow.unpackResponse statusCode (.ok body) =
        some (flow, some (decodeFailure flow body e)) := by
      simp [BatchFlow.unpackResponse, hs, decodeBatch_error hdecode]
    refine ⟨{ flow := flow1.clearRemainingIndices, err := some (decodeFailure flow body e),
              requests := [req] }, ?_, by simp [hs], ?_⟩
    · rw [send_of_response hreq hdo, hunpack]
      simp [h1]
    · simpa [hs] using h4
  · have hserver : Messaging.IsServerErrorStatusCode statusCode = true := by
      rcases hstatus with h | h
      · exact absurd h hs
      · exact h
    obtain ⟨flow1, h1, _, _, h4, _⟩ := setError_valid hv (decodeFailure flow body e) statusCode
    have hunpack : flow.unpackResponse statusCode (.ok body) = some (flow1, none) := by
      simp [BatchFlow.unpackResponse, hs, hserver, decodeBatch_error hdecode, h1]
    refine ⟨{ flow := flow1, err := none, requests := [req] }, ?_, by simp [hs], ?_⟩
    · rw [send_of_response hreq hdo, hunpack]
    · simpa [hs] using h4

/-- The detokenize handler's `DecodeError` on a body with an error object whose message is
not empty. -/
theorem decodeError_of_message {handler : detokenizeFlowHandler} {body message : String}
    (hjson : handler.json.unmarshalError body =
      .ok { Error := some { Message := some message } })
    (hne : message ≠ "") : handler.DecodeError body = some message := by
  simp [detokenizeFlowHandler.DecodeError, hjson, hne]

/-- C32. For a response with its body read, when the body is an error object with a message
that is not empty, and decoding the batch fails on it if the status is 2xx or 5xx, the error
recorded on every remaining item is that message, with the status 500 after a 2xx response
and with the status of the response otherwise, and `Send` returns an error, that message,
exactly after a 2xx response. A body with no response array is one on which decoding the
batch fails. When decoding fails on a 2xx or 5xx response and the body holds no such error,
the error is the text `failed to decode Skyflow API response` with the body and the decoding
error. -/
theorem decode_failure_records_structured_message (handler : detokenizeFlowHandler)
    (flow : DetokenizeFlow) (hreach : Reachable flow)
    (hhandler : flow.handler = handler.toHandler) (transport : Transport DetokenizePayload)
    (req : Request) (statusCode : Int) (body : String)
    (hreq : flow.buildRequest transport = some (.ok (some req)))
    (hdo : transport.Do req = .response statusCode (.ok body)) :
    (∀ message e,
      handler.json.unmarshalError body = .ok { Error := some { Message := some message } } →
      message ≠ "" →
      (Messaging.IsSuccessfulStatusCode statusCode = true ∨
        Messaging.IsServerErrorStatusCode statusCode = true →
        handler.DecodeBatch flow.indices.length body = .error e) →
      ∃ result, flow.Send transport = some result ∧
        (result.err = if Messaging.IsSuccessfulStatusCode statusCode = true
          then some message else none) ∧
        (∀ index ∈ flow.indices, ∃ o, result.flow.out[index]? = some o ∧
          o.Error = some message ∧
          o.HttpCode = some (if Messaging.IsSuccessfulStatusCode statusCode = true then 500
            else statusCode))) ∧
    (handler.json.unmarshalResponse body = .ok [] →
      handler.DecodeBatch flow.indices.length body =
        .error "received fewer tokens than requested") ∧
    (∀ e, handler.DecodeError body = none →
      (Messaging.IsSuccessfulStatusCode statusCode = true ∨
        Messaging.IsServerErrorStatusCode statusCode = true) →
      handler.DecodeBatch flow.indices.length body = .error e →
      ∃ result, flow.Send transport = some result ∧
        (result.err = if Messaging.IsSuccessfulStatusCode statusCode = true
          then some ("failed to decode Skyflow API response: while decoding \x27" ++ body ++
            "\x27: " ++ e)
          else none) ∧
        (∀ index ∈ flow.indices, ∃ o, result.flow.out[index]? = some o ∧
          o.Error = some ("failed to decode Skyflow API response: while decoding \x27" ++
            body ++ "\x27: " ++ e) ∧
          o.HttpCode = some (if Messaging.IsSuccessfulStatusCode statusCode = true then 500
            else statusCode))) := by
  have hderr : flow.handler.DecodeError body = handler.DecodeError body := by
    rw [hhandler]
    rfl
  have hdbatch : flow.handler.DecodeBatch flow.indices.length body =
      handler.DecodeBatch flow.indices.length body := by
    rw [hhandler]
    rfl
  have hset : ∀ (o : DetokenizeResponseObject) (error : String) (code : Int),
      (flow.handler.SetError o (some error) code).Error = some error ∧
      (flow.handler.SetError o (some error) code).HttpCode = some code := by
    intro o error code
    rw [hhandler]
    exact ⟨rfl, rfl⟩
  refine ⟨?_, ?_, ?_⟩
  · intro message e hjson hne hfails
    have hmsg := decodeError_of_message hjson hne
    by_cases hstatus : Messaging.IsSuccessfulStatusCode statusCode = true ∨
        Messaging.IsServerErrorStatusCode statusCode = true
    · have hdecode := hfails hstatus
      rw [← hdbatch] at hdecode
      obtain ⟨result, h1, h2, h3⟩ := send_of_decode_failure hreach hreq hdo hstatus hdecode
      have hfail : decodeFailure flow body e = message := by
        simp [decodeFailure, hderr, hmsg]
      rw [hfail] at h2 h3
      refine ⟨result, h1, h2, ?_⟩
      intro index hmem
      obtain ⟨o, _, ho⟩ := h3 index hmem
      exact ⟨_, ho, (hset o message _).1, (hset o message _).2⟩
    · simp only [not_or, Bool.not_eq_true] at hstatus
      obtain ⟨result, h1, h2, h3⟩ := send_of_error_status hreach hreq hdo hstatus.1 hstatus.2
      have hfail : flow.decodeError body = message := by
        simp [BatchFlow.decodeError, hderr, hmsg]
      rw [hfail] at h3
      refine ⟨result, h1, by simp [hstatus.1, h2], ?_⟩
      intro index hmem
      obtain ⟨o, _, ho⟩ := h3 index hmem
      refine ⟨_, ho, (hset o message _).1, ?_⟩
      simp [hstatus.1, (hset o message statusCode).2]
  · intro hjson
    have hpos : 0 < flow.indices.length := Nat.pos_of_ne_zero (remaining_of_request hreq)
    exact decodeBatch_fewer handler flow.indices.length body [] hjson hpos
  · intro e hnone hstatus hdecode
    rw [← hdbatch] at hdecode
    obtain ⟨result, h1, h2, h3⟩ := send_of_decode_failure hreach hreq hdo hstatus hdecode
    have hfail : decodeFailure flow body e =
        "failed to decode Skyflow API response: while decoding \x27" ++ body ++ "\x27: " ++
          e := by
      simp [decodeFailure, hderr, hnone]
    rw [hfail] at h2 h3
    refine ⟨result, h1, h2, ?_⟩
    intro index hmem
    obtain ⟨o, _, ho⟩ := h3 index hmem
    exact ⟨_, ho, (hset o _ _).1, (hset o _ _).2⟩

theorem resolvedFlow_reachable : Reachable resolvedFlow :=
  Reachable.sent mixedFlow (answering 207 mixedBody)
    { flow := resolvedFlow, err := none, requests := [mixedRequest] } mixedFlow_reachable rfl

theorem payload_built_from_remaining_inputs_witness :
    resolvedFlow.remainingInput = resolvedFlow.gathered ∧
    ∃ items, resolvedFlow.remainingInput = some items ∧ items.length = 1 ∧
      items.map some = [some "token1"] := by
  obtain ⟨h0, items, h1, h2, h3, _⟩ :=
    payload_built_from_remaining_inputs resolvedFlow resolvedFlow_reachable
  exact ⟨h0, items, h1, h2, by rw [h3]; rfl⟩

theorem send_retries_unreadable_body_witness :
    ∃ result, sampleFlow.Send (unreadable 200 "unexpected EOF") = some result ∧
      result.err = none ∧ result.flow.indices = [0] ∧ result.flow.IsDone = false ∧
      result.flow.out[0]? =
        some { Token := none, Value := none, TokenGroupName := none,
               Error := some "failed to read Skyflow API response body: unexpected EOF",
               HttpCode := some 500, Metadata := [] } := by
  obtain ⟨result, h1, h2, h3, h4, h5, _⟩ := send_retries_unreadable_body sampleFlow
    sampleFlow_reachable (unreadable 200 "unexpected EOF") sampleRequest 200 "unexpected EOF"
    rfl rfl
  obtain ⟨o, ho, hout⟩ := h5 0 (by decide)
  have hdefault : o = default := by
    have : sampleFlow.out[0]? = some default := rfl
    rw [this] at ho
    exact (Option.some.inj ho).symm
  subst hdefault
  exact ⟨result, h1, h2, h3, h4, by rw [hout]; rfl⟩

theorem decode_failure_records_structured_message_witness :
    ∃ result, mixedFlow.Send (answering 200 errorBody) = some result ∧
      result.err = some "bad token" ∧
      (∀ index ∈ mixedFlow.indices, ∃ o, result.flow.out[index]? = some o ∧
        o.Error = some "bad token" ∧ o.HttpCode = some 500) := by
  obtain ⟨result, h1, h2, h3⟩ :=
    (decode_failure_records_structured_message { vaultID := "vaultID", json := mixedJson }
      mixedFlow mixedFlow_reachable rfl (answering 200 errorBody) mixedRequest 200 errorBody
      rfl rfl).1 "bad token" "received fewer tokens than requested" rfl (by decide)
      (fun _ => rfl)
  have hs : Messaging.IsSuccessfulStatusCode 200 = true := by decide
  simp only [hs, if_true] at h2 h3
  exact ⟨result, h1, h2, h3⟩

/-- What `NewBatchFlow` returns for an address that parses: a flow exactly when the host is
not empty and the scheme is `https`, or the host is `localhost`, or the host splits into a
port and the host `localhost` or `127.0.0.1`; the scheme error whenever none of the three
holds, also for an empty host; the host error for an empty host that passes the scheme
check. -/
theorem newBatchFlow_cases [Inhabited O] (lib : UrlLib) (method vaultURL route bearer : String)
    (handler : BatchFlowHandler I O P) (input : List I) (parsed : URL)
    (hparse : lib.Parse vaultURL = .ok parsed) :
    ((∃ flow, NewBatchFlow lib method vaultURL route bearer handler input = .ok flow) ↔
      parsed.Host ≠ "" ∧
        (parsed.Scheme = "https" ∨ parsed.Host = "localhost" ∨
          ∃ host port, lib.SplitHostPort parsed.Host = .ok (host, port) ∧
            (host = "localhost" ∨ host = "127.0.0.1"))) ∧
    (NewBatchFlow lib method vaultURL route bearer handler input =
        .error "invalid vaultURL: must have scheme `https` or point to localhost" ↔
      ¬ (parsed.Scheme = "https" ∨ parsed.Host = "localhost" ∨
          ∃ host port, lib.SplitHostPort parsed.Host = .ok (host, port) ∧
            (host = "localhost" ∨ host = "127.0.0.1"))) ∧
    (NewBatchFlow lib method vaultURL route bearer handler input =
        .error "invalid vaultURL: must have host" ↔
      parsed.Host = "" ∧
        (parsed.Scheme = "https" ∨
          ∃ host port, lib.SplitHostPort parsed.Host = .ok (host, port) ∧
            (host = "localhost" ∨ host = "127.0.0.1"))) := by
  have hne : ("invalid vaultURL: must have scheme `https` or point to localhost" : String) ≠
      "invalid vaultURL: must have host" := by decide
  unfold NewBatchFlow
  rw [hparse]
  cases hsplit : lib.SplitHostPort parsed.Host with
  | error err =>
    simp only [hsplit]
    by_cases hscheme : parsed.Scheme = "https" <;>
      by_cases hlocal : parsed.Host = "localhost" <;>
      by_cases hhost : parsed.Host = "" <;>
      simp [hscheme, hlocal, hhost, hne, hne.symm]
  | ok pair =>
    obtain ⟨host, port⟩ := pair
    simp only [hsplit]
    by_cases hscheme : parsed.Scheme = "https" <;>
      by_cases hlocal : parsed.Host = "localhost" <;>
      by_cases hhost : parsed.Host = "" <;>
      by_cases h1 : host = "localhost" <;>
      by_cases h2 : host = "127.0.0.1" <;>
      simp [hscheme, hlocal, hhost, h1, h2, hne, hne.symm]

/-- An address that does not parse gets the parse error. -/
theorem newBatchFlow_unparsed [Inhabited O] (lib : UrlLib)
    (method vaultURL route bearer : String) (handler : BatchFlowHandler I O P) (input : List I)
    (err : String) (hparse : lib.Parse vaultURL = .error err) :
    NewBatchFlow lib method vaultURL route bearer handler input =
      .error ("invalid vaultURL: " ++ err) := by
  unfold NewBatchFlow
  rw [hparse]

/-- C36. The address `http://127.0.0.1`, which parses with the host `127.0.0.1` and no port
to split off, gets the error `must have scheme https or point to localhost` from
`NewDetokenizeFlow` and no flow, while the same address with a port and the address
`http://localhost` with and without a port each get a flow. -/
theorem new_flow_rejects_loopback_without_port :
    localUrlLib.Parse "http://127.0.0.1" = .ok { Scheme := "http", Host := "127.0.0.1" } ∧
    localUrlLib.SplitHostPort "127.0.0.1" =
      .error "address 127.0.0.1: missing port in address" ∧
    NewDetokenizeFlow localUrlLib sampleJson "vaultID" "http://127.0.0.1" "bearer" ["token"] =
      .error "invalid vaultURL: must have scheme `https` or point to localhost" ∧
    NewDetokenizeFlow localUrlLib sampleJson "vaultID" "http://127.0.0.1:8080" "bearer"
        ["token"] =
      .ok { sampleFlow with vaultURL := "http://127.0.0.1:8080" } ∧
    NewDetokenizeFlow localUrlLib sampleJson "vaultID" "http://localhost" "bearer" ["token"] =
      .ok { sampleFlow with vaultURL := "http://localhost" } ∧
    NewDetokenizeFlow localUrlLib sampleJson "vaultID" "http://localhost:8080" "bearer"
        ["token"] =
      .ok { sampleFlow with vaultURL := "http://localhost:8080" } :=
  ⟨rfl, rfl, rfl, rfl, rfl, rfl⟩

/-- What a successful `DecodeBatch` of the detokenize handler returns: as many entries as
asked for, the last of them not nil. -/
theorem decodeBatch_entries (handler : detokenizeFlowHandler) (size : Nat) (body : String)
    (out : List (Option DetokenizeResponseObject))
    (h : handler.DecodeBatch size body = .ok out) :
    out.length = size ∧ (0 < size → ∃ o, out.getLast? = some (some o)) := by
  unfold detokenizeFlowHandler.DecodeBatch at h
  cases hjson : handler.json.unmarshalResponse body with
  | error err => simp [hjson] at h
  | ok decoded =>
    simp only [hjson] at h
    split at h
    · cases h
    · rename_i hcond
      have hout : decodedSlots size decoded = out := Except.ok.inj h
      subst hout
      refine ⟨decodedSlots_length size decoded, fun hpos => ?_⟩
      rw [decodedSlots_length] at hcond
      cases hlast : (decodedSlots size decoded).getLast? with
      | none =>
        rw [List.getLast?_eq_getElem?, decodedSlots_length,
          List.getElem?_eq_getElem (by rw [decodedSlots_length]; omega)] at hlast
        cases hlast
      | some last =>
        cases last with
        | none => exact absurd ⟨hpos, hlast⟩ hcond
        | some o => exact ⟨o, rfl⟩

/-- C40. A successful `DecodeBatch` of the detokenize handler returns as many entries as
asked for, the last of them not nil; an entry before the last can be nil: on a body whose
array holds a null before an object, `DecodeBatch` for two tokens succeeds with a nil first
entry, and the `Send` of the flow for two tokens that gets this body in a 200 response
panics in `unpackBatch`. -/
theorem decode_batch_accepts_nil_before_last :
    (∀ (handler : detokenizeFlowHandler) (size : Nat) (body : String)
        (out : List (Option DetokenizeResponseObject)),
      handler.DecodeBatch size body = .ok out →
      out.length = size ∧ (0 < size → ∃ o, out.getLast? = some (some o))) ∧
    NewDetokenizeFlow sampleUrlLib nullJson "vaultID" "https://vault-host" "bearer"
      ["other", "token"] = .ok twoFlow ∧
    twoFlow.handler.DecodeBatch twoFlow.indices.length nullBody =
      .ok [none, some sampleObject] ∧
    twoFlow.unpackBatch [none, some sampleObject] = none ∧
    twoFlow.Send (answering 200 nullBody) = none :=
  ⟨decodeBatch_entries, rfl, rfl, rfl, rfl⟩

/-- C7. A `Send` that receives a 2xx or 5xx response whose body decodes to as many items as
remain, none of them nil, returns `nil`, writes item `i` at the position `remaining[i]`,
leaves the other positions as they were, and keeps as remaining the positions whose items
`ShouldRetry` accepts, in order. With a nil entry in the decoded batch it does not: the flow
for two tokens gets a 500 response whose body decodes to two entries, as many as remain,
the first of them nil, and `Send` panics in `unpackBatch`. -/
theorem send_panics_on_nil_entry_of_full_batch :
    (∀ (flow : DetokenizeFlow) (transport : Transport DetokenizePayload) (req : Request)
        (statusCode : Int) (body : String) (items : List DetokenizeResponseObject),
      Reachable flow →
      flow.buildRequest transport = some (.ok (some req)) →
      transport.Do req = .response statusCode (.ok body) →
      (Messaging.IsSuccessfulStatusCode statusCode = true ∨
        Messaging.IsServerErrorStatusCode statusCode = true) →
      flow.handler.DecodeBatch flow.indices.length body = .ok (items.map some) →
      items.length = flow.indices.length →
      ∃ result, flow.Send transport = some result ∧ result.err = none ∧
        (∀ (i index : Nat) (item : DetokenizeResponseObject),
          flow.indices[i]? = some index → items[i]? = some item →
          result.flow.out[index]? = some item) ∧
        (∀ i, i ∉ flow.indices → result.flow.out[i]? = flow.out[i]?) ∧
        result.flow.indices = retried flow.handler.ShouldRetry flow.indices items) ∧
    Reachable twoFlow ∧
    twoFlow.buildRequest (answering 500 nullBody) =
      some (.ok (some { sampleRequest with body := "vaultID:other,token" })) ∧
    (answering 500 nullBody).Do { sampleRequest with body := "vaultID:other,token" } =
      .response 500 (.ok nullBody) ∧
    Messaging.IsServerErrorStatusCode 500 = true ∧
    twoFlow.decodeBatch nullBody = .ok [none, some sampleObject] ∧
    ([none, some sampleObject] : List (Option DetokenizeResponseObject)).length =
      twoFlow.indices.length ∧
    twoFlow.Send (answering 500 nullBody) = none :=
  ⟨fun flow transport req statusCode body items hreach hreq hdo hstatus hdecode hlen =>
      send_unpacks_decoded_batch flow hreach transport req statusCode body items hreq hdo
        hstatus hdecode hlen,
    Reachable.made sampleUrlLib "POST" "https://vault-host" "/v2/tokens/detokenize" "bearer"
      ({ vaultID := "vaultID", json := nullJson } : detokenizeFlowHandler).toHandler
      ["other", "token"] twoFlow rfl,
    rfl, rfl, rfl, rfl, rfl, rfl⟩

/-- C11, as it is stated, fails on a 429 response whose body cannot be read: for the flow
with one remaining item `Send` returns `nil` and the item stays remaining, but the status
recorded on it is 500 and not 429. -/
theorem rate_limited_unreadable_body_records_500 :
    Reachable sampleFlow ∧ sampleFlow.indices = [0] ∧
    sampleFlow.buildRequest (unreadable 429 "unexpected EOF") =
      some (.ok (some sampleRequest)) ∧
    (unreadable 429 "unexpected EOF").Do sampleRequest =
      .response 429 (.error "unexpected EOF") ∧
    (sampleFlow.Send (unreadable 429 "unexpected EOF")).map
        (fun r => (r.err, r.flow.indices, r.flow.out.map (fun o => (o.Error, o.HttpCode)))) =
      some (none, [0],
        [(some "failed to read Skyflow API response body: unexpected EOF", some 500)]) ∧
    (some 500 : Option Int) ≠ some 429 :=
  ⟨sampleFlow_reachable, rfl, rfl, rfl, rfl, by decide⟩

/-- C12, as it is stated, fails on a 404 response whose body cannot be read: for the flow
with one remaining item `Send` returns `nil`, but the status recorded on the item is 500 and
not 404, and the item stays remaining, so that the flow is not done. -/
theorem other_status_unreadable_body_is_retried :
    Reachable sampleFlow ∧ sampleFlow.indices = [0] ∧
    Messaging.IsSuccessfulStatusCode 404 = false ∧
    Messaging.IsServerErrorStatusCode 404 = false ∧ (404 : Int) ≠ 429 ∧
    sampleFlow.buildRequest (unreadable 404 "unexpected EOF") =
      some (.ok (some sampleRequest)) ∧
    (unreadable 404 "unexpected EOF").Do sampleRequest =
      .response 404 (.error "unexpected EOF") ∧
    (sampleFlow.Send (unreadable 404 "unexpected EOF")).map
        (fun r => (r.err, r.flow.indices, r.flow.IsDone,
          r.flow.out.map (fun o => (o.Error, o.HttpCode)))) =
      some (none, [0], false,
        [(some "failed to read Skyflow API response body: unexpected EOF", some 500)]) ∧
    (some 500 : Option Int) ≠ some 404 :=
  ⟨sampleFlow_reachable, rfl, rfl, rfl, by decide, rfl, rfl, rfl, by decide⟩

end Skyflow

namespace Main

open Skyflow Messaging Batching.Sliced

/-- The pairs of indices and tokens that are not null, as `nonNull` takes them from a
batch. -/
theorem nonNull_cons_some (index : Int) (token : String) (is : List Int)
    (vs : List (Option String)) :
    ((index :: is).zip (some token :: vs)).filterMap
        (fun p => p.2.map (fun t => (p.1, t))) =
      (index, token) :: (is.zip vs).filterMap (fun p => p.2.map (fun t => (p.1, t))) := by
  simp [List.filterMap_cons]

theorem nonNull_cons_none (index : Int) (is : List Int) (vs : List (Option String)) :
    ((index :: is).zip (none :: vs)).filterMap (fun p => p.2.map (fun t => (p.1, t))) =
      (is.zip vs).filterMap (fun p => p.2.map (fun t => (p.1, t))) := by
  simp [List.filterMap_cons]

/-- The first loop on indices inside the output, each with its value: it does not panic,
gives the indices and tokens of the tokens that are not null, in order, puts the zero value
at the index of every null token, and leaves the other positions alone. -/
theorem removeNullLoop_spec (is : List Int) :
    ∀ (vs : List (Option String)) (out : List DetokenizeResponseObject) (accI : List Int)
      (accT : List String),
      is.length ≤ vs.length → (∀ i ∈ is, 0 ≤ i ∧ i < out.length) →
      ∃ out1, removeNullLoop is vs out accI accT =
          some (out1,
            accI ++ ((is.zip vs).filterMap (fun p => p.2.map (fun t => (p.1, t)))).map Prod.fst,
            accT ++ ((is.zip vs).filterMap (fun p => p.2.map (fun t => (p.1, t)))).map Prod.snd) ∧
        out1.length = out.length ∧
        (∀ i, (i, none) ∈ is.zip vs → out1[i.toNat]? = some default) ∧
        (∀ j : Nat, ((j : Int), none) ∉ is.zip vs → out1[j]? = out[j]?) := by
  induction is with
  | nil =>
    intro vs out accI accT _ _
    exact ⟨out, by simp [removeNullLoop], rfl, by simp, fun _ _ => rfl⟩
  | cons index rest ih =>
    intro vs out accI accT hlen hin
    cases vs with
    | nil => simp at hlen
    | cons v more =>
      have hlen1 : rest.length ≤ more.length := by simpa using hlen
      have hidx := hin index (List.mem_cons_self _ _)
      cases v with
      | some token =>
        obtain ⟨out1, h1, h2, h3, h4⟩ := ih more out (accI ++ [index]) (accT ++ [token]) hlen1
          (fun i hi => hin i (List.mem_cons_of_mem _ hi))
        refine ⟨out1, ?_, h2, ?_, ?_⟩
        · rw [nonNull_cons_some]
          simp only [removeNullLoop, h1, List.map_cons, List.append_assoc,
            List.singleton_append]
        · intro i hi
          simp only [List.zip_cons_cons, List.mem_cons, Prod.mk.injEq] at hi
          rcases hi with hi | hi
          · exact absurd hi.2 (by simp)
          · exact h3 i hi
        · intro j hj
          simp only [List.zip_cons_cons, List.mem_cons, not_or] at hj
          exact h4 j hj.2
      | none =>
        have hnat : index.toNat < out.length := by omega
        obtain ⟨out1, h1, h2, h3, h4⟩ := ih more (out.set index.toNat default) accI accT hlen1
          (fun i hi => by
            rw [List.length_set]
            exact hin i (List.mem_cons_of_mem _ hi))
        refine ⟨out1, ?_, ?_, ?_, ?_⟩
        · rw [nonNull_cons_none]
          simp only [removeNullLoop, hidx, and_self, if_true, h1]
        · rw [h2, List.length_set]
        · intro i hi
          by_cases hrest : (i, none) ∈ rest.zip more
          · exact h3 i hrest
          · simp only [List.zip_cons_cons, List.mem_cons, Prod.mk.injEq, and_true] at hi
            rcases hi with hi | hi
            · subst hi
              have hback : ((i.toNat : Nat) : Int) = i := Int.toNat_of_nonneg hidx.1
              rw [h4 i.toNat (by rw [hback]; exact hrest), List.getElem?_set_self hnat]
            · exact absurd hi hrest
        · intro j hj
          simp only [List.zip_cons_cons, List.mem_cons, Prod.mk.injEq, and_true, not_or] at hj
          have hne : index.toNat ≠ j := by
            intro h
            apply hj.1
            rw [← h]
            exact Int.toNat_of_nonneg hidx.1
          rw [h4 j hj.2, List.getElem?_set_ne hne]

/-- The last loop on as many results as indices, the indices being distinct positions of the
output: it does not panic, returns no error, writes each result at its index and leaves the
other positions alone. -/
theorem scatter_spec (detokens : List DetokenizeResponseObject) :
    ∀ (indices : List Int) (out : List DetokenizeResponseObject),
      detokens.length = indices.length → (∀ i ∈ indices, 0 ≤ i ∧ i < out.length) →
      indices.Nodup →
      ∃ out2, scatter detokens indices out = some (none, out2) ∧ out2.length = out.length ∧
        (∀ p ∈ indices.zip detokens, out2[p.1.toNat]? = some p.2) ∧
        (∀ j : Nat, (j : Int) ∉ indices → out2[j]? = out[j]?) := by
  induction detokens with
  | nil =>
    intro indices out _ _ _
    exact ⟨out, by simp [scatter], rfl, by simp, fun _ _ => rfl⟩
  | cons detoken rest ih =>
    intro indices out hlen hin hnodup
    cases indices with
    | nil => simp at hlen
    | cons index more =>
      have hlen1 : rest.length = more.length := by simpa using hlen
      have hidx := hin index (List.mem_cons_self _ _)
      have hnat : index.toNat < out.length := by omega
      have hback : ((index.toNat : Nat) : Int) = index := Int.toNat_of_nonneg hidx.1
      simp only [List.nodup_cons] at hnodup
      obtain ⟨out2, h1, h2, h3, h4⟩ := ih more (out.set index.toNat detoken) hlen1
        (fun i hi => by
          rw [List.length_set]
          exact hin i (List.mem_cons_of_mem _ hi))
        hnodup.2
      have hcond : ¬ (index < 0 ∨ index ≥ out.length) := by omega
      refine ⟨out2, ?_, ?_, ?_, ?_⟩
      · simp only [scatter, hcond, if_false, h1]
      · rw [h2, List.length_set]
      · intro p hp
        simp only [List.zip_cons_cons, List.mem_cons] at hp
        rcases hp with hp | hp
        · subst hp
          rw [h4 index.toNat (by rw [hback]; exact hnodup.1), List.getElem?_set_self hnat]
        · exact h3 p hp
      · intro j hj
        simp only [List.mem_cons, not_or] at hj
        have hne : index.toNat ≠ j := by
          intro h
          apply hj.1
          rw [← h, hback]
        rw [h4 j hj.2, List.getElem?_set_ne hne]

/-- The indices of the tokens that are not null are a sublist of the indices. -/
theorem nonNull_fst_sublist (is : List Int) :
    ∀ vs : List (Option String),
      (((is.zip vs).filterMap (fun p => p.2.map (fun t => (p.1, t)))).map Prod.fst).Sublist
        is := by
  induction is with
  | nil => intro vs; simp
  | cons index rest ih =>
    intro vs
    cases vs with
    | nil => simp
    | cons v more =>
      cases v with
      | some token =>
        rw [nonNull_cons_some]
        exact List.Sublist.cons₂ _ (ih more)
      | none =>
        rw [nonNull_cons_none]
        exact List.Sublist.cons _ (ih more)

/-- The tokens that are not null are the values that are not null, when every index has a
value and every value an index. -/
theorem nonNull_snd (is : List Int) :
    ∀ vs : List (Option String), is.length = vs.length →
      ((is.zip vs).filterMap (fun p => p.2.map (fun t => (p.1, t)))).map Prod.snd =
        vs.filterMap id := by
  induction is with
  | nil =>
    intro vs h
    cases vs with
    | nil => rfl
    | cons _ _ => simp at h
  | cons index rest ih =>
    intro vs h
    cases vs with
    | nil => simp at h
    | cons v more =>
      have h1 : rest.length = more.length := by simpa using h
      cases v with
      | some token =>
        rw [nonNull_cons_some]
        simp [ih more h1]
      | none =>
        rw [nonNull_cons_none]
        simp [ih more h1]

/-- Among distinct indices each index is paired with one value. -/
theorem zip_unique {β : Type} (is : List Int) :
    ∀ (vs : List β) (i : Int) (v w : β), is.Nodup → (i, v) ∈ is.zip vs → (i, w) ∈ is.zip vs →
      v = w := by
  induction is with
  | nil => intro vs i v w _ h; simp at h
  | cons index rest ih =>
    intro vs i v w hnodup hv hw
    cases vs with
    | nil => simp at hv
    | cons x more =>
      simp only [List.nodup_cons] at hnodup
      simp only [List.zip_cons_cons, List.mem_cons, Prod.mk.injEq] at hv hw
      rcases hv with hv | hv <;> rcases hw with hw | hw
      · rw [hv.2, hw.2]
      · exact absurd (hv.1 ▸ (List.of_mem_zip hw).1) hnodup.1
      · exact absurd (hw.1 ▸ (List.of_mem_zip hv).1) hnodup.1
      · exact ih more i v w hnodup.2 hv hw

theorem mem_zip_of_getElem? {α β : Type} {is : List α} {vs : List β} {p : Nat} {i : α} {v : β}
    (hi : is[p]? = some i) (hv : vs[p]? = some v) : (i, v) ∈ is.zip vs := by
  rw [List.mem_iff_getElem?]
  exact ⟨p, List.getElem?_zip_eq_some.mpr ⟨hi, hv⟩⟩

/-- C30, amended. When the batch has a value for every index, its indices are distinct
positions of the output, the flow factory returns a flow for the tokens that are not null, in
batch order, under the vault ID of the key, the request sender returns `nil`, and the flow
has one result for each of those tokens, then `Submit` returns `nil` and afterwards the
output has the zero value at the index of every null token and, at the index of every other
token, the result of the flow for that token; the positions the batch does not name are as
they were. -/
theorem submit_scatters_results_by_index (submitter : BatchSubmitter) (key : BatchKey)
    (batch : Batch (Option String)) (flow flow1 : DetokenizeFlow)
    (hvalues : batch.Indices.len = batch.Values.len)
    (hinside : ∀ index ∈ batch.Indices.items, 0 ≤ index ∧ index < submitter.out.length)
    (hdistinct : batch.Indices.items.Nodup)
    (hfactory : submitter.RequestFlowFactory key.VaultID submitter.vaultURL submitter.bearer
      ((nonNull batch).map Prod.snd) = .ok flow)
    (hsender : submitter.RequestSender flow DefaultExponentialBackoff = (none, flow1))
    (hresults : flow1.Results.length = (nonNull batch).length) :
    (nonNull batch).map Prod.snd = batch.Values.items.filterMap id ∧
    ∃ out, submitter.Submit key batch = some (none, out) ∧
      out.length = submitter.out.length ∧
      (∀ (p : Nat) (index : Int), batch.Indices.items[p]? = some index →
        batch.Values.items[p]? = some none →
        out[index.toNat]? = some default) ∧
      (∀ (p : Nat) (index : Int) (token : String), batch.Indices.items[p]? = some index →
        batch.Values.items[p]? = some (some token) →
        ∃ (k : Nat) (detoken : DetokenizeResponseObject),
          (nonNull batch)[k]? = some (index, token) ∧
          flow1.Results[k]? = some detoken ∧ out[index.toNat]? = some detoken) ∧
      (∀ j : Nat, (j : Int) ∉ batch.Indices.items → out[j]? = submitter.out[j]?) := by
  have hlen : batch.Indices.items.length = batch.Values.items.length := hvalues
  refine ⟨nonNull_snd _ _ hlen, ?_⟩
  obtain ⟨out1, h1, h2, h3, h4⟩ := removeNullLoop_spec batch.Indices.items batch.Values.items
    submitter.out [] [] (Nat.le_of_eq hlen) hinside
  have hsub := nonNull_fst_sublist batch.Indices.items batch.Values.items
  obtain ⟨out2, g1, g2, g3, g4⟩ := scatter_spec flow1.Results ((nonNull batch).map Prod.fst)
    out1 (by rw [hresults, List.length_map])
    (fun i hi => by
      rw [h2]
      exact hinside i (hsub.subset hi))
    (hdistinct.sublist hsub)
  have hremove : submitter.submitAndRemoveNullTokens batch =
      some (out1, (nonNull batch).map Prod.fst, (nonNull batch).map Prod.snd) := by
    simpa [BatchSubmitter.submitAndRemoveNullTokens, nonNull] using h1
  refine ⟨out2, ?_, by rw [g2, h2], ?_, ?_, ?_⟩
  · simp only [BatchSubmitter.Submit, hremove, hfactory, hsender, g1]
  · intro p index hi hv
    have hmem := mem_zip_of_getElem? hi hv
    have hnat : ((index.toNat : Nat) : Int) = index :=
      Int.toNat_of_nonneg (hinside index (List.of_mem_zip hmem).1).1
    have hnot : ((index.toNat : Nat) : Int) ∉ (nonNull batch).map Prod.fst := by
      rw [hnat]
      intro hin
      obtain ⟨q, hq, hfst⟩ := List.mem_map.mp hin
      obtain ⟨pair, hpair, hmap⟩ := List.mem_filterMap.mp hq
      obtain ⟨i, v⟩ := pair
      cases v with
      | none => simp at hmap
      | some token =>
        simp only [Option.map_some', Option.some.injEq] at hmap
        subst hmap
        simp only at hfst
        subst hfst
        exact absurd (zip_unique _ _ _ _ _ hdistinct hmem hpair) (by simp)
    rw [g4 index.toNat hnot]
    exact h3 index hmem
  · intro p index token hi hv
    have hmem := mem_zip_of_getElem? hi hv
    have hnn : (index, token) ∈ nonNull batch :=
      List.mem_filterMap.mpr ⟨(index, some token), hmem, rfl⟩
    obtain ⟨k, hk⟩ := List.mem_iff_getElem?.mp hnn
    have hklt : k < (nonNull batch).length := by
      by_contra hge
      rw [List.getElem?_eq_none (by omega)] at hk
      simp at hk
    have hk2 : k < flow1.Results.length := by omega
    have hres : flow1.Results[k]? = some flow1.Results[k] := List.getElem?_eq_getElem hk2
    refine ⟨k, _, hk, hres, ?_⟩
    have hpair : (index, flow1.Results[k]) ∈
        ((nonNull batch).map Prod.fst).zip flow1.Results :=
      mem_zip_of_getElem? (by simp [hk]) hres
    exact g3 _ hpair
  · intro j hj
    have hnot : (j : Int) ∉ (nonNull batch).map Prod.fst := fun h => hj (hsub.subset h)
    rw [g4 j hnot]
    exact h4 j (fun h => hj (List.of_mem_zip h).1)

/-- C30, as it is stated, fails on a batch that names a position twice: the factory and the
sender succeed, every index of the batch is inside the output and `Submit` returns `nil`, yet
the position of the null token holds the result of the other token, not the zero value. -/
theorem submit_repeated_index_overwrites_null :
    (∀ index ∈ repeatedIndex.Indices.items,
      0 ≤ index ∧ index < (sampleSubmitter [default]).out.length) ∧
    (sampleSubmitter [default]).RequestFlowFactory "vaultID" "https://vault-host" "bearer"
      ["token"] = .ok sampleFlow ∧
    ((sampleSubmitter [default]).RequestSender sampleFlow DefaultExponentialBackoff).1 = none ∧
    repeatedIndex.Indices.items[0]? = some 0 ∧ repeatedIndex.Values.items[0]? = some none ∧
    (sampleSubmitter [default]).Submit { VaultID := "vaultID" } repeatedIndex =
      some (none, [sampleObject]) ∧
    [sampleObject][(0 : Int).toNat]? ≠ some default :=
  ⟨by decide, rfl, rfl, rfl, rfl, rfl, by decide⟩

theorem submit_scatters_results_by_index_witness :
    ∃ out, (sampleSubmitter [sampleObject, default]).Submit { VaultID := "vaultID" }
        sampleTokens = some (none, out) ∧
      out[0]? = some default ∧ out[1]? = some sampleObject := by
  obtain ⟨out, h1, _, h3, h4, _⟩ :=
    (submit_scatters_results_by_index (sampleSubmitter [sampleObject, default])
      { VaultID := "vaultID" } sampleTokens sampleFlow
      { sampleFlow with out := [sampleObject], indices := [] }
      rfl (by decide) (by decide) rfl rfl rfl).2
  obtain ⟨k, detoken, hk, hres, hout⟩ := h4 0 1 "token" rfl rfl
  have hzero : k = 0 := by
    cases k with
    | zero => rfl
    | succ n => simp [nonNull, sampleTokens, Slice.ofList] at hk
  subst hzero
  have hd : detoken = sampleObject := by
    have : ({ sampleFlow with out := [sampleObject], indices := [] } :
        DetokenizeFlow).Results[0]? = some sampleObject := rfl
    rw [this] at hres
    exact (Option.some.inj hres).symm
  subst hd
  exact ⟨out, h1, h3 1 0 rfl rfl, hout⟩

/-- `ValidateNumberOfCallArguments` fails exactly on a call that does not have two
arguments. -/
theorem validate_iff (call : List Argument) :
    (call.length = 2 → ValidateNumberOfCallArguments call = none) ∧
    (call.length ≠ 2 →
      ValidateNumberOfCallArguments call = some "exactly 2 arguments are expected") := by
  constructor
  · intro h
    simp [ValidateNumberOfCallArguments, h]
  · intro h
    simp only [ValidateNumberOfCallArguments, bne_iff_ne, ne_eq, h, not_false_eq_true, if_true]
    rfl

/-- C31. Over an empty output and with the factory and the sender succeeding, `Submit` on
the batch of one string token for the position 0 returns the error `batch indices must match
output size: found index 0, output size 0` and writes nothing, but on the batch of one null
token for the position 0 it panics: the loop that removes the null tokens writes the zero
value at the index without the check the last loop makes. -/
theorem submit_null_token_outside_output_panics :
    (sampleSubmitter []).Submit { VaultID := "vaultID" } stringToken =
      some (some "batch indices must match output size: found index 0, output size 0", []) ∧
    (sampleSubmitter []).RequestFlowFactory "vaultID" "https://vault-host" "bearer" [] =
      .ok emptyFlow ∧
    ((sampleSubmitter []).RequestSender emptyFlow DefaultExponentialBackoff).1 = none ∧
    nullToken.Indices.items = [0] ∧ nullToken.Values.items = [none] ∧
    (sampleSubmitter []).submitAndRemoveNullTokens nullToken = none ∧
    (sampleSubmitter []).Submit { VaultID := "vaultID" } nullToken = none :=
  ⟨rfl, rfl, rfl, rfl, rfl, rfl, rfl⟩

/-- C37. `GetBatchKey` and `GetBatchValue` always return. `GetBatchKey` returns an error
exactly when the call does not have two arguments or its first argument is not a string, and
the first argument as the vault ID otherwise. `GetBatchValue` returns an error exactly when
the call does not have two arguments or its second argument is neither null nor a string,
and otherwise nil for a null token and the string for a string. A call that does not have two
arguments gets the error `exactly 2 arguments are expected` from both. -/
theorem getters_fail_iff_arguments_malformed (call : List Argument) :
    (∃ key err, GetBatchKey call = some (key, err) ∧
      (err ≠ none ↔ (call.length ≠ 2 ∨ ∀ vaultID, call[0]? ≠ some (.string vaultID))) ∧
      (call.length ≠ 2 → err = some "exactly 2 arguments are expected") ∧
      (call.length = 2 → (∀ vaultID, call[0]? ≠ some (.string vaultID)) →
        err = some "vaultId argument must be a string") ∧
      (∀ vaultID, call.length = 2 → call[0]? = some (.string vaultID) →
        key = { VaultID := vaultID } ∧ err = none)) ∧
    (∃ value err, GetBatchValue call = some (value, err) ∧
      (err ≠ none ↔ (call.length ≠ 2 ∨
        (call[1]? ≠ some .null ∧ ∀ token, call[1]? ≠ some (.string token)))) ∧
      (err ≠ none → value = none) ∧
      (call.length ≠ 2 → err = some "exactly 2 arguments are expected") ∧
      (call.length = 2 → call[1]? ≠ some .null →
        (∀ token, call[1]? ≠ some (.string token)) →
        err = some "token argument must be a string") ∧
      (call.length = 2 → call[1]? = some .null → value = none ∧ err = none) ∧
      (∀ token, call.length = 2 → call[1]? = some (.string token) →
        value = some token ∧ err = none)) := by
  by_cases hlen : call.length = 2
  · have hvalid := (validate_iff call).1 hlen
    match call, hlen with
    | [first, second], _ =>
      constructor
      · cases first with
        | null =>
          exact ⟨{ VaultID := "" }, some "vaultId argument must be a string",
            by simp [GetBatchKey, hvalid], by simp, by simp, by simp, by simp⟩
        | string vaultID =>
          exact ⟨{ VaultID := vaultID }, none, by simp [GetBatchKey, hvalid], by simp, by simp,
            by simp, by simp⟩
        | other json =>
          exact ⟨{ VaultID := "" }, some "vaultId argument must be a string",
            by simp [GetBatchKey, hvalid], by simp, by simp, by simp, by simp⟩
      · cases second with
        | null =>
          exact ⟨none, none, by simp [GetBatchValue, hvalid], by simp, by simp, by simp,
            by simp, by simp, by simp⟩
        | string token =>
          exact ⟨some token, none, by simp [GetBatchValue, hvalid], by simp, by simp, by simp,
            by simp, by simp, by simp⟩
        | other json =>
          exact ⟨none, some "token argument must be a string",
            by simp [GetBatchValue, hvalid], by simp, by simp, by simp, by simp, by simp,
            by simp⟩
  · have hvalid := (validate_iff call).2 hlen
    constructor
    · refine ⟨{ VaultID := "" }, some "exactly 2 arguments are expected", ?_, by simp [hlen],
        fun _ => rfl, fun h => absurd h hlen, fun _ h => absurd h hlen⟩
      simp [GetBatchKey, hvalid]
    · refine ⟨none, some "exactly 2 arguments are expected", ?_, by simp [hlen], fun _ => rfl,
        fun _ => rfl, fun h => absurd h hlen, fun h => absurd h hlen, fun _ h => absurd h hlen⟩
      simp [GetBatchValue, hvalid]

end Main
